import Mathlib

/-!
Verification development for the SOP world-network extractor
(`ssl_fixed_extractor_v3.py`).

The file shallowly embeds the parts of the program that the statements
below are about:

* the compact graph kernel of the final script in the file
  (`NodeType`, `EdgeType`, `LinkStatus`, `WorldNetwork.create_node`,
  `WorldNetwork.create_edge`),
* its `SOPParser`, `WorldNetworkBuilder` and `DeepLinkResolver`
  (`resolve_all`, `_resolve`, `_merge`),
* `WorldNetwork.get_decision_path` of the first script in the file.

Python dictionaries are embedded as insertion-ordered association lists
(`dset` mutates in place keeping the position, inserts fresh keys at the
end, exactly like CPython dicts); exceptions become `Except`; the
external world (filesystem lookup of referenced PDFs and the PDF text
extraction library) is a parameter, as are the services of the `re` and
`hashlib` libraries that the parser consumes (each such parameter is
documented with the regular expression it stands for).
-/

/-! ## Ordered association lists (Python `dict` embedding) -/

/-- Lookup in an insertion-ordered association list (`d[k]` / `d.get(k)`). -/
def alookup {α : Type} : List (String × α) → String → Option α
  | [], _ => none
  | (k', v) :: t, k => if k' = k then some v else alookup t k

/-- Python `d[k] = v`: replace in place if the key exists, else append. -/
def dset {α : Type} : List (String × α) → String → α → List (String × α)
  | [], k, v => [(k, v)]
  | (k', v') :: t, k, v => if k' = k then (k, v) :: t else (k', v') :: dset t k v

/-- Python `d[k].f = ...`: update the value at a key in place (no-op if absent). -/
def dmodify {α : Type} : List (String × α) → String → (α → α) → List (String × α)
  | [], _, _ => []
  | (k', v') :: t, k, f => if k' = k then (k', f v') :: t else (k', v') :: dmodify t k f

/-- Python `k in d`. -/
def dmem {α : Type} (l : List (String × α)) (k : String) : Bool :=
  (alookup l k).isSome

/-- Keys of an association list, in insertion order (`d.keys()`). -/
def dkeys {α : Type} (l : List (String × α)) : List String := l.map (·.1)

/-- Values of an association list, in insertion order (`d.values()`). -/
def dvals {α : Type} (l : List (String × α)) : List α := l.map (·.2)

theorem alookup_dset_self {α : Type} (l : List (String × α)) (k : String) (v : α) :
    alookup (dset l k v) k = some v := by
  induction l with
  | nil => simp [dset, alookup]
  | cons h t ih =>
    obtain ⟨k', v'⟩ := h
    by_cases hk : k' = k
    · simp [dset, hk, alookup]
    · simp [dset, hk, alookup, ih]

theorem alookup_dset_ne {α : Type} (l : List (String × α)) (k k' : String) (v : α)
    (h : k ≠ k') : alookup (dset l k v) k' = alookup l k' := by
  induction l with
  | nil => simp [dset, alookup, h]
  | cons hd t ih =>
    obtain ⟨k0, v0⟩ := hd
    by_cases hk : k0 = k
    · subst hk; simp [dset, alookup, h]
    · simp [dset, hk, alookup]
      by_cases hk' : k0 = k'
      · simp [hk']
      · simp [hk', ih]

theorem alookup_dmodify_self {α : Type} (l : List (String × α)) (k : String) (f : α → α) :
    alookup (dmodify l k f) k = (alookup l k).map f := by
  induction l with
  | nil => simp [dmodify, alookup]
  | cons hd t ih =>
    obtain ⟨k0, v0⟩ := hd
    by_cases hk : k0 = k
    · simp [dmodify, hk, alookup]
    · simp [dmodify, hk, alookup, ih]

theorem alookup_dmodify_ne {α : Type} (l : List (String × α)) (k k' : String) (f : α → α)
    (h : k ≠ k') : alookup (dmodify l k f) k' = alookup l k' := by
  induction l with
  | nil => simp [dmodify]
  | cons hd t ih =>
    obtain ⟨k0, v0⟩ := hd
    by_cases hk : k0 = k
    · subst hk; simp [dmodify, alookup, h]
    · simp [dmodify, hk, alookup]
      by_cases hk' : k0 = k'
      · simp [hk']
      · simp [hk', ih]

theorem dset_fresh_append {α : Type} (l : List (String × α)) (k : String) (v : α)
    (h : alookup l k = none) : dset l k v = l ++ [(k, v)] := by
  induction l with
  | nil => simp [dset]
  | cons hd t ih =>
    obtain ⟨k0, v0⟩ := hd
    by_cases hk : k0 = k
    · simp [alookup, hk] at h
    · simp [alookup, hk] at h
      simp [dset, hk, ih h]

theorem dkeys_dmodify {α : Type} (l : List (String × α)) (k : String) (f : α → α) :
    dkeys (dmodify l k f) = dkeys l := by
  induction l with
  | nil => simp [dmodify]
  | cons hd t ih =>
    obtain ⟨k0, v0⟩ := hd
    by_cases hk : k0 = k
    · simp [dmodify, hk, dkeys]
    · simp [dmodify, hk, dkeys] at *
      exact ih

theorem alookup_append_left {α : Type} (l l' : List (String × α)) (k : String) (v : α)
    (h : alookup l k = some v) : alookup (l ++ l') k = some v := by
  induction l with
  | nil => simp [alookup] at h
  | cons hd t ih =>
    obtain ⟨k0, v0⟩ := hd
    by_cases hk : k0 = k
    · simp [alookup, hk] at h ⊢; exact h
    · simp [alookup, hk] at h ⊢; exact ih h

theorem alookup_eq_none_of_not_mem_keys {α : Type} (l : List (String × α)) (k : String)
    (h : k ∉ dkeys l) : alookup l k = none := by
  induction l with
  | nil => rfl
  | cons hd t ih =>
    obtain ⟨k0, v0⟩ := hd
    simp only [dkeys, List.map_cons, List.mem_cons] at h
    push_neg at h
    have hne : ¬ k0 = k := fun hh => h.1 hh.symm
    simp only [alookup, hne, if_false]
    exact ih h.2

theorem mem_keys_of_alookup {α : Type} (l : List (String × α)) (k : String) (v : α)
    (h : alookup l k = some v) : k ∈ dkeys l := by
  by_contra hc
  rw [alookup_eq_none_of_not_mem_keys l k hc] at h
  exact Option.noConfusion h

/-! ## Decimal rendering of the id counters

The source allocates identifiers with `f"node_{self._nc:04d}"` and
`f"edge_{self._ec:04d}"`.  `natDigits` is ordinary decimal notation and
`padTo4` is the `04d` left zero-padding. -/

/-- Decimal digit character. -/
def digitChar (d : Nat) : Char :=
  match d with
  | 0 => '0' | 1 => '1' | 2 => '2' | 3 => '3' | 4 => '4'
  | 5 => '5' | 6 => '6' | 7 => '7' | 8 => '8' | _ => '9'

/-- Numeric value of a digit character. -/
def digitVal (c : Char) : Nat := c.toNat - 48

/-- Decimal digits of a natural number, most significant first
(the fuel argument makes the recursion structural; any fuel above the
number itself is enough). -/
def natDigitsGo : Nat → Nat → List Char
  | 0, _ => []
  | f + 1, n =>
    if n < 10 then [digitChar n]
    else natDigitsGo f (n / 10) ++ [digitChar (n % 10)]

/-- Decimal digits of a natural number, most significant first. -/
def natDigits (n : Nat) : List Char := natDigitsGo (n + 1) n

/-- Value of a digit string. -/
def valDigits (l : List Char) : Nat := l.foldl (fun a c => 10 * a + digitVal c) 0

/-- Python's `%04d`: pad with zeros on the left to width 4. -/
def padTo4 (l : List Char) : List Char := List.replicate (4 - l.length) '0' ++ l

theorem digitVal_digitChar (d : Nat) (h : d < 10) : digitVal (digitChar d) = d := by
  interval_cases d <;> rfl

theorem valDigits_go (l : List Char) (a : Nat) :
    l.foldl (fun a c => 10 * a + digitVal c) a =
      a * 10 ^ l.length + valDigits l := by
  induction l generalizing a with
  | nil => simp [valDigits]
  | cons c t ih =>
    simp only [List.foldl_cons, List.length_cons]
    rw [ih (10 * a + digitVal c)]
    have hv : valDigits (c :: t) = digitVal c * 10 ^ t.length + valDigits t := by
      have h1 : valDigits (c :: t) =
          t.foldl (fun a c => 10 * a + digitVal c) (10 * 0 + digitVal c) := rfl
      rw [h1, ih (10 * 0 + digitVal c)]
      ring_nf
    rw [hv, pow_succ]
    ring

theorem valDigits_append (l l' : List Char) :
    valDigits (l ++ l') = valDigits l * 10 ^ l'.length + valDigits l' := by
  simp only [valDigits, List.foldl_append]
  exact valDigits_go l' _

theorem valDigits_natDigitsGo : ∀ f n, n < f → valDigits (natDigitsGo f n) = n := by
  intro f
  induction f with
  | zero => intro n h; omega
  | succ f ih =>
    intro n h
    show valDigits (if n < 10 then [digitChar n]
      else natDigitsGo f (n / 10) ++ [digitChar (n % 10)]) = n
    by_cases h10 : n < 10
    · rw [if_pos h10]
      have hv : valDigits [digitChar n] = digitVal (digitChar n) := by
        simp [valDigits]
      rw [hv, digitVal_digitChar n h10]
    · rw [if_neg h10]
      rw [valDigits_append]
      rw [ih (n / 10) (by omega)]
      have h1 : valDigits [digitChar (n % 10)] = n % 10 := by
        have hv : valDigits [digitChar (n % 10)] = digitVal (digitChar (n % 10)) := by
          simp [valDigits]
        rw [hv, digitVal_digitChar (n % 10) (Nat.mod_lt n (by omega))]
      rw [h1]
      have h2 : ([digitChar (n % 10)] : List Char).length = 1 := rfl
      rw [h2, pow_one]
      omega

theorem valDigits_natDigits (n : Nat) : valDigits (natDigits n) = n :=
  valDigits_natDigitsGo (n + 1) n (by omega)

theorem valDigits_replicate_zero (k : Nat) (a : Nat) :
    (List.replicate k '0').foldl (fun a c => 10 * a + digitVal c) (a : Nat) = a * 10 ^ k := by
  induction k generalizing a with
  | zero => simp
  | succ k ih =>
    simp only [List.replicate_succ, List.foldl_cons]
    rw [ih]
    have h0 : digitVal '0' = 0 := rfl
    rw [h0, pow_succ]
    ring

theorem valDigits_padTo4 (l : List Char) : valDigits (padTo4 l) = valDigits l := by
  simp only [padTo4, valDigits, List.foldl_append]
  rw [valDigits_replicate_zero]
  simp

/-- Identifier for the `n`-th created node: `f"node_{n:04d}"`. -/
def mkNodeId (n : Nat) : String := "node_" ++ String.mk (padTo4 (natDigits n))

/-- Identifier for the `n`-th created edge: `f"edge_{n:04d}"`. -/
def mkEdgeId (n : Nat) : String := "edge_" ++ String.mk (padTo4 (natDigits n))

theorem string_append_data (s t : String) : (s ++ t).data = s.data ++ t.data := rfl

theorem mkNodeId_injective : Function.Injective mkNodeId := by
  intro a b h
  have hd : (mkNodeId a).data = (mkNodeId b).data := by rw [h]
  simp only [mkNodeId, string_append_data] at hd
  have h2 : (String.mk (padTo4 (natDigits a))).data = (String.mk (padTo4 (natDigits b))).data :=
    List.append_cancel_left hd
  simp only [String.mk] at h2
  have := congrArg valDigits h2
  rwa [valDigits_padTo4, valDigits_padTo4, valDigits_natDigits, valDigits_natDigits] at this

theorem mkEdgeId_injective : Function.Injective mkEdgeId := by
  intro a b h
  have hd : (mkEdgeId a).data = (mkEdgeId b).data := by rw [h]
  simp only [mkEdgeId, string_append_data] at hd
  have h2 : (String.mk (padTo4 (natDigits a))).data = (String.mk (padTo4 (natDigits b))).data :=
    List.append_cancel_left hd
  simp only [String.mk] at h2
  have := congrArg valDigits h2
  rwa [valDigits_padTo4, valDigits_padTo4, valDigits_natDigits, valDigits_natDigits] at this

/-! ## Graph kernel of the deep-linking script

Embeds the enums and dataclasses of the final script of
`ssl_fixed_extractor_v3.py` (`NodeType`, `EdgeType`, `LinkStatus`,
`Entity`, `NetworkNode`, `NetworkEdge`, `ProcedureReference`,
`VersionInfo`, `WorldNetwork`).  The `section` attribute of a node is
called `sectionLabel` here because `section` is a Lean keyword; the
`metadata : Dict[str, Any]` field of `NetworkNode`, never written by
this script, is omitted. -/

inductive NodeType where
  | root | claim_type | decision | action
  | branch_yes | branch_no | branch_unsure
  | reference | linked_procedure | step
deriving DecidableEq, Repr

inductive EdgeType where
  | sequence | condition_yes | condition_no | condition_unsure
  | reference | deep_link | contains
deriving DecidableEq, Repr

/-- The four values of the `LinkStatus` enum; `ProcedureReference.status`
is the plain string `status: str = "pending"` in the source, so statuses
are embedded as strings. -/
def LinkStatus.pending : String := "pending"

/-- Value of `LinkStatus.RESOLVED`. -/
def LinkStatus.resolved : String := "resolved"

/-- Value of `LinkStatus.NOT_FOUND`. -/
def LinkStatus.not_found : String := "not_found"

/-- Value of `LinkStatus.ERROR`. -/
def LinkStatus.error : String := "error"

structure Entity where
  id : String
  name : String
  entity_type : String
  value : String
deriving DecidableEq, Repr

structure NetworkNode where
  id : String
  node_type : NodeType
  content : String
  sectionLabel : Option String
  step_number : Option Nat
  procedure_code : Option String
deriving DecidableEq, Repr

structure NetworkEdge where
  id : String
  source_id : String
  target_id : String
  edge_type : EdgeType
  condition : Option String
deriving DecidableEq, Repr

structure ProcedureReference where
  id : String
  procedure_code : String
  title : String
  status : String
  source_file : Option String
  error_message : Option String
deriving DecidableEq, Repr

structure VersionInfo where
  revision : String
  date : String
  description : String
deriving DecidableEq, Repr

/-- The builder stores `network.metadata = {'title': ..., 'status': ...}`. -/
structure DocMeta where
  title : String
  status : String
deriving DecidableEq, Repr

structure WorldNetwork where
  document_id : String
  document_name : String
  current_version : String
  nodes : List (String × NetworkNode)
  edges : List (String × NetworkEdge)
  entities : List (String × Entity)
  procedure_refs : List (String × ProcedureReference)
  versions : List VersionInfo
  claim_type_roots : List (String × String)
  linked_procedures : List (String × String)
  metadata : DocMeta
  nc : Nat
  ec : Nat
deriving DecidableEq, Repr

/-- `WorldNetwork.__init__(doc_id, doc_name)`. -/
def WorldNetwork.init (doc_id doc_name : String) : WorldNetwork :=
  { document_id := doc_id, document_name := doc_name, current_version := "1.0",
    nodes := [], edges := [], entities := [], procedure_refs := [],
    versions := [], claim_type_roots := [], linked_procedures := [],
    metadata := { title := "", status := "" }, nc := 0, ec := 0 }

/-- `WorldNetwork.create_node`: bump the node counter, allocate the id
`f"node_{self._nc:04d}"`, store and return the node. -/
def create_node (net : WorldNetwork) (nt : NodeType) (content : String)
    (sectionLabel : Option String) (step_number : Option Nat)
    (procedure_code : Option String) : NetworkNode × WorldNetwork :=
  let nc := net.nc + 1
  let nid := mkNodeId nc
  let n : NetworkNode :=
    { id := nid, node_type := nt, content := content,
      sectionLabel := sectionLabel, step_number := step_number,
      procedure_code := procedure_code }
  (n, { net with nc := nc, nodes := dset net.nodes nid n })

/-- `WorldNetwork.create_edge`: bump the edge counter, allocate the id
`f"edge_{self._ec:04d}"`, store and return the edge. -/
def create_edge (net : WorldNetwork) (src tgt : String) (et : EdgeType)
    (cond : Option String) : NetworkEdge × WorldNetwork :=
  let ec := net.ec + 1
  let eid := mkEdgeId ec
  let e : NetworkEdge :=
    { id := eid, source_id := src, target_id := tgt, edge_type := et,
      condition := cond }
  (e, { net with ec := ec, edges := dset net.edges eid e })

/-- `WorldNetwork.get_outgoing_edges`. -/
def get_outgoing_edges (net : WorldNetwork) (nid : String) : List NetworkEdge :=
  (dvals net.edges).filter (fun e => e.source_id == nid)

/-! ## Python string helpers used by the parser glue -/

/-- ASCII whitespace as recognized by Python's `str.strip` and `\s`. -/
def isPySpace (c : Char) : Bool :=
  c = ' ' || c = '\t' || c = '\n' || c = '\r' || c = Char.ofNat 11 || c = Char.ofNat 12

/-- Python `str.strip()`. -/
def pstrip (s : String) : String :=
  String.mk (((s.data.dropWhile isPySpace).reverse.dropWhile isPySpace).reverse)

/-- Python slicing `t[a:b]` by character positions. -/
def pslice (s : String) (a b : Nat) : String :=
  String.mk ((s.data.drop a).take (b - a))

/-- Python `str.lower()` (ASCII). -/
def lowerStr (s : String) : String := String.mk (s.data.map Char.toLower)

/-- List starts with the given list. -/
def startsWithL : List Char → List Char → Bool
  | [], _ => true
  | _ :: _, [] => false
  | a :: as, b :: bs => a == b && startsWithL as bs

/-- Substring test (`sub in s` on char lists). -/
def hasInfixL (sub : List Char) : List Char → Bool
  | [] => startsWithL sub []
  | c :: t => startsWithL sub (c :: t) || hasInfixL sub t

/-- Python `t.split('\n')`. -/
def splitLinesAux : List Char → List Char → List String
  | [], acc => [String.mk acc.reverse]
  | c :: t, acc =>
    if c = '\n' then String.mk acc.reverse :: splitLinesAux t []
    else splitLinesAux t (c :: acc)

/-- Python `t.split('\n')`. -/
def splitLines (s : String) : List String := splitLinesAux s.data []

/-- Python `list(set(xs))`, determinized to first-occurrence order (CPython's
set iteration order is unspecified; no statement below depends on this order). -/
def pdedupAux : List String → List String → List String
  | [], _ => []
  | x :: t, seen =>
    if seen.contains x then pdedupAux t seen else x :: pdedupAux t (x :: seen)

/-- Python `list(set(xs))` with first-occurrence order. -/
def pdedup (xs : List String) : List String := pdedupAux xs []

/-! ## SOPParser of the deep-linking script

The structural records mirror the dicts produced by `SOPParser.parse`.
`btype` embeds the branch dict's `type` key. -/

structure ParsedBranch where
  btype : String
  content : String
  procedure_refs : List String
deriving DecidableEq, Repr

structure ParsedStep where
  number : Nat
  content : String
  full_text : String
  is_decision : Bool
  branches : List ParsedBranch
  procedure_refs : List String
deriving DecidableEq, Repr

structure ParsedSection where
  name : String
  steps : List ParsedStep
  procedure_refs : List String
deriving DecidableEq, Repr

structure ParsedRef where
  code : String
  title : String
deriving DecidableEq, Repr

structure DocInfo where
  title : String
  document_id : String
  status : String
deriving DecidableEq, Repr

structure ParsedDoc where
  document_info : DocInfo
  versions : List VersionInfo
  sections : List ParsedSection
  procedure_references : List ParsedRef
  raw_text : String
deriving DecidableEq, Repr

/-- Services of the external `re` and `hashlib` libraries that the script
consumes.  Each field stands for one fixed pattern of the source; a field
returns raw match groups (with character positions where the source uses
`m.start()`), and the embedded glue code applies the same `strip`,
de-duplication, slicing and ordering steps as the source. -/
structure ReEnv where
  /-- `re.search(r'^#\s+(.+?)(?:\n|$)', t, re.MULTILINE)`, group 1. -/
  titleHit : String → Option String
  /-- `re.search(r'\b(P\d{3,4})\b', t)`, group 1. -/
  docIdHit : String → Option String
  /-- `VER_PAT.finditer(t)`: triples (group 1, group 2, group 3). -/
  verHits : String → List (String × String × String)
  /-- For every pattern in `SOPParser.PATTERNS` in order,
  `re.finditer(p, t, re.MULTILINE | re.IGNORECASE)`: pairs
  (match start, group 1). -/
  sectionHits : String → List (Nat × String)
  /-- `STEP_PAT.finditer(t)`: triples (match start, int(group 1), group 2). -/
  stepHits : String → List (Nat × Nat × String)
  /-- `PROC_PAT.findall(t)`, in match order, duplicates kept. -/
  procHits : String → List String
  /-- `re.search(rf'{c}\s*[-:]\s*([^.\n]+)', t)` for a code `c`, group 1. -/
  refTitleHit : String → String → Option String
  /-- The `Yes` branch-marker regex applied to one stripped line, group 2. -/
  yesHit : String → Option String
  /-- The `No` branch-marker regex applied to one stripped line, group 2. -/
  noHit : String → Option String
  /-- The `Unsure` branch-marker regex applied to one stripped line, group 2. -/
  unsureHit : String → Option String
  /-- `hashlib.md5(x.encode()).hexdigest()[:8]`. -/
  md5hex8 : String → String
  /-- `re.findall(r'\b([A-Z]\d{2}[A-Z0-9]{3}[A-Z]\d{2}[A-Z0-9]{3})\b', t)`. -/
  providerHits : String → List String

/-- `SOPParser.DEC_PAT.search(content)`: the pattern
`^(?:Is|Does|Did|Are|Has|Have|Was|Were|Can|Should)\s+` is compiled with
`re.IGNORECASE` and without `re.MULTILINE`, so `search` can only match at
the start of the string: the content must begin (case-insensitively) with
one of the verbs followed by at least one whitespace character. -/
def decPatSearch (s : String) : Bool :=
  let cs := s.data.map Char.toLower
  ["is", "does", "did", "are", "has", "have", "was", "were", "can", "should"].any
    (fun v =>
      startsWithL v.data cs &&
        match cs.drop v.data.length with
        | c :: _ => isPySpace c
        | [] => false)

/-- `SOPParser._doc_info`. -/
def parse_doc_info (env : ReEnv) (t : String) : DocInfo :=
  { title := match env.titleHit t with | some m => pstrip m | none => ""
    document_id := (env.docIdHit t).getD ""
    status := if hasInfixL "CURRENT".data (t.data.map Char.toUpper) then "Current" else "" }

/-- `SOPParser._versions`. -/
def parse_versions (env : ReEnv) (t : String) : List VersionInfo :=
  (env.verHits t).map (fun g =>
    { revision := g.1, date := pstrip g.2.1, description := pstrip g.2.2 })

/-- The branch-marker loop of `SOPParser._branches`: walk the stripped
lines, opening a new branch at each Yes/No/Unsure marker and appending
other lines to the current branch. -/
def branchLoop (env : ReEnv) : List String → Option ParsedBranch → List ParsedBranch
  | [], cur => match cur with | some b => [b] | none => []
  | ln :: rest, cur =>
    let ln := pstrip ln
    if ln = "" then branchLoop env rest cur
    else
      match env.yesHit ln with
      | some g =>
        let nb : ParsedBranch := { btype := "yes", content := pstrip g, procedure_refs := [] }
        (match cur with
         | some b => b :: branchLoop env rest (some nb)
         | none => branchLoop env rest (some nb))
      | none =>
        match env.noHit ln with
        | some g =>
          let nb : ParsedBranch := { btype := "no", content := pstrip g, procedure_refs := [] }
          (match cur with
           | some b => b :: branchLoop env rest (some nb)
           | none => branchLoop env rest (some nb))
        | none =>
          match env.unsureHit ln with
          | some g =>
            let nb : ParsedBranch := { btype := "unsure", content := pstrip g, procedure_refs := [] }
            (match cur with
             | some b => b :: branchLoop env rest (some nb)
             | none => branchLoop env rest (some nb))
          | none =>
            match cur with
            | some b => branchLoop env rest (some { b with content := b.content ++ " " ++ ln })
            | none => branchLoop env rest none

/-- `SOPParser._branches`. -/
def parse_branches (env : ReEnv) (t : String) : List ParsedBranch :=
  (branchLoop env (splitLines t) none).map
    (fun b => { b with procedure_refs := pdedup (env.procHits b.content) })

/-- The per-match loop of `SOPParser._steps`: each step's raw text runs
from its match start to the next match start (or the end of the span). -/
def stepsFromHits (env : ReEnv) (t : String) : List (Nat × Nat × String) → List ParsedStep
  | [] => []
  | (st, num, g2) :: rest =>
    let e := match rest with | (s2, _, _) :: _ => s2 | [] => t.length
    let txt := pstrip (pslice t st e)
    let content := pstrip g2
    let is_dec := decPatSearch content || content.data.contains '?'
    { number := num, content := content, full_text := txt, is_decision := is_dec,
      branches := if is_dec then parse_branches env txt else [],
      procedure_refs := pdedup (env.procHits txt) } :: stepsFromHits env t rest

/-- `SOPParser._steps`. -/
def parse_steps (env : ReEnv) (t : String) : List ParsedStep :=
  stepsFromHits env t (env.stepHits t)

/-- The heading de-duplication of `SOPParser._sections`: keep the first
occurrence of each (stripped, lower-cased) heading name. -/
def dedupSecHits : List (Nat × String) → List String → List (Nat × String)
  | [], _ => []
  | (pos, g) :: rest, seen =>
    let n := lowerStr (pstrip g)
    if seen.contains n then dedupSecHits rest seen
    else (pos, pstrip g) :: dedupSecHits rest (n :: seen)

/-- Stable insertion of one heading match by position (Python's
`list.sort(key=lambda x: x[0])` is stable). -/
def insertByPos (x : Nat × String) : List (Nat × String) → List (Nat × String)
  | [] => [x]
  | y :: t => if y.1 ≤ x.1 then y :: insertByPos x t else x :: y :: t

/-- Stable sort of heading matches by position. -/
def sortByPos (l : List (Nat × String)) : List (Nat × String) :=
  l.foldl (fun acc x => insertByPos x acc) []

/-- The span construction of `SOPParser._sections`: a section's text runs
from its heading to the next heading (or the end of the document). -/
def sectionsFromMatches (env : ReEnv) (t : String) : List (Nat × String) → List ParsedSection
  | [] => []
  | (pos, name) :: rest =>
    let e := match rest with | (p2, _) :: _ => p2 | [] => t.length
    let txt := pslice t pos e
    { name := name, steps := parse_steps env txt,
      procedure_refs := pdedup (env.procHits txt) } :: sectionsFromMatches env t rest

/-- `SOPParser._sections`. -/
def parse_sections (env : ReEnv) (t : String) : List ParsedSection :=
  sectionsFromMatches env t (sortByPos (dedupSecHits (env.sectionHits t) []))

/-- The seen-set loop of `SOPParser._all_refs`. -/
def allRefsAux (env : ReEnv) (t : String) : List String → List String → List ParsedRef
  | [], _ => []
  | c :: rest, seen =>
    if seen.contains c then allRefsAux env t rest seen
    else
      { code := c,
        title := match env.refTitleHit t c with | some m => pstrip m | none => "" } ::
        allRefsAux env t rest (c :: seen)

/-- `SOPParser._all_refs`. -/
def parse_all_refs (env : ReEnv) (t : String) : List ParsedRef :=
  allRefsAux env t (env.procHits t) []

/-- `SOPParser.parse`. -/
def SOPParser.parse (env : ReEnv) (t : String) : ParsedDoc :=
  { document_info := parse_doc_info env t, versions := parse_versions env t,
    sections := parse_sections env t, procedure_references := parse_all_refs env t,
    raw_text := t }

/-! ## WorldNetworkBuilder of the deep-linking script -/

/-- A fresh `ProcedureReference` in state `pending`
(`ProcedureReference(id=f"ref_{pc}", procedure_code=pc, title=..., status=PENDING)`). -/
def mkPendingRef (pc title : String) : ProcedureReference :=
  { id := "ref_" ++ pc, procedure_code := pc, title := title,
    status := LinkStatus.pending, source_file := none, error_message := none }

/-- `WorldNetworkBuilder._add_ref`: register the code as a pending
reference if unseen, then hang a reference-pointer node off `src`. -/
def add_ref (env : ReEnv) (net : WorldNetwork) (pc src ctx : String) : WorldNetwork :=
  let title := match env.refTitleHit ctx pc with | some m => pstrip m | none => ""
  let net :=
    if dmem net.procedure_refs pc then net
    else { net with procedure_refs := dset net.procedure_refs pc (mkPendingRef pc title) }
  let (rn, net) := create_node net NodeType.reference ("Refer to: " ++ pc) none none (some pc)
  (create_edge net src rn.id EdgeType.reference none).2

/-- `WorldNetworkBuilder._proc_branch`. -/
def proc_branch (env : ReEnv) (net : WorldNetwork) (b : ParsedBranch) (pid sec : String) :
    WorldNetwork :=
  let bt := lowerStr b.btype
  let ntetc : NodeType × EdgeType × String :=
    if bt = "yes" then (NodeType.branch_yes, EdgeType.condition_yes, "YES")
    else if bt = "no" then (NodeType.branch_no, EdgeType.condition_no, "NO")
    else (NodeType.branch_unsure, EdgeType.condition_unsure, "UNSURE")
  let (bn, net) := create_node net ntetc.1 b.content (some sec) none none
  let net := (create_edge net pid bn.id ntetc.2.1 (some ntetc.2.2)).2
  b.procedure_refs.foldl (fun n pc => add_ref env n pc bn.id b.content) net

/-- `WorldNetworkBuilder._proc_step`: returns the new "previous" node id
threaded through the sequence chain, together with the updated graph. -/
def proc_step (env : ReEnv) (net : WorldNetwork) (step : ParsedStep) (prev sec : String) :
    String × WorldNetwork :=
  if step.is_decision then
    let (dn, net) := create_node net NodeType.decision step.content (some sec) (some step.number) none
    let net := (create_edge net prev dn.id EdgeType.sequence none).2
    let net := step.branches.foldl (fun n b => proc_branch env n b dn.id sec) net
    let net := step.procedure_refs.foldl (fun n pc => add_ref env n pc dn.id step.full_text) net
    (dn.id, net)
  else
    let (sn, net) := create_node net NodeType.step step.content (some sec) (some step.number) none
    let net := (create_edge net prev sn.id EdgeType.sequence none).2
    let net := step.procedure_refs.foldl (fun n pc => add_ref env n pc sn.id step.full_text) net
    (sn.id, net)

/-- `WorldNetworkBuilder._proc_section`. -/
def proc_section (env : ReEnv) (net : WorldNetwork) (sec : ParsedSection) (pid : String) :
    WorldNetwork :=
  let name := sec.name
  let (ct, net) := create_node net NodeType.claim_type name (some name) none none
  let net := (create_edge net pid ct.id EdgeType.contains none).2
  let net := { net with claim_type_roots := dset net.claim_type_roots name ct.id }
  (sec.steps.foldl (fun (pn : String × WorldNetwork) st =>
      proc_step env pn.2 st pn.1 name) (ct.id, net)).2

/-- `WorldNetworkBuilder._extract_entities`: provider-id scan over the
whole raw text, md5-keyed and de-duplicated. -/
def extract_entities (env : ReEnv) (net : WorldNetwork) (parsed : ParsedDoc) : WorldNetwork :=
  (env.providerHits parsed.raw_text).foldl (fun n pid =>
    let eid := "ent_" ++ env.md5hex8 pid
    let ent : Entity := { id := eid, name := pid, entity_type := "provider_id", value := pid }
    if dmem n.entities eid then n
    else { n with entities := dset n.entities eid ent }) net

/-- `WorldNetworkBuilder.build`. -/
def build (env : ReEnv) (parsed : ParsedDoc) (doc_id doc_name : String) : WorldNetwork :=
  let net := WorldNetwork.init doc_id doc_name
  let md : DocMeta :=
    { title := parsed.document_info.title, status := parsed.document_info.status }
  let net := { net with metadata := md }
  let net := { net with versions := net.versions ++ parsed.versions }
  let net := match net.versions with
    | v :: _ => { net with current_version := v.revision }
    | [] => net
  let rootAnd := create_node net NodeType.root doc_name none none none
  let net := rootAnd.2
  let net := parsed.sections.foldl (fun n sec => proc_section env n sec rootAnd.1.id) net
  let net := parsed.procedure_references.foldl (fun n ref =>
      if dmem n.procedure_refs ref.code then n
      else
        let refs := dset n.procedure_refs ref.code (mkPendingRef ref.code ref.title)
        { n with procedure_refs := refs }) net
  extract_entities env net parsed

/-! ## DeepLinkResolver of the deep-linking script -/

/-- `section` rewriting performed by `_merge` on every copied node:
`f"{pc}/{n.section}" if n.section else pc` (Python truthiness: both
`None` and the empty string fall back to the bare code). -/
def merged_section_label (pc : String) : Option String → Option String
  | some s => if s = "" then some pc else some (pc ++ "/" ++ s)
  | none => some pc

/-- One iteration of `_merge`'s first loop: a reference-pointer node of
the main graph carrying the code gets a deep-link edge to the linked root. -/
def deep_link_step (lrid pc : String) (acc : WorldNetwork) (n : NetworkNode) : WorldNetwork :=
  if n.node_type = NodeType.reference ∧ n.procedure_code = some pc then
    (create_edge acc n.id lrid EdgeType.deep_link none).2
  else acc

/-- The first loop of `_merge`: every reference-pointer node of the main
graph carrying the code gets a deep-link edge to the linked root. -/
def merge_deep_link_edges (m : WorldNetwork) (lrid pc : String) : WorldNetwork :=
  (dvals m.nodes).foldl (deep_link_step lrid pc) m

/-- One iteration of `_merge`'s node-copy loop. -/
def copy_node_step (pc lrid : String) (acc : WorldNetwork × List (String × String))
    (onode : String × NetworkNode) : WorldNetwork × List (String × String) :=
  if onode.2.node_type = NodeType.root then (acc.1, dset acc.2 onode.1 lrid)
  else
    let nnm := create_node acc.1 onode.2.node_type onode.2.content
        (merged_section_label pc onode.2.sectionLabel) onode.2.step_number (some pc)
    (nnm.2, dset acc.2 onode.1 nnm.1.id)

/-- The node-copy loop of `_merge`: root nodes of the sub-graph map to
the linked root, every other node is copied under a fresh id; the
id-remapping table is built alongside. -/
def merge_copy_nodes (sub : WorldNetwork) (pc lrid : String) (m : WorldNetwork) :
    WorldNetwork × List (String × String) :=
  sub.nodes.foldl (copy_node_step pc lrid) (m, [])

/-- One iteration of `_merge`'s edge-copy loop. -/
def copy_edge_step (idmap : List (String × String)) (acc : WorldNetwork)
    (e : NetworkEdge) : WorldNetwork :=
  match alookup idmap e.source_id, alookup idmap e.target_id with
  | some s, some t2 => (create_edge acc s t2 e.edge_type e.condition).2
  | _, _ => acc

/-- The edge-copy loop of `_merge`: endpoints are rewritten through the
id-remapping table; an edge with an unmapped endpoint is dropped. -/
def merge_copy_edges (sub : WorldNetwork) (idmap : List (String × String))
    (m : WorldNetwork) : WorldNetwork :=
  (dvals sub.edges).foldl (copy_edge_step idmap) m

/-- One iteration of `_merge`'s category-root loop. -/
def claim_root_step (idmap : List (String × String)) (pc : String)
    (acc : WorldNetwork) (cncr : String × String) : WorldNetwork :=
  match alookup idmap cncr.2 with
  | some nr =>
    let roots := dset acc.claim_type_roots (pc ++ "/" ++ cncr.1) nr
    { acc with claim_type_roots := roots }
  | none => acc

/-- The last loop of `_merge`: the sub-graph's category roots are
registered under the namespaced key `f"{pc}/{name}"`. -/
def merge_claim_roots (sub : WorldNetwork) (idmap : List (String × String))
    (pc : String) (m : WorldNetwork) : WorldNetwork :=
  sub.claim_type_roots.foldl (claim_root_step idmap pc) m

/-- `DeepLinkResolver._merge`, returning the updated main graph together
with the id-remapping table and the id of the new linked-external-root
node.  The `if s and t` / `if nr` truthiness guards of the source are
embedded as `Option` matches: every id the table can hold
(`lr.id` or a `create_node` id) is a non-empty string. -/
def merge_nets (main sub : WorldNetwork) (pc : String) :
    WorldNetwork × List (String × String) × String :=
  let lrm := create_node main NodeType.linked_procedure
      (pc ++ ": " ++ sub.document_name) none none (some pc)
  let lr := lrm.1
  let m := lrm.2
  let m := { m with linked_procedures := dset m.linked_procedures pc lr.id }
  let m := merge_deep_link_edges m lr.id pc
  let mim := merge_copy_nodes sub pc lr.id m
  let m := merge_copy_edges sub mim.2 mim.1
  let m := merge_claim_roots sub mim.2 pc m
  (m, mim.2, lr.id)

/-- `DeepLinkResolver._merge` (graph part only). -/
def merge_into (main sub : WorldNetwork) (pc : String) : WorldNetwork :=
  (merge_nets main sub pc).1

/-- The external world of the resolver: `pdirOk` models
`self.pdir and os.path.exists(self.pdir)`, `find` models
`DeepLinkResolver._find` (recursive glob for the code's PDF) and
`extract` models `DeepLinkResolver._extract` (PDF-to-text, which can
raise; the raised message is what `_resolve` stores on an `error`). -/
structure World where
  pdirOk : Bool
  find : String → Option String
  extract : String → Except String String

/-- `net.procedure_refs[pc].status = st` (embedded as a no-op when the
key is absent; every call site of the source has the key present). -/
def set_ref_status (net : WorldNetwork) (pc st : String) : WorldNetwork :=
  { net with procedure_refs := dmodify net.procedure_refs pc (fun r => { r with status := st }) }

/-- The field updates of `_resolve`'s success path:
`status = RESOLVED; source_file = pdf`. -/
def setResolved (pdf : String) (r : ProcedureReference) : ProcedureReference :=
  { r with status := LinkStatus.resolved, source_file := some pdf }

/-- The field updates of `_resolve`'s `except` handler:
`status = ERROR; error_message = str(e)`. -/
def setErrored (e : String) (r : ProcedureReference) : ProcedureReference :=
  { r with status := LinkStatus.error, error_message := some e }

/-- The successful-location prefix of `DeepLinkResolver._resolve`
(its lines `txt=...; parsed=...; sub=...; self._merge(...);
net.procedure_refs[pc].status=RESOLVED; net.procedure_refs[pc].source_file=pdf`):
the state of the main graph at the moment the loop over the
sub-document's own references begins. -/
def resolve_located (env : ReEnv) (net : WorldNetwork) (pc pdf txt : String) : WorldNetwork :=
  let parsed := SOPParser.parse env txt
  let sub := build env parsed pc parsed.document_info.title
  let net := merge_into net sub pc
  { net with procedure_refs := dmodify net.procedure_refs pc (setResolved pdf) }

/-- The registration step of `_resolve`'s loop over the sub-document's
references: `if cc not in net.procedure_refs: net.procedure_refs[cc] =
ProcedureReference(..., status=PENDING)`. -/
def register_pending (net : WorldNetwork) (cc : String) : WorldNetwork :=
  if dmem net.procedure_refs cc then net
  else { net with procedure_refs := dset net.procedure_refs cc (mkPendingRef cc "") }

/-- `DeepLinkResolver._resolve`.  The fuel is `max_d - d` (the source
recurses with `d + 1` and returns immediately when `d >= max_d`), so
fuel `0` is the depth-exhausted case.  The returned Bool is the
source's success flag. -/
def resolve (env : ReEnv) (w : World) : Nat → String → WorldNetwork → WorldNetwork × Bool
  | 0, _, net => (net, false)
  | fuel + 1, pc, net =>
    match w.find pc with
    | none => (set_ref_status net pc LinkStatus.not_found, false)
    | some pdf =>
      match w.extract pdf with
      | .error e =>
        ({ net with procedure_refs := dmodify net.procedure_refs pc (setErrored e) }, false)
      | .ok txt =>
        let parsed := SOPParser.parse env txt
        let sub := build env parsed pc parsed.document_info.title
        let net := resolve_located env net pc pdf txt
        let net := (dkeys sub.procedure_refs).foldl (fun n cc =>
            let n' := register_pending n cc
            match alookup n'.procedure_refs cc with
            | some r =>
              if r.status = LinkStatus.pending then (resolve env w fuel cc n').1 else n'
            | none => n') net
        (net, true)

/-- One iteration of `_resolve`'s loop over the sub-document's reference
codes: register the code if unseen, then recurse exactly when its status
is `pending`. -/
def resolve_child (env : ReEnv) (w : World) (fuel : Nat) (n : WorldNetwork) (cc : String) :
    WorldNetwork :=
  let n' := register_pending n cc
  match alookup n'.procedure_refs cc with
  | some r => if r.status = LinkStatus.pending then (resolve env w fuel cc n').1 else n'
  | none => n'

/-- `DeepLinkResolver.resolve_all` (`if not self.pdir: return net` keeps
the graph untouched; otherwise every code pending at entry is resolved
at depth 0). -/
def resolve_all (env : ReEnv) (w : World) (net : WorldNetwork) (max_d : Nat) : WorldNetwork :=
  if w.pdirOk = false then net
  else
    let pending := (net.procedure_refs.filter (fun p => p.2.status == LinkStatus.pending)).map (·.1)
    pending.foldl (fun n pc => (resolve env w max_d pc n).1) net

/-! ## The query-layer graph of the first script

`WorldNetwork.get_decision_path` the claims refer to lives in the first
script of the file, whose `Node`/`Edge` dataclasses and enums are richer
than the deep-linking script's.  Only the fields and methods the
embedded code touches are carried (`metadata : Dict[str, Any]` and
`position : Dict[str, int]`, untouched by them, are omitted). -/

inductive NodeTypeV1 where
  | root | claim_type | decision | condition | action
  | branch_yes | branch_no | branch_unsure | sub_decision
  | reference | table | note | terminal | step | lookup_table
deriving DecidableEq, Repr

inductive EdgeTypeV1 where
  | sequence | condition_yes | condition_no | condition_unsure
  | nested_yes | nested_no | reference | contains
  | continue_to_step | proceed_to_section | lookup
deriving DecidableEq, Repr

structure NodeV1 where
  id : String
  node_type : NodeTypeV1
  content : String
  raw_text : String
  step_number : Option Nat
  parent_id : Option String
  sectionLabel : Option String
  entities : List String
deriving DecidableEq, Repr

structure EdgeV1 where
  id : String
  source_id : String
  target_id : String
  edge_type : EdgeTypeV1
  condition : Option String
  condition_value : Option String
deriving DecidableEq, Repr

structure WorldNetworkV1 where
  document_id : String
  document_name : String
  nodes : List (String × NodeV1)
  edges : List (String × EdgeV1)
  root_id : Option String
  claim_type_roots : List (String × String)
deriving DecidableEq, Repr

/-- `WorldNetwork.__init__` of the first script (embedded fields). -/
def WorldNetworkV1.init (doc_id doc_name : String) : WorldNetworkV1 :=
  { document_id := doc_id, document_name := doc_name, nodes := [], edges := [],
    root_id := none, claim_type_roots := [] }

/-- `WorldNetwork.add_node` of the first script: store the node, record
the root id for a root node and the claim-type root for a category node. -/
def WorldNetworkV1.add_node (net : WorldNetworkV1) (node : NodeV1) : WorldNetworkV1 :=
  let net := { net with nodes := dset net.nodes node.id node }
  if node.node_type = NodeTypeV1.root then { net with root_id := some node.id }
  else if node.node_type = NodeTypeV1.claim_type then
    { net with claim_type_roots := dset net.claim_type_roots node.content node.id }
  else net

/-- `WorldNetwork.add_edge` of the first script. -/
def WorldNetworkV1.add_edge (net : WorldNetworkV1) (edge : EdgeV1) : WorldNetworkV1 :=
  { net with edges := dset net.edges edge.id edge }

/-- `WorldNetwork.get_outgoing_edges` of the first script. -/
def get_outgoing_edges_v1 (net : WorldNetworkV1) (nid : String) : List EdgeV1 :=
  (dvals net.edges).filter (fun e => e.source_id == nid)

/-- The edge-selection loop inside `get_decision_path`: scan the
outgoing edges in order and take the first that either is a `SEQUENCE`
edge, or carries a truthy condition whose key
`f"{current}_{edge.condition}"` maps to `True` in `conditions`
(a `False` or missing entry just moves on to the next edge). -/
def first_matching_edge (conds : List (String × Bool)) (cur : String) :
    List EdgeV1 → Option EdgeV1
  | [] => none
  | e :: rest =>
    if e.edge_type = EdgeTypeV1.sequence then some e
    else
      match e.condition with
      | some c =>
        if c ≠ "" ∧ alookup conds (cur ++ "_" ++ c) = some true then some e
        else first_matching_edge conds cur rest
      | none => first_matching_edge conds cur rest

/-- The `while current:` loop of `get_decision_path`.  The source has no
step bound and can run forever on a cyclic graph, so the embedding takes
explicit fuel; on terminating inputs every large enough fuel returns the
same path. -/
def gdpAux (net : WorldNetworkV1) (conds : List (String × Bool)) :
    Nat → String → List String
  | 0, _ => []
  | fuel + 1, cur =>
    if cur = "" then []
    else
      cur :: (match alookup net.nodes cur with
        | none => []
        | some _ =>
          match first_matching_edge conds cur (get_outgoing_edges_v1 net cur) with
          | none => []
          | some e => gdpAux net conds fuel e.target_id)

/-- `WorldNetwork.get_decision_path` of the first script (fuel-bounded). -/
def get_decision_path (net : WorldNetworkV1) (start_node_id : String)
    (conds : List (String × Bool)) (fuel : Nat) : List String :=
  gdpAux net conds fuel start_node_id

/-! ## Generic helper lemmas -/

theorem foldl_proj_eq {β γ : Type} (proj : WorldNetwork → γ)
    (f : WorldNetwork → β → WorldNetwork) (l : List β) (net : WorldNetwork)
    (h : ∀ n x, proj (f n x) = proj n) : proj (l.foldl f net) = proj net := by
  induction l generalizing net with
  | nil => rfl
  | cons x t ih => rw [List.foldl_cons, ih (f net x), h net x]

theorem alookup_dset_cases {α : Type} (l : List (String × α)) (k0 k : String) (v0 v : α)
    (h : alookup (dset l k0 v0) k = some v) :
    (k = k0 ∧ v = v0) ∨ alookup l k = some v := by
  by_cases hk : k = k0
  · subst hk
    rw [alookup_dset_self] at h
    exact Or.inl ⟨rfl, (Option.some.inj h).symm⟩
  · right
    rwa [alookup_dset_ne l k0 k v0 (fun hh => hk hh.symm)] at h

theorem foldl_proj_eq_pair {β γ δ : Type} (proj : WorldNetwork → γ)
    (f : WorldNetwork × δ → β → WorldNetwork × δ) (l : List β) (acc : WorldNetwork × δ)
    (h : ∀ a x, proj (f a x).1 = proj a.1) : proj (l.foldl f acc).1 = proj acc.1 := by
  induction l generalizing acc with
  | nil => rfl
  | cons x t ih => rw [List.foldl_cons, ih (f acc x), h acc x]

/-- The document-level payload of a graph that `_merge` never touches. -/
def docFrame (n : WorldNetwork) :
    List (String × Entity) × List VersionInfo × DocMeta × String × String × String ×
      List (String × ProcedureReference) :=
  (n.entities, n.versions, n.metadata, n.current_version, n.document_id,
   n.document_name, n.procedure_refs)

theorem docFrame_create_node (net : WorldNetwork) (nt : NodeType) (c : String)
    (s : Option String) (sn : Option Nat) (p : Option String) :
    docFrame (create_node net nt c s sn p).2 = docFrame net := rfl

theorem docFrame_create_edge (net : WorldNetwork) (src tgt : String) (et : EdgeType)
    (cond : Option String) : docFrame (create_edge net src tgt et cond).2 = docFrame net := rfl

theorem docFrame_deep_link_step (lrid pc : String) (n : WorldNetwork) (x : NetworkNode) :
    docFrame (deep_link_step lrid pc n x) = docFrame n := by
  unfold deep_link_step
  by_cases hx : x.node_type = NodeType.reference ∧ x.procedure_code = some pc
  · rw [if_pos hx, docFrame_create_edge]
  · rw [if_neg hx]

theorem docFrame_merge_deep_link_edges (m : WorldNetwork) (lrid pc : String) :
    docFrame (merge_deep_link_edges m lrid pc) = docFrame m :=
  foldl_proj_eq docFrame _ _ _ (docFrame_deep_link_step lrid pc)

theorem docFrame_copy_node_step (pc lrid : String) (a : WorldNetwork × List (String × String))
    (x : String × NetworkNode) : docFrame (copy_node_step pc lrid a x).1 = docFrame a.1 := by
  unfold copy_node_step
  by_cases hx : x.2.node_type = NodeType.root
  · rw [if_pos hx]
  · rw [if_neg hx]
    exact docFrame_create_node _ _ _ _ _ _

theorem docFrame_merge_copy_nodes (sub : WorldNetwork) (pc lrid : String) (m : WorldNetwork) :
    docFrame (merge_copy_nodes sub pc lrid m).1 = docFrame m :=
  foldl_proj_eq_pair docFrame _ _ _ (docFrame_copy_node_step pc lrid)

theorem docFrame_copy_edge_step (idmap : List (String × String)) (n : WorldNetwork)
    (x : NetworkEdge) : docFrame (copy_edge_step idmap n x) = docFrame n := by
  unfold copy_edge_step
  cases alookup idmap x.source_id with
  | none => rfl
  | some s =>
    cases alookup idmap x.target_id with
    | none => rfl
    | some t2 => exact docFrame_create_edge n s t2 x.edge_type x.condition

theorem docFrame_merge_copy_edges (sub : WorldNetwork) (idmap : List (String × String))
    (m : WorldNetwork) : docFrame (merge_copy_edges sub idmap m) = docFrame m :=
  foldl_proj_eq docFrame _ _ _ (docFrame_copy_edge_step idmap)

theorem docFrame_claim_root_step (idmap : List (String × String)) (pc : String)
    (n : WorldNetwork) (x : String × String) :
    docFrame (claim_root_step idmap pc n x) = docFrame n := by
  unfold claim_root_step
  cases alookup idmap x.2 with
  | none => rfl
  | some nr => rfl

theorem docFrame_merge_claim_roots (sub : WorldNetwork) (idmap : List (String × String))
    (pc : String) (m : WorldNetwork) : docFrame (merge_claim_roots sub idmap pc m) = docFrame m :=
  foldl_proj_eq docFrame _ _ _ (docFrame_claim_root_step idmap pc)

theorem docFrame_merge_into (main sub : WorldNetwork) (pc : String) :
    docFrame (merge_into main sub pc) = docFrame main := by
  show docFrame (merge_claim_roots _ _ _ (merge_copy_edges _ _ _)) = docFrame main
  rw [docFrame_merge_claim_roots, docFrame_merge_copy_edges, docFrame_merge_copy_nodes,
    docFrame_merge_deep_link_edges]
  rfl

theorem lp_deep_link_step (lrid pc : String) (n : WorldNetwork) (x : NetworkNode) :
    (deep_link_step lrid pc n x).linked_procedures = n.linked_procedures := by
  unfold deep_link_step
  by_cases hx : x.node_type = NodeType.reference ∧ x.procedure_code = some pc
  · rw [if_pos hx]; rfl
  · rw [if_neg hx]

theorem lp_copy_node_step (pc lrid : String) (a : WorldNetwork × List (String × String))
    (x : String × NetworkNode) :
    (copy_node_step pc lrid a x).1.linked_procedures = a.1.linked_procedures := by
  unfold copy_node_step
  by_cases hx : x.2.node_type = NodeType.root
  · rw [if_pos hx]
  · rw [if_neg hx]
    rfl

theorem lp_copy_edge_step (idmap : List (String × String)) (n : WorldNetwork)
    (x : NetworkEdge) : (copy_edge_step idmap n x).linked_procedures = n.linked_procedures := by
  unfold copy_edge_step
  cases alookup idmap x.source_id with
  | none => rfl
  | some s => cases alookup idmap x.target_id with
    | none => rfl
    | some t2 => rfl

theorem lp_claim_root_step (idmap : List (String × String)) (pc : String)
    (n : WorldNetwork) (x : String × String) :
    (claim_root_step idmap pc n x).linked_procedures = n.linked_procedures := by
  unfold claim_root_step
  cases alookup idmap x.2 with
  | none => rfl
  | some nr => rfl

theorem lp_merge_claim_roots (sub : WorldNetwork) (idmap : List (String × String))
    (pc : String) (m : WorldNetwork) :
    (merge_claim_roots sub idmap pc m).linked_procedures = m.linked_procedures :=
  foldl_proj_eq (fun n => n.linked_procedures) _ _ _ (lp_claim_root_step idmap pc)

theorem lp_merge_copy_edges (sub : WorldNetwork) (idmap : List (String × String))
    (m : WorldNetwork) :
    (merge_copy_edges sub idmap m).linked_procedures = m.linked_procedures :=
  foldl_proj_eq (fun n => n.linked_procedures) _ _ _ (lp_copy_edge_step idmap)

theorem lp_merge_copy_nodes (sub : WorldNetwork) (pc lrid : String) (m : WorldNetwork) :
    (merge_copy_nodes sub pc lrid m).1.linked_procedures = m.linked_procedures :=
  foldl_proj_eq_pair (fun n => n.linked_procedures) _ _ _ (lp_copy_node_step pc lrid)

theorem lp_merge_deep_link_edges (m : WorldNetwork) (lrid pc : String) :
    (merge_deep_link_edges m lrid pc).linked_procedures = m.linked_procedures :=
  foldl_proj_eq (fun n => n.linked_procedures) _ _ _ (lp_deep_link_step lrid pc)

theorem lp_merge_into (main sub : WorldNetwork) (pc : String) :
    (merge_into main sub pc).linked_procedures =
      dset main.linked_procedures pc (mkNodeId (main.nc + 1)) := by
  show (merge_claim_roots _ _ _ (merge_copy_edges _ _ _)).linked_procedures = _
  rw [lp_merge_claim_roots, lp_merge_copy_edges, lp_merge_copy_nodes,
    lp_merge_deep_link_edges]
  rfl

theorem ctr_deep_link_step (lrid pc : String) (n : WorldNetwork) (x : NetworkNode) :
    (deep_link_step lrid pc n x).claim_type_roots = n.claim_type_roots := by
  unfold deep_link_step
  by_cases hx : x.node_type = NodeType.reference ∧ x.procedure_code = some pc
  · rw [if_pos hx]; rfl
  · rw [if_neg hx]

theorem ctr_copy_node_step (pc lrid : String) (a : WorldNetwork × List (String × String))
    (x : String × NetworkNode) :
    (copy_node_step pc lrid a x).1.claim_type_roots = a.1.claim_type_roots := by
  unfold copy_node_step
  by_cases hx : x.2.node_type = NodeType.root
  · rw [if_pos hx]
  · rw [if_neg hx]
    rfl

theorem ctr_copy_edge_step (idmap : List (String × String)) (n : WorldNetwork)
    (x : NetworkEdge) : (copy_edge_step idmap n x).claim_type_roots = n.claim_type_roots := by
  unfold copy_edge_step
  cases alookup idmap x.source_id with
  | none => rfl
  | some s => cases alookup idmap x.target_id with
    | none => rfl
    | some t2 => rfl

theorem ctr_merge_copy_edges (sub : WorldNetwork) (idmap : List (String × String))
    (m : WorldNetwork) :
    (merge_copy_edges sub idmap m).claim_type_roots = m.claim_type_roots :=
  foldl_proj_eq (fun n => n.claim_type_roots) _ _ _ (ctr_copy_edge_step idmap)

theorem ctr_merge_copy_nodes (sub : WorldNetwork) (pc lrid : String) (m : WorldNetwork) :
    (merge_copy_nodes sub pc lrid m).1.claim_type_roots = m.claim_type_roots :=
  foldl_proj_eq_pair (fun n => n.claim_type_roots) _ _ _ (ctr_copy_node_step pc lrid)

theorem ctr_merge_deep_link_edges (m : WorldNetwork) (lrid pc : String) :
    (merge_deep_link_edges m lrid pc).claim_type_roots = m.claim_type_roots :=
  foldl_proj_eq (fun n => n.claim_type_roots) _ _ _ (ctr_deep_link_step lrid pc)

theorem alookup_claim_roots_fold (idmap : List (String × String)) (pc : String)
    (l : List (String × String)) :
    ∀ (m : WorldNetwork) (k v : String),
      alookup (l.foldl (claim_root_step idmap pc) m).claim_type_roots k = some v →
      alookup m.claim_type_roots k = some v ∨
        ∃ cn, k = pc ++ "/" ++ cn ∧ cn ∈ l.map (·.1) := by
  induction l with
  | nil => intro m k v h; exact Or.inl h
  | cons x t ih =>
    intro m k v h
    rw [List.foldl_cons] at h
    rcases ih (claim_root_step idmap pc m x) k v h with h1 | ⟨cn, hcn, hmem⟩
    · unfold claim_root_step at h1
      cases hx : alookup idmap x.2 with
      | none => rw [hx] at h1; exact Or.inl h1
      | some nr =>
        rw [hx] at h1
        simp only at h1
        rcases alookup_dset_cases _ _ _ _ _ h1 with ⟨hk, _⟩ | h2
        · exact Or.inr ⟨x.1, hk, by simp⟩
        · exact Or.inl h2
    · exact Or.inr ⟨cn, hcn, by simp [hmem]⟩

theorem alookup_merge_into_claim_roots (main sub : WorldNetwork) (pc : String)
    (k v : String) (h : alookup (merge_into main sub pc).claim_type_roots k = some v) :
    alookup main.claim_type_roots k = some v ∨
      ∃ cn, k = pc ++ "/" ++ cn ∧ cn ∈ dkeys sub.claim_type_roots := by
  have h' : alookup (merge_claim_roots sub (merge_nets main sub pc).2.1 pc
      (merge_copy_edges sub (merge_nets main sub pc).2.1
        (merge_copy_nodes sub pc (mkNodeId (main.nc + 1))
          (merge_deep_link_edges
            { (create_node main NodeType.linked_procedure
                (pc ++ ": " ++ sub.document_name) none none (some pc)).2 with
              linked_procedures := dset (create_node main NodeType.linked_procedure
                (pc ++ ": " ++ sub.document_name) none none (some pc)).2.linked_procedures pc
                (mkNodeId (main.nc + 1)) }
            (mkNodeId (main.nc + 1)) pc)).1)).claim_type_roots k = some v := h
  rcases alookup_claim_roots_fold _ pc sub.claim_type_roots _ k v h' with h1 | h2
  · rw [ctr_merge_copy_edges, ctr_merge_copy_nodes, ctr_merge_deep_link_edges] at h1
    exact Or.inl h1
  · exact Or.inr h2

/-- C10: Merging a resolved sub-graph into the main graph copies only
nodes, edges, namespaced category roots and the linked-procedure
mapping; the main graph's entities, versions, document metadata and
current version are unchanged by the merge, so a sub-document's
extracted entities and revision history are never absorbed into the
main graph. -/
theorem C10_merge_preserves_document_payload (main sub : WorldNetwork) (pc : String) :
    (merge_into main sub pc).entities = main.entities ∧
    (merge_into main sub pc).versions = main.versions ∧
    (merge_into main sub pc).metadata = main.metadata ∧
    (merge_into main sub pc).current_version = main.current_version ∧
    (merge_into main sub pc).document_id = main.document_id ∧
    (merge_into main sub pc).document_name = main.document_name ∧
    (merge_into main sub pc).procedure_refs = main.procedure_refs ∧
    (merge_into main sub pc).linked_procedures =
      dset main.linked_procedures pc (mkNodeId (main.nc + 1)) ∧
    (∀ k v, alookup (merge_into main sub pc).claim_type_roots k = some v →
      alookup main.claim_type_roots k = some v ∨
        ∃ cn, k = pc ++ "/" ++ cn ∧ cn ∈ dkeys sub.claim_type_roots) := by
  have h := docFrame_merge_into main sub pc
  simp only [docFrame, Prod.mk.injEq] at h
  exact ⟨h.1, h.2.1, h.2.2.1, h.2.2.2.1, h.2.2.2.2.1, h.2.2.2.2.2.1, h.2.2.2.2.2.2,
    lp_merge_into main sub pc, fun k v hk => alookup_merge_into_claim_roots main sub pc k v hk⟩

/-! ## C7: decision classification -/

theorem stepsFromHits_classification (env : ReEnv) (t : String)
    (hits : List (Nat × Nat × String)) :
    ∀ st ∈ stepsFromHits env t hits,
      st.is_decision = (decPatSearch st.content || st.content.data.contains '?') ∧
      (st.is_decision = false → st.branches = []) := by
  induction hits with
  | nil => intro st hst; simp [stepsFromHits] at hst
  | cons x rest ih =>
    intro st hst
    obtain ⟨pos, num, g2⟩ := x
    rw [stepsFromHits.eq_def] at hst
    simp only at hst
    rcases List.mem_cons.mp hst with heq | hmem
    · subst heq
      constructor
      · rfl
      · intro hfalse
        simp only
        simp only at hfalse
        rw [hfalse]
        simp
    · exact ih st hmem

theorem sectionsFromMatches_steps (env : ReEnv) (t : String) (ms : List (Nat × String)) :
    ∀ sec ∈ sectionsFromMatches env t ms, ∃ txt, sec.steps = parse_steps env txt := by
  induction ms with
  | nil => intro sec hsec; simp [sectionsFromMatches] at hsec
  | cons x rest ih =>
    intro sec hsec
    obtain ⟨pos, name⟩ := x
    rw [sectionsFromMatches.eq_def] at hsec
    simp only at hsec
    rcases List.mem_cons.mp hsec with hemq | hmem
    · subst hemq
      exact ⟨_, rfl⟩
    · exact ih sec hmem

/-- C7: For every parsed step, the parser classifies it as a decision
exactly when its leading sentence matches the interrogative-verb pattern
(Is/Does/Are/Has/...) or it contains a literal question mark; when both
are absent the step is classified as a plain step with no branches. -/
theorem C7_decision_classification (env : ReEnv) (t : String) :
    ∀ sec ∈ (SOPParser.parse env t).sections, ∀ st ∈ sec.steps,
      st.is_decision = (decPatSearch st.content || st.content.data.contains '?') ∧
      (st.is_decision = false → st.branches = []) := by
  intro sec hsec st hst
  obtain ⟨txt, htxt⟩ := sectionsFromMatches_steps env t _ sec hsec
  rw [htxt] at hst
  exact stepsFromHits_classification env txt _ st hst

/-- Concrete one-section, one-decision-step document for the C7 witness. -/
def tC7 : String := "### **Amazon Claims**\n1. Is it raining today?\n"

/-- Regex services on `tC7`: the heading pattern matches at position 0,
the step pattern at position 22 with number 1. -/
def envC7 : ReEnv :=
  { titleHit := fun _ => none, docIdHit := fun _ => none, verHits := fun _ => [],
    sectionHits := fun s => if s = tC7 then [(0, "Amazon Claims")] else [],
    stepHits := fun s => if s = tC7 then [(22, 1, "Is it raining today?")] else [],
    procHits := fun _ => [], refTitleHit := fun _ _ => none,
    yesHit := fun _ => none, noHit := fun _ => none, unsureHit := fun _ => none,
    md5hex8 := fun _ => "", providerHits := fun _ => [] }

/-- The single parsed section of `tC7`. -/
def c7sec : ParsedSection :=
  (SOPParser.parse envC7 tC7).sections.getD 0 ⟨"", [], []⟩

/-- The single parsed step of `tC7`. -/
def c7st : ParsedStep := c7sec.steps.getD 0 ⟨0, "", "", false, [], []⟩

theorem C7_decision_classification_witness :
    c7st.is_decision = (decPatSearch c7st.content || c7st.content.data.contains '?') ∧
    (c7st.is_decision = false → c7st.branches = []) :=
  C7_decision_classification envC7 tC7 c7sec (by decide) c7st (by decide)

/-! ## C6: a not-found reference is a local failure -/

/-- C6: When the external locator cannot find the document for a pending
reference code, resolution of that code sets exactly that code's status
to `not_found` and leaves every other reference's status, and the rest
of the graph state, unchanged. -/
theorem C6_not_found_is_local (env : ReEnv) (w : World) (fuel : Nat) (pc : String)
    (net : WorldNetwork) (r : ProcedureReference)
    (hfind : w.find pc = none)
    (href : alookup net.procedure_refs pc = some r)
    (hpend : r.status = LinkStatus.pending)
    (hfuel : 0 < fuel) :
    (resolve env w fuel pc net).1.nodes = net.nodes ∧
    (resolve env w fuel pc net).1.edges = net.edges ∧
    (resolve env w fuel pc net).1.entities = net.entities ∧
    (resolve env w fuel pc net).1.versions = net.versions ∧
    (resolve env w fuel pc net).1.claim_type_roots = net.claim_type_roots ∧
    (resolve env w fuel pc net).1.linked_procedures = net.linked_procedures ∧
    (resolve env w fuel pc net).1.metadata = net.metadata ∧
    (resolve env w fuel pc net).1.current_version = net.current_version ∧
    (resolve env w fuel pc net).1.nc = net.nc ∧
    (resolve env w fuel pc net).1.ec = net.ec ∧
    alookup (resolve env w fuel pc net).1.procedure_refs pc =
      some { r with status := LinkStatus.not_found } ∧
    (∀ c, c ≠ pc →
      alookup (resolve env w fuel pc net).1.procedure_refs c =
        alookup net.procedure_refs c) := by
  obtain ⟨f, rfl⟩ : ∃ f, fuel = f + 1 := ⟨fuel - 1, by omega⟩
  have hres : (resolve env w (f + 1) pc net).1 = set_ref_status net pc LinkStatus.not_found := by
    simp only [resolve, hfind]
  rw [hres]
  refine ⟨rfl, rfl, rfl, rfl, rfl, rfl, rfl, rfl, rfl, rfl, ?_, ?_⟩
  · show alookup (dmodify net.procedure_refs pc _) pc = _
    rw [alookup_dmodify_self, href]
    rfl
  · intro c hc
    exact alookup_dmodify_ne _ _ _ _ (fun h => hc h.symm)

/-- A regex environment in which every service returns nothing. -/
def envNone : ReEnv :=
  { titleHit := fun _ => none, docIdHit := fun _ => none, verHits := fun _ => [],
    sectionHits := fun _ => [], stepHits := fun _ => [],
    procHits := fun _ => [], refTitleHit := fun _ _ => none,
    yesHit := fun _ => none, noHit := fun _ => none, unsureHit := fun _ => none,
    md5hex8 := fun _ => "", providerHits := fun _ => [] }

/-- A world whose locator finds nothing. -/
def worldC6 : World :=
  { pdirOk := true, find := fun _ => none, extract := fun _ => Except.error "no pdf" }

/-- A graph holding one pending reference. -/
def netC6 : WorldNetwork :=
  { WorldNetwork.init "P001" "Main" with
    procedure_refs := [("PR.OP.CL.2862", mkPendingRef "PR.OP.CL.2862" "")] }

theorem C6_not_found_is_local_witness :
    (resolve envNone worldC6 1 "PR.OP.CL.2862" netC6).1.nodes = netC6.nodes ∧
    alookup (resolve envNone worldC6 1 "PR.OP.CL.2862" netC6).1.procedure_refs
        "PR.OP.CL.2862" =
      some { mkPendingRef "PR.OP.CL.2862" "" with status := LinkStatus.not_found } := by
  have h := C6_not_found_is_local envNone worldC6 1 "PR.OP.CL.2862" netC6
    (mkPendingRef "PR.OP.CL.2862" "") rfl (by decide) rfl (by decide)
  exact ⟨h.1, h.2.2.2.2.2.2.2.2.2.2.1⟩

/-! ## C3: the path-evaluation walk -/

/-- An outgoing edge the walk will take when it is the first such edge:
either a sequence edge (taken unconditionally) or an edge whose
non-empty condition is answered `true` for the current node. -/
def edge_taken (conds : List (String × Bool)) (cur : String) (e : EdgeV1) : Bool :=
  e.edge_type == EdgeTypeV1.sequence ||
    (match e.condition with
     | some c => !(c == "") && (alookup conds (cur ++ "_" ++ c) == some true)
     | none => false)

theorem first_matching_edge_eq_find (conds : List (String × Bool)) (cur : String)
    (l : List EdgeV1) :
    first_matching_edge conds cur l = l.find? (edge_taken conds cur) := by
  induction l with
  | nil => rfl
  | cons e rest ih =>
    rw [first_matching_edge, List.find?]
    by_cases hseq : e.edge_type = EdgeTypeV1.sequence
    · rw [if_pos hseq]
      have : edge_taken conds cur e = true := by
        simp [edge_taken, hseq]
      rw [this]
    · rw [if_neg hseq]
      cases hc : e.condition with
      | none =>
        dsimp only
        have : edge_taken conds cur e = false := by
          simp [edge_taken, hc, hseq]
        rw [this, ih]
      | some c =>
        dsimp only
        by_cases htrue : c ≠ "" ∧ alookup conds (cur ++ "_" ++ c) = some true
        · rw [if_pos htrue]
          have : edge_taken conds cur e = true := by
            simp [edge_taken, hc, htrue.1, htrue.2]
          rw [this]
        · rw [if_neg htrue]
          have : edge_taken conds cur e = false := by
            simp only [edge_taken, hc, Bool.or_eq_false_iff]
            refine ⟨by simp [hseq], ?_⟩
            by_cases h1 : c = ""
            · simp [h1]
            · have h3 : alookup conds (cur ++ "_" ++ c) ≠ some true :=
                fun hx => htrue ⟨h1, hx⟩
              simp [h1, h3]
          rw [this, ih]

/-- C3 counterexample graph: decision node `n1` with an unanswered `NO`
branch and a sequence edge to the next step `n3` (the shape the builder
produces for a decision step followed by another step). -/
def netC3 : WorldNetworkV1 :=
  (((((WorldNetworkV1.init "P1" "Doc").add_node
    { id := "n1", node_type := NodeTypeV1.decision, content := "Is it covered?",
      raw_text := "", step_number := some 1, parent_id := none,
      sectionLabel := none, entities := [] }).add_node
    { id := "n2", node_type := NodeTypeV1.branch_no, content := "Deny",
      raw_text := "", step_number := none, parent_id := some "n1",
      sectionLabel := none, entities := [] }).add_node
    { id := "n3", node_type := NodeTypeV1.step, content := "File the claim",
      raw_text := "", step_number := some 2, parent_id := none,
      sectionLabel := none, entities := [] }).add_edge
    { id := "e1", source_id := "n1", target_id := "n2",
      edge_type := EdgeTypeV1.condition_no, condition := some "NO",
      condition_value := none }).add_edge
    { id := "e2", source_id := "n1", target_id := "n3",
      edge_type := EdgeTypeV1.sequence, condition := none, condition_value := none }

/-- C3 counterexample: with an empty answered-conditions map, no
condition of the decision node `n1` is answered true, yet the walk does
not stop at `n1`: it continues through the sequence edge to `n3`. -/
theorem C3_counterexample :
    (alookup netC3.nodes "n1").map (fun n => n.node_type) = some NodeTypeV1.decision ∧
    get_decision_path netC3 "n1" [] 10 = ["n1", "n3"] ∧
    get_decision_path netC3 "n1" [] 10 ≠ ["n1"] := by
  refine ⟨by decide, by decide, by decide⟩

/-- C3 as amended: the walk's edge selection takes, among the current
node's outgoing edges in insertion order, the first edge that is a
sequence edge (followed unconditionally) or has its non-empty condition
answered true for this node; when no such edge exists — in particular at
a decision node none of whose conditions is answered true and which has
no outgoing sequence edge — the walk stops at that node. -/
theorem C3_amended_walk (net : WorldNetworkV1) (conds : List (String × Bool))
    (cur : String) (fuel : Nat) (hcur : cur ≠ "") :
    (first_matching_edge conds cur (get_outgoing_edges_v1 net cur) =
      (get_outgoing_edges_v1 net cur).find? (edge_taken conds cur)) ∧
    ((get_outgoing_edges_v1 net cur).find? (edge_taken conds cur) = none →
      gdpAux net conds (fuel + 1) cur = [cur]) ∧
    (∀ e, (alookup net.nodes cur).isSome = true →
      first_matching_edge conds cur (get_outgoing_edges_v1 net cur) = some e →
      gdpAux net conds (fuel + 1) cur = cur :: gdpAux net conds fuel e.target_id) := by
  refine ⟨first_matching_edge_eq_find conds cur _, ?_, ?_⟩
  · intro hnone
    rw [gdpAux, if_neg hcur]
    cases hn : alookup net.nodes cur with
    | none => rfl
    | some nd =>
      rw [first_matching_edge_eq_find, hnone]
  · intro e hsome hfm
    rw [gdpAux, if_neg hcur]
    cases hn : alookup net.nodes cur with
    | none => rw [hn] at hsome; exact absurd hsome (by simp)
    | some nd => rw [hfm]

/-- C3 witness graph: decision node with a single unanswered condition
edge and no sequence edge; the walk stops. -/
def netC3b : WorldNetworkV1 :=
  (((WorldNetworkV1.init "P1" "Doc").add_node
    { id := "n1", node_type := NodeTypeV1.decision, content := "Is it covered?",
      raw_text := "", step_number := some 1, parent_id := none,
      sectionLabel := none, entities := [] }).add_node
    { id := "n2", node_type := NodeTypeV1.branch_no, content := "Deny",
      raw_text := "", step_number := none, parent_id := some "n1",
      sectionLabel := none, entities := [] }).add_edge
    { id := "e1", source_id := "n1", target_id := "n2",
      edge_type := EdgeTypeV1.condition_no, condition := some "NO",
      condition_value := none }

theorem C3_amended_walk_witness :
    get_decision_path netC3b "n1" [] 6 = ["n1"] := by
  have h := C3_amended_walk netC3b [] "n1" 5 (by decide)
  exact h.2.1 (by decide)

/-! ## Resolver machinery shared by several statements -/

theorem mem_dset {α : Type} (l : List (String × α)) (k : String) (v : α)
    (p : String × α) (h : p ∈ dset l k v) : p ∈ l ∨ p = (k, v) := by
  induction l with
  | nil => simp [dset] at h; exact Or.inr h
  | cons hd t ih =>
    obtain ⟨k0, v0⟩ := hd
    by_cases hk : k0 = k
    · rw [dset, if_pos hk] at h
      rcases List.mem_cons.mp h with h1 | h2
      · exact Or.inr h1
      · exact Or.inl (List.mem_cons_of_mem _ h2)
    · rw [dset, if_neg hk] at h
      rcases List.mem_cons.mp h with h1 | h2
      · exact Or.inl (h1 ▸ List.mem_cons_self _ _)
      · rcases ih h2 with h3 | h4
        · exact Or.inl (List.mem_cons_of_mem _ h3)
        · exact Or.inr h4

theorem mem_dmodify {α : Type} (l : List (String × α)) (k : String) (f : α → α)
    (p : String × α) (h : p ∈ dmodify l k f) :
    p ∈ l ∨ ∃ q ∈ l, p = (q.1, f q.2) := by
  induction l with
  | nil => simp [dmodify] at h
  | cons hd t ih =>
    obtain ⟨k0, v0⟩ := hd
    by_cases hk : k0 = k
    · rw [dmodify, if_pos hk] at h
      rcases List.mem_cons.mp h with h1 | h2
      · exact Or.inr ⟨(k0, v0), List.mem_cons_self _ _, h1⟩
      · exact Or.inl (List.mem_cons_of_mem _ h2)
    · rw [dmodify, if_neg hk] at h
      rcases List.mem_cons.mp h with h1 | h2
      · exact Or.inl (h1 ▸ List.mem_cons_self _ _)
      · rcases ih h2 with h3 | ⟨q, hq, hpq⟩
        · exact Or.inl (List.mem_cons_of_mem _ h3)
        · exact Or.inr ⟨q, List.mem_cons_of_mem _ hq, hpq⟩

theorem foldl_preserves {β : Type} (P : WorldNetwork → Prop)
    (f : WorldNetwork → β → WorldNetwork) (l : List β) (net : WorldNetwork)
    (hstep : ∀ n x, P n → P (f n x)) (h : P net) : P (l.foldl f net) := by
  induction l generalizing net with
  | nil => exact h
  | cons x t ih => exact ih (f net x) (hstep net x h)

theorem refs_merge_into (main sub : WorldNetwork) (pc : String) :
    (merge_into main sub pc).procedure_refs = main.procedure_refs := by
  have h := docFrame_merge_into main sub pc
  simp only [docFrame, Prod.mk.injEq] at h
  exact h.2.2.2.2.2.2

/-- Unfolding of `_resolve` on a located, successfully extracted
document: the graph at the end is the fold of the per-reference loop
body over the graph in which the merge has been performed and the
status already recorded as `resolved`. -/
theorem resolve_located_spec (env : ReEnv) (w : World) (fuel : Nat) (pc : String)
    (net : WorldNetwork) (pdf txt : String)
    (hf : w.find pc = some pdf) (hx : w.extract pdf = Except.ok txt) :
    (resolve env w (fuel + 1) pc net).1 =
      (dkeys (build env (SOPParser.parse env txt) pc
          (SOPParser.parse env txt).document_info.title).procedure_refs).foldl
        (resolve_child env w fuel) (resolve_located env net pc pdf txt) := by
  simp only [resolve, hf, hx]
  rfl

/-- The per-reference loop body never re-enters a reference that is not
`pending`: it returns the graph unchanged. -/
theorem resolve_child_skips (env : ReEnv) (w : World) (fuel : Nat)
    (n : WorldNetwork) (cc : String) (r : ProcedureReference)
    (h : alookup n.procedure_refs cc = some r)
    (hst : r.status ≠ LinkStatus.pending) :
    resolve_child env w fuel n cc = n := by
  have hm : dmem n.procedure_refs cc = true := by
    simp [dmem, h]
  have hreg : register_pending n cc = n := by
    unfold register_pending
    rw [if_pos hm]
  unfold resolve_child
  rw [hreg]
  dsimp only
  rw [h]
  simp only [if_neg hst]

/-- Invariant-preservation transformer for `_resolve`: an invariant that
survives each of the four graph updates of the resolver (marking
not-found, marking errored, merge-and-mark-resolved, registering a new
pending reference) survives the whole recursion. -/
theorem resolve_preserves (env : ReEnv) (w : World) (P : WorldNetwork → Prop)
    (hnot : ∀ net pc, w.find pc = none → P net →
      P (set_ref_status net pc LinkStatus.not_found))
    (herr : ∀ net pc pdf e, w.find pc = some pdf → w.extract pdf = Except.error e →
      P net → P { net with procedure_refs := dmodify net.procedure_refs pc (setErrored e) })
    (hloc : ∀ net pc pdf txt, w.find pc = some pdf → w.extract pdf = Except.ok txt →
      P net → P (resolve_located env net pc pdf txt))
    (hreg : ∀ net cc, P net → P (register_pending net cc)) :
    ∀ fuel pc net, P net → P (resolve env w fuel pc net).1 := by
  intro fuel
  induction fuel with
  | zero => intro pc net h; exact h
  | succ f ih =>
    intro pc net h
    cases hf : w.find pc with
    | none =>
      have : (resolve env w (f + 1) pc net).1 = set_ref_status net pc LinkStatus.not_found := by
        simp only [resolve, hf]
      rw [this]
      exact hnot net pc hf h
    | some pdf =>
      cases hx : w.extract pdf with
      | error e =>
        have : (resolve env w (f + 1) pc net).1 =
            { net with procedure_refs := dmodify net.procedure_refs pc (setErrored e) } := by
          simp only [resolve, hf, hx]
        rw [this]
        exact herr net pc pdf e hf hx h
      | ok txt =>
        rw [resolve_located_spec env w f pc net pdf txt hf hx]
        refine foldl_preserves P _ _ _ ?_ (hloc net pc pdf txt hf hx h)
        intro n cc hn
        unfold resolve_child
        dsimp only
        cases hr : alookup (register_pending n cc).procedure_refs cc with
        | none => exact hreg n cc hn
        | some r =>
          dsimp only
          by_cases hp : r.status = LinkStatus.pending
          · rw [if_pos hp]
            exact ih cc (register_pending n cc) (hreg n cc hn)
          · rw [if_neg hp]
            exact hreg n cc hn

/-- Every status value the resolver's data can hold: the four values of
the `LinkStatus` enum (there is no fifth, in-progress value). -/
def statuses_legal (net : WorldNetwork) : Prop :=
  ∀ p ∈ net.procedure_refs, p.2.status = LinkStatus.pending ∨
    p.2.status = LinkStatus.resolved ∨ p.2.status = LinkStatus.not_found ∨
    p.2.status = LinkStatus.error

theorem statuses_legal_resolve (env : ReEnv) (w : World) :
    ∀ fuel pc net, statuses_legal net → statuses_legal (resolve env w fuel pc net).1 := by
  refine resolve_preserves env w statuses_legal ?_ ?_ ?_ ?_
  · intro net pc _ h p hp
    rcases mem_dmodify _ _ _ _ hp with h1 | ⟨q, hq, hpq⟩
    · exact h p h1
    · rw [hpq]
      exact Or.inr (Or.inr (Or.inl rfl))
  · intro net pc pdf e _ _ h p hp
    rcases mem_dmodify _ _ _ _ hp with h1 | ⟨q, hq, hpq⟩
    · exact h p h1
    · rw [hpq]
      exact Or.inr (Or.inr (Or.inr rfl))
  · intro net pc pdf txt _ _ h p hp
    unfold resolve_located at hp
    simp only at hp
    rcases mem_dmodify _ _ _ _ hp with h1 | ⟨q, hq, hpq⟩
    · rw [refs_merge_into] at h1
      exact h p h1
    · rw [hpq]
      exact Or.inr (Or.inl rfl)
  · intro net cc h p hp
    unfold register_pending at hp
    by_cases hm : dmem net.procedure_refs cc = true
    · rw [if_pos hm] at hp
      exact h p hp
    · rw [if_neg hm] at hp
      simp only at hp
      rcases mem_dset _ _ _ _ hp with h1 | h2
      · exact h p h1
      · rw [h2]
        exact Or.inl rfl

/-! ## C1: the resolver's per-reference state machine -/

/-- The reference code of the C1 scenario. -/
def pcC1 : String := "PR.OP.CL.0001"

/-- A world in which the C1 code's document is found and extracts
cleanly. -/
def worldC1 : World :=
  { pdirOk := true,
    find := fun c => if c = pcC1 then some "a.pdf" else none,
    extract := fun p => if p = "a.pdf" then Except.ok "Linked doc body." else
      Except.error "missing" }

/-- A main graph holding the C1 code as its only (pending) reference. -/
def netC1 : WorldNetwork :=
  { WorldNetwork.init "P001" "Main" with
    procedure_refs := [(pcC1, mkPendingRef pcC1 "")] }

/-- C1 counterexample: in this run the pending reference `pcC1` is
successfully located, yet at the moment the resolver starts the loop
over the sub-document's own references (`resolve_located` is exactly the
graph state at that program point) its recorded status is `resolved` —
not the claimed in-progress marker `resolving` — and no reference ever
carries a `resolving` status during the whole resolution. -/
theorem C1_counterexample :
    (alookup netC1.procedure_refs pcC1).map (fun r => r.status) = some LinkStatus.pending ∧
    worldC1.find pcC1 = some "a.pdf" ∧
    (alookup (resolve_located envNone netC1 pcC1 "a.pdf" "Linked doc body.").procedure_refs
      pcC1).map (fun r => r.status) = some LinkStatus.resolved ∧
    LinkStatus.resolved ≠ "resolving" ∧
    (∀ p ∈ (resolve envNone worldC1 3 pcC1 netC1).1.procedure_refs,
      p.2.status ≠ "resolving") := by
  refine ⟨by decide, by decide, by decide, by decide, by decide⟩

/-- C1 as amended: the status machine is
`pending → {resolved, not_found, error}` with no in-progress value: for
a pending reference that is successfully located and extracted, the
resolver records the terminal status `resolved` (not a `resolving`
marker) in the graph before the loop over the sub-document's own
references runs; any reference whose status is not `pending` when that
loop reaches it is skipped rather than re-entered; and no reachable
graph ever holds a status outside the four `LinkStatus` values (in
particular never `resolving`). -/
theorem C1_amended_state_machine (env : ReEnv) (w : World) (fuel : Nat)
    (pc pdf txt : String) (net : WorldNetwork) (r : ProcedureReference)
    (hfind : w.find pc = some pdf) (hext : w.extract pdf = Except.ok txt)
    (href : alookup net.procedure_refs pc = some r) :
    ((resolve env w (fuel + 1) pc net).1 =
      (dkeys (build env (SOPParser.parse env txt) pc
          (SOPParser.parse env txt).document_info.title).procedure_refs).foldl
        (resolve_child env w fuel) (resolve_located env net pc pdf txt)) ∧
    ((alookup (resolve_located env net pc pdf txt).procedure_refs pc).map
      (fun q => q.status) = some LinkStatus.resolved) ∧
    (∀ n cc r', alookup n.procedure_refs cc = some r' →
      r'.status ≠ LinkStatus.pending → resolve_child env w fuel n cc = n) ∧
    (statuses_legal net → statuses_legal (resolve env w (fuel + 1) pc net).1 ∧
      ∀ p ∈ (resolve env w (fuel + 1) pc net).1.procedure_refs,
        p.2.status ≠ "resolving") := by
  refine ⟨resolve_located_spec env w fuel pc net pdf txt hfind hext, ?_, ?_, ?_⟩
  · unfold resolve_located
    simp only
    rw [alookup_dmodify_self, refs_merge_into, href]
    rfl
  · intro n cc r' h1 h2
    exact resolve_child_skips env w fuel n cc r' h1 h2
  · intro hleg
    have h := statuses_legal_resolve env w (fuel + 1) pc net hleg
    refine ⟨h, ?_⟩
    intro p hp
    rcases h p hp with h1 | h1 | h1 | h1 <;> rw [h1] <;> decide

theorem C1_amended_state_machine_witness :
    (alookup (resolve_located envNone netC1 pcC1 "a.pdf" "Linked doc body.").procedure_refs
      pcC1).map (fun q => q.status) = some LinkStatus.resolved ∧
    resolve_child envNone worldC1 1
      { netC1 with procedure_refs := [(pcC1, { mkPendingRef pcC1 "" with
          status := LinkStatus.resolved })] } pcC1 =
      { netC1 with procedure_refs := [(pcC1, { mkPendingRef pcC1 "" with
          status := LinkStatus.resolved })] } := by
  have h := C1_amended_state_machine envNone worldC1 1 pcC1 "a.pdf" "Linked doc body."
    netC1 (mkPendingRef pcC1 "") rfl rfl (by decide)
  refine ⟨h.2.1, ?_⟩
  exact h.2.2.1 _ pcC1 { mkPendingRef pcC1 "" with status := LinkStatus.resolved }
    (by decide) (by decide)

/-! ## C2: status monotonicity -/

theorem alookup_mem {α : Type} (l : List (String × α)) (k : String) (v : α)
    (h : alookup l k = some v) : (k, v) ∈ l := by
  induction l with
  | nil => simp [alookup] at h
  | cons hd t ih =>
    obtain ⟨k0, v0⟩ := hd
    by_cases hk : k0 = k
    · rw [alookup, if_pos hk] at h
      subst hk
      rw [Option.some.injEq] at h
      subst h
      exact List.mem_cons_self _ _
    · rw [alookup, if_neg hk] at h
      exact List.mem_cons_of_mem _ (ih h)

theorem mem_dmodify_key {α : Type} (l : List (String × α)) (k : String) (f : α → α)
    (p : String × α) (h : p ∈ dmodify l k f) :
    p ∈ l ∨ ∃ q ∈ l, q.1 = k ∧ p = (k, f q.2) := by
  induction l with
  | nil => simp [dmodify] at h
  | cons hd t ih =>
    obtain ⟨k0, v0⟩ := hd
    by_cases hk : k0 = k
    · rw [dmodify, if_pos hk] at h
      rcases List.mem_cons.mp h with h1 | h2
      · exact Or.inr ⟨(k0, v0), List.mem_cons_self _ _, hk, by rw [h1, hk]⟩
      · exact Or.inl (List.mem_cons_of_mem _ h2)
    · rw [dmodify, if_neg hk] at h
      rcases List.mem_cons.mp h with h1 | h2
      · exact Or.inl (h1 ▸ List.mem_cons_self _ _)
      · rcases ih h2 with h3 | ⟨q, hq, hqk, hpq⟩
        · exact Or.inl (List.mem_cons_of_mem _ h3)
        · exact Or.inr ⟨q, List.mem_cons_of_mem _ hq, hqk, hpq⟩

/-- The status the resolver writes for a code is a function of the
external world alone: `not_found` when the locator misses, `error` when
extraction raises, `resolved` when it succeeds. -/
def statusFor (w : World) (c : String) : String :=
  match w.find c with
  | none => LinkStatus.not_found
  | some p =>
    match w.extract p with
    | Except.ok _ => LinkStatus.resolved
    | Except.error _ => LinkStatus.error

/-- Every reference is still `pending` or already carries the status the
world determines for its code.  This holds for every graph the builder
produces (all references start `pending`) and is preserved by the
resolver, which only ever writes `statusFor`. -/
def consistentW (w : World) (net : WorldNetwork) : Prop :=
  ∀ p ∈ net.procedure_refs, p.2.status = LinkStatus.pending ∨ p.2.status = statusFor w p.1

/-- Status of one code in a graph. -/
def statusAt (net : WorldNetwork) (c : String) : Option String :=
  (alookup net.procedure_refs c).map (fun r => r.status)

/-- The three terminal statuses. -/
def terminalStatus (s : String) : Prop :=
  s = LinkStatus.resolved ∨ s = LinkStatus.not_found ∨ s = LinkStatus.error

theorem terminalStatus_ne_pending (s : String) (h : terminalStatus s) :
    s ≠ LinkStatus.pending := by
  rcases h with h | h | h <;> rw [h] <;> decide

theorem consistent_and_terminal_resolve (env : ReEnv) (w : World) (c s : String)
    (hterm : terminalStatus s) :
    ∀ fuel pc net, consistentW w net ∧ statusAt net c = some s →
      consistentW w (resolve env w fuel pc net).1 ∧
      statusAt (resolve env w fuel pc net).1 c = some s := by
  refine resolve_preserves env w
    (fun net => consistentW w net ∧ statusAt net c = some s) ?_ ?_ ?_ ?_
  · intro net pc hf ⟨hcons, hstat⟩
    constructor
    · intro p hp
      rcases mem_dmodify_key _ _ _ _ hp with h1 | ⟨q, hq, hqk, hpq⟩
      · exact hcons p h1
      · right
        rw [hpq]
        simp only [statusFor, hf]
    · show (alookup (dmodify net.procedure_refs pc _) c).map _ = some s
      by_cases hc : c = pc
      · subst hc
        rw [alookup_dmodify_self]
        obtain ⟨r, hr, hrs⟩ : ∃ r, alookup net.procedure_refs c = some r ∧ r.status = s := by
          unfold statusAt at hstat
          cases hl : alookup net.procedure_refs c with
          | none => rw [hl] at hstat; exact absurd hstat (by simp)
          | some r => rw [hl] at hstat; exact ⟨r, rfl, by simpa using hstat⟩
        rcases hcons (c, r) (alookup_mem _ _ _ hr) with hpend | hstf
        · exact absurd (hrs ▸ hpend) (terminalStatus_ne_pending s hterm)
        · rw [hr]
          simp only [Option.map_some']
          have : s = statusFor w c := by rw [← hrs]; exact hstf
          rw [this]
          simp [statusFor, hf]
      · rw [alookup_dmodify_ne _ _ _ _ (fun h => hc h.symm)]
        exact hstat
  · intro net pc pdf e hf hx ⟨hcons, hstat⟩
    constructor
    · intro p hp
      rcases mem_dmodify_key _ _ _ _ hp with h1 | ⟨q, hq, hqk, hpq⟩
      · exact hcons p h1
      · right
        rw [hpq]
        simp only [statusFor, hf, hx, setErrored]
    · show (alookup (dmodify net.procedure_refs pc _) c).map _ = some s
      by_cases hc : c = pc
      · subst hc
        rw [alookup_dmodify_self]
        obtain ⟨r, hr, hrs⟩ : ∃ r, alookup net.procedure_refs c = some r ∧ r.status = s := by
          unfold statusAt at hstat
          cases hl : alookup net.procedure_refs c with
          | none => rw [hl] at hstat; exact absurd hstat (by simp)
          | some r => rw [hl] at hstat; exact ⟨r, rfl, by simpa using hstat⟩
        rcases hcons (c, r) (alookup_mem _ _ _ hr) with hpend | hstf
        · exact absurd (hrs ▸ hpend) (terminalStatus_ne_pending s hterm)
        · rw [hr]
          simp only [Option.map_some']
          have : s = statusFor w c := by rw [← hrs]; exact hstf
          rw [this]
          simp [statusFor, hf, hx, setErrored]
      · rw [alookup_dmodify_ne _ _ _ _ (fun h => hc h.symm)]
        exact hstat
  · intro net pc pdf txt hf hx ⟨hcons, hstat⟩
    unfold resolve_located
    simp only
    constructor
    · intro p hp
      rcases mem_dmodify_key _ _ _ _ hp with h1 | ⟨q, hq, hqk, hpq⟩
      · rw [refs_merge_into] at h1
        exact hcons p h1
      · right
        rw [hpq]
        simp only [statusFor, hf, hx, setResolved]
    · show (alookup (dmodify (merge_into net _ pc).procedure_refs pc _) c).map _ = some s
      by_cases hc : c = pc
      · subst hc
        rw [alookup_dmodify_self, refs_merge_into]
        obtain ⟨r, hr, hrs⟩ : ∃ r, alookup net.procedure_refs c = some r ∧ r.status = s := by
          unfold statusAt at hstat
          cases hl : alookup net.procedure_refs c with
          | none => rw [hl] at hstat; exact absurd hstat (by simp)
          | some r => rw [hl] at hstat; exact ⟨r, rfl, by simpa using hstat⟩
        rcases hcons (c, r) (alookup_mem _ _ _ hr) with hpend | hstf
        · exact absurd (hrs ▸ hpend) (terminalStatus_ne_pending s hterm)
        · rw [hr]
          simp only [Option.map_some']
          have : s = statusFor w c := by rw [← hrs]; exact hstf
          rw [this]
          simp [statusFor, hf, hx, setResolved]
      · rw [alookup_dmodify_ne _ _ _ _ (fun h => hc h.symm), refs_merge_into]
        exact hstat
  · intro net cc ⟨hcons, hstat⟩
    unfold register_pending
    by_cases hm : dmem net.procedure_refs cc = true
    · rw [if_pos hm]
      exact ⟨hcons, hstat⟩
    · rw [if_neg hm]
      have habs : alookup net.procedure_refs cc = none := by
        unfold dmem at hm
        cases hl : alookup net.procedure_refs cc with
        | none => rfl
        | some r => rw [hl] at hm; simp at hm
      constructor
      · intro p hp
        simp only at hp
        rcases mem_dset _ _ _ _ hp with h1 | h2
        · exact hcons p h1
        · rw [h2]
          exact Or.inl rfl
      · show (alookup (dset net.procedure_refs cc _) c).map _ = some s
        by_cases hc : c = cc
        · subst hc
          unfold statusAt at hstat
          rw [habs] at hstat
          exact absurd hstat (by simp)
        · rw [alookup_dset_ne _ _ _ _ (fun h => hc h.symm)]
          exact hstat

theorem foldl_preserves_snd {β δ : Type} (P : WorldNetwork → Prop)
    (f : δ × WorldNetwork → β → δ × WorldNetwork) (l : List β) (acc : δ × WorldNetwork)
    (hstep : ∀ a x, P a.2 → P (f a x).2) (h : P acc.2) : P (l.foldl f acc).2 := by
  induction l generalizing acc with
  | nil => exact h
  | cons x t ih => exact ih (f acc x) (hstep acc x h)

/-- All references of a graph are still `pending`. -/
def refs_pending (net : WorldNetwork) : Prop :=
  ∀ p ∈ net.procedure_refs, p.2.status = LinkStatus.pending

theorem add_ref_refs (env : ReEnv) (net : WorldNetwork) (pc src ctx : String) :
    (add_ref env net pc src ctx).procedure_refs =
      if dmem net.procedure_refs pc = true then net.procedure_refs
      else dset net.procedure_refs pc
        (mkPendingRef pc (match env.refTitleHit ctx pc with
                          | some m => pstrip m
                          | none => "")) := by
  unfold add_ref
  dsimp only
  by_cases hm : dmem net.procedure_refs pc = true
  · simp only [if_pos hm]
    rfl
  · simp only [if_neg hm]
    rfl

theorem refs_pending_add_ref (env : ReEnv) (net : WorldNetwork) (pc src ctx : String)
    (h : refs_pending net) : refs_pending (add_ref env net pc src ctx) := by
  intro p hp
  rw [add_ref_refs] at hp
  by_cases hm : dmem net.procedure_refs pc = true
  · rw [if_pos hm] at hp
    exact h p hp
  · rw [if_neg hm] at hp
    rcases mem_dset _ _ _ _ hp with h1 | h2
    · exact h p h1
    · rw [h2]
      rfl

theorem refs_pending_proc_branch (env : ReEnv) (net : WorldNetwork) (b : ParsedBranch)
    (pid sec : String) (h : refs_pending net) : refs_pending (proc_branch env net b pid sec) := by
  unfold proc_branch
  refine foldl_preserves refs_pending _ _ _ ?_ ?_
  · intro n x hn
    exact refs_pending_add_ref env n x _ _ hn
  · exact h

theorem refs_pending_proc_step (env : ReEnv) (net : WorldNetwork) (st : ParsedStep)
    (prev sec : String) (h : refs_pending net) :
    refs_pending (proc_step env net st prev sec).2 := by
  unfold proc_step
  by_cases hd : st.is_decision = true
  · rw [if_pos hd]
    refine foldl_preserves refs_pending _ _ _ ?_ ?_
    · intro n x hn
      exact refs_pending_add_ref env n x _ _ hn
    · refine foldl_preserves refs_pending _ _ _ ?_ ?_
      · intro n x hn
        exact refs_pending_proc_branch env n x _ _ hn
      · exact h
  · rw [if_neg hd]
    refine foldl_preserves refs_pending _ _ _ ?_ ?_
    · intro n x hn
      exact refs_pending_add_ref env n x _ _ hn
    · exact h

theorem refs_pending_proc_section (env : ReEnv) (net : WorldNetwork) (sec : ParsedSection)
    (pid : String) (h : refs_pending net) : refs_pending (proc_section env net sec pid) := by
  unfold proc_section
  refine foldl_preserves_snd refs_pending _ _ _ ?_ ?_
  · intro a x ha
    exact refs_pending_proc_step env a.2 x a.1 sec.name ha
  · exact h

theorem refs_pending_build (env : ReEnv) (pd : ParsedDoc) (di dn : String) :
    refs_pending (build env pd di dn) := by
  unfold build extract_entities
  dsimp only
  refine foldl_preserves refs_pending _ _ _ ?_ ?_
  · intro n x hn p hp
    by_cases hm : dmem n.entities ("ent_" ++ env.md5hex8 x) = true
    · rw [if_pos hm] at hp
      exact hn p hp
    · rw [if_neg hm] at hp
      exact hn p hp
  · refine foldl_preserves refs_pending _ _ _ ?_ ?_
    · intro n x hn p hp
      by_cases hm : dmem n.procedure_refs x.code = true
      · rw [if_pos hm] at hp
        exact hn p hp
      · rw [if_neg hm] at hp
        rcases mem_dset _ _ _ _ hp with h1 | h2
        · exact hn p h1
        · rw [h2]
          rfl
    · refine foldl_preserves refs_pending _ _ _ ?_ ?_
      · intro n x hn
        exact refs_pending_proc_section env n x _ hn
      · intro p hp
        rcases hv : pd.versions with _ | ⟨v0, vrest⟩
        · rw [hv] at hp
          dsimp only [WorldNetwork.init] at hp
          exact absurd hp (List.not_mem_nil p)
        · rw [hv] at hp
          dsimp only [WorldNetwork.init] at hp
          exact absurd hp (List.not_mem_nil p)

/-- C2: For every ProcedureReference in the graph and every sequence of
operations performed by `resolve_all` (including nested recursive
resolutions within one pass — every such operation sequence is an
instance of `resolve` at some fuel and code, applied to a consistent
graph), once a reference's status has reached `resolved`, `not_found`
or `error`, no later operation changes it to any other value; in
particular no status ever reverts to `pending`.  Builder outputs are
consistent (all their references are `pending`), so the invariant
covers every graph arising in a run. -/
theorem C2_status_monotonic (env : ReEnv) (w : World) (net : WorldNetwork)
    (c s : String) (fuel maxd : Nat) (pc : String)
    (hcons : consistentW w net) (hterm : terminalStatus s)
    (hstat : statusAt net c = some s) :
    (statusAt (resolve env w fuel pc net).1 c = some s ∧
      consistentW w (resolve env w fuel pc net).1) ∧
    statusAt (resolve_all env w net maxd) c = some s ∧
    (∀ pd di dn, consistentW w (build env pd di dn)) := by
  refine ⟨?_, ?_, ?_⟩
  · have h := consistent_and_terminal_resolve env w c s hterm fuel pc net ⟨hcons, hstat⟩
    exact ⟨h.2, h.1⟩
  · unfold resolve_all
    by_cases hp : w.pdirOk = false
    · rw [if_pos hp]
      exact hstat
    · rw [if_neg hp]
      have h := foldl_preserves (fun n => consistentW w n ∧ statusAt n c = some s)
        (fun n pc' => (resolve env w maxd pc' n).1)
        ((net.procedure_refs.filter (fun q => q.2.status == LinkStatus.pending)).map (·.1)) net
        (fun n pc' hn => consistent_and_terminal_resolve env w c s hterm maxd pc' n hn)
        ⟨hcons, hstat⟩
      exact h.2
  · intro pd di dn p hp
    exact Or.inl (refs_pending_build env pd di dn p hp)

/-- World and graph for the C2 witness: the code was already marked
`not_found` by an earlier pass and the locator still misses it. -/
def netC2 : WorldNetwork :=
  { WorldNetwork.init "P001" "Main" with
    procedure_refs :=
      [("PR.OP.CL.2862", { mkPendingRef "PR.OP.CL.2862" "" with
          status := LinkStatus.not_found })] }

theorem C2_status_monotonic_witness :
    statusAt (resolve envNone worldC6 2 "PR.OP.CL.2862" netC2).1 "PR.OP.CL.2862" =
      some LinkStatus.not_found ∧
    statusAt (resolve_all envNone worldC6 netC2 3) "PR.OP.CL.2862" =
      some LinkStatus.not_found := by
  have h := C2_status_monotonic envNone worldC6 netC2 "PR.OP.CL.2862"
    LinkStatus.not_found 2 3 "PR.OP.CL.2862"
    (by unfold consistentW; decide) (Or.inr (Or.inl rfl)) (by decide)
  exact ⟨h.1.1, h.2.1⟩

/-! ## Identifier-counter invariant (C9, C4) -/

/-- The node and edge key lists are exactly the ids the counters have
allocated, in allocation order. -/
def counter_ok (net : WorldNetwork) : Prop :=
  dkeys net.nodes = (List.range net.nc).map (fun k => mkNodeId (k + 1)) ∧
  dkeys net.edges = (List.range net.ec).map (fun k => mkEdgeId (k + 1))

theorem mkNodeId_fresh (n : Nat) :
    mkNodeId (n + 1) ∉ (List.range n).map (fun k => mkNodeId (k + 1)) := by
  intro h
  rcases List.mem_map.mp h with ⟨k, hk, he⟩
  have := mkNodeId_injective he
  rw [List.mem_range] at hk
  omega

theorem mkEdgeId_fresh (n : Nat) :
    mkEdgeId (n + 1) ∉ (List.range n).map (fun k => mkEdgeId (k + 1)) := by
  intro h
  rcases List.mem_map.mp h with ⟨k, hk, he⟩
  have := mkEdgeId_injective he
  rw [List.mem_range] at hk
  omega

theorem dkeys_append {α : Type} (l l' : List (String × α)) :
    dkeys (l ++ l') = dkeys l ++ dkeys l' := by
  simp [dkeys]

theorem create_node_spec (net : WorldNetwork) (nt : NodeType) (c : String)
    (s : Option String) (sn : Option Nat) (p : Option String)
    (hc : counter_ok net) :
    (create_node net nt c s sn p).1.id = mkNodeId (net.nc + 1) ∧
    (create_node net nt c s sn p).1.id ∉ dkeys net.nodes ∧
    (create_node net nt c s sn p).2.nodes =
      net.nodes ++ [(mkNodeId (net.nc + 1), (create_node net nt c s sn p).1)] ∧
    (create_node net nt c s sn p).2.nc = net.nc + 1 ∧
    (create_node net nt c s sn p).2.edges = net.edges ∧
    (create_node net nt c s sn p).2.ec = net.ec ∧
    counter_ok (create_node net nt c s sn p).2 := by
  have hfresh : mkNodeId (net.nc + 1) ∉ dkeys net.nodes := by
    rw [hc.1]
    exact mkNodeId_fresh net.nc
  have hnone : alookup net.nodes (mkNodeId (net.nc + 1)) = none :=
    alookup_eq_none_of_not_mem_keys _ _ hfresh
  have happ : (create_node net nt c s sn p).2.nodes =
      net.nodes ++ [(mkNodeId (net.nc + 1), (create_node net nt c s sn p).1)] := by
    show dset net.nodes (mkNodeId (net.nc + 1)) _ = _
    exact dset_fresh_append _ _ _ hnone
  refine ⟨rfl, hfresh, happ, rfl, rfl, rfl, ?_, hc.2⟩
  show dkeys ((create_node net nt c s sn p).2.nodes) =
    (List.range (net.nc + 1)).map (fun k => mkNodeId (k + 1))
  rw [happ, dkeys_append, hc.1, List.range_succ, List.map_append]
  rfl

theorem create_edge_spec (net : WorldNetwork) (src tgt : String) (et : EdgeType)
    (cond : Option String) (hc : counter_ok net) :
    (create_edge net src tgt et cond).1.id = mkEdgeId (net.ec + 1) ∧
    (create_edge net src tgt et cond).1.id ∉ dkeys net.edges ∧
    (create_edge net src tgt et cond).2.edges =
      net.edges ++ [(mkEdgeId (net.ec + 1), (create_edge net src tgt et cond).1)] ∧
    (create_edge net src tgt et cond).2.ec = net.ec + 1 ∧
    (create_edge net src tgt et cond).2.nodes = net.nodes ∧
    (create_edge net src tgt et cond).2.nc = net.nc ∧
    counter_ok (create_edge net src tgt et cond).2 := by
  have hfresh : mkEdgeId (net.ec + 1) ∉ dkeys net.edges := by
    rw [hc.2]
    exact mkEdgeId_fresh net.ec
  have hnone : alookup net.edges (mkEdgeId (net.ec + 1)) = none :=
    alookup_eq_none_of_not_mem_keys _ _ hfresh
  have happ : (create_edge net src tgt et cond).2.edges =
      net.edges ++ [(mkEdgeId (net.ec + 1), (create_edge net src tgt et cond).1)] := by
    show dset net.edges (mkEdgeId (net.ec + 1)) _ = _
    exact dset_fresh_append _ _ _ hnone
  refine ⟨rfl, hfresh, happ, rfl, rfl, rfl, hc.1, ?_⟩
  show dkeys ((create_edge net src tgt et cond).2.edges) =
    (List.range (net.ec + 1)).map (fun k => mkEdgeId (k + 1))
  rw [happ, dkeys_append, hc.2, List.range_succ, List.map_append]
  rfl

theorem counter_ok_nodup (net : WorldNetwork) (hc : counter_ok net) :
    (dkeys net.nodes).Nodup ∧ (dkeys net.edges).Nodup := by
  constructor
  · rw [hc.1]
    exact (List.nodup_range _).map
      (fun a b h => by have := mkNodeId_injective h; omega)
  · rw [hc.2]
    exact (List.nodup_range _).map
      (fun a b h => by have := mkEdgeId_injective h; omega)

theorem foldl_preserves_fst {β δ : Type} (P : WorldNetwork → Prop)
    (f : WorldNetwork × δ → β → WorldNetwork × δ) (l : List β) (acc : WorldNetwork × δ)
    (hstep : ∀ a x, P a.1 → P (f a x).1) (h : P acc.1) : P (l.foldl f acc).1 := by
  induction l generalizing acc with
  | nil => exact h
  | cons x t ih => exact ih (f acc x) (hstep acc x h)

theorem counter_ok_create_node (net : WorldNetwork) (nt : NodeType) (c : String)
    (s : Option String) (sn : Option Nat) (p : Option String) (hc : counter_ok net) :
    counter_ok (create_node net nt c s sn p).2 :=
  (create_node_spec net nt c s sn p hc).2.2.2.2.2.2

theorem counter_ok_create_edge (net : WorldNetwork) (src tgt : String) (et : EdgeType)
    (cond : Option String) (hc : counter_ok net) :
    counter_ok (create_edge net src tgt et cond).2 :=
  (create_edge_spec net src tgt et cond hc).2.2.2.2.2.2

theorem counter_ok_add_ref (env : ReEnv) (net : WorldNetwork) (pc src ctx : String)
    (hc : counter_ok net) : counter_ok (add_ref env net pc src ctx) := by
  unfold add_ref
  dsimp only
  by_cases hm : dmem net.procedure_refs pc = true
  · simp only [if_pos hm]
    exact counter_ok_create_edge _ _ _ _ _ (counter_ok_create_node _ _ _ _ _ _ hc)
  · simp only [if_neg hm]
    exact counter_ok_create_edge _ _ _ _ _ (counter_ok_create_node _ _ _ _ _ _ hc)

theorem counter_ok_proc_branch (env : ReEnv) (net : WorldNetwork) (b : ParsedBranch)
    (pid sec : String) (hc : counter_ok net) : counter_ok (proc_branch env net b pid sec) := by
  unfold proc_branch
  refine foldl_preserves counter_ok _ _ _ ?_ ?_
  · intro n x hn
    exact counter_ok_add_ref env n x _ _ hn
  · exact counter_ok_create_edge _ _ _ _ _ (counter_ok_create_node _ _ _ _ _ _ hc)

theorem counter_ok_proc_step (env : ReEnv) (net : WorldNetwork) (st : ParsedStep)
    (prev sec : String) (hc : counter_ok net) :
    counter_ok (proc_step env net st prev sec).2 := by
  unfold proc_step
  by_cases hd : st.is_decision = true
  · rw [if_pos hd]
    refine foldl_preserves counter_ok _ _ _ ?_ ?_
    · intro n x hn
      exact counter_ok_add_ref env n x _ _ hn
    · refine foldl_preserves counter_ok _ _ _ ?_ ?_
      · intro n x hn
        exact counter_ok_proc_branch env n x _ _ hn
      · exact counter_ok_create_edge _ _ _ _ _ (counter_ok_create_node _ _ _ _ _ _ hc)
  · rw [if_neg hd]
    refine foldl_preserves counter_ok _ _ _ ?_ ?_
    · intro n x hn
      exact counter_ok_add_ref env n x _ _ hn
    · exact counter_ok_create_edge _ _ _ _ _ (counter_ok_create_node _ _ _ _ _ _ hc)

theorem counter_ok_proc_section (env : ReEnv) (net : WorldNetwork) (sec : ParsedSection)
    (pid : String) (hc : counter_ok net) : counter_ok (proc_section env net sec pid) := by
  unfold proc_section
  refine foldl_preserves_snd counter_ok _ _ _ ?_ ?_
  · intro a x ha
    exact counter_ok_proc_step env a.2 x a.1 sec.name ha
  · exact counter_ok_create_edge _ _ _ _ _ (counter_ok_create_node _ _ _ _ _ _ hc)

theorem counter_ok_build (env : ReEnv) (pd : ParsedDoc) (di dn : String) :
    counter_ok (build env pd di dn) := by
  unfold build extract_entities
  dsimp only
  refine foldl_preserves counter_ok _ _ _ ?_ ?_
  · intro n x hn
    by_cases hm : dmem n.entities ("ent_" ++ env.md5hex8 x) = true
    · rw [if_pos hm]
      exact hn
    · rw [if_neg hm]
      exact hn
  · refine foldl_preserves counter_ok _ _ _ ?_ ?_
    · intro n x hn
      by_cases hm : dmem n.procedure_refs x.code = true
      · rw [if_pos hm]
        exact hn
      · rw [if_neg hm]
        exact hn
    · refine foldl_preserves counter_ok _ _ _ ?_ ?_
      · intro n x hn
        exact counter_ok_proc_section env n x _ hn
      · rcases hv : pd.versions with _ | ⟨v0, vrest⟩
        · dsimp only [WorldNetwork.init]
          exact counter_ok_create_node _ _ _ _ _ _ ⟨rfl, rfl⟩
        · dsimp only [WorldNetwork.init]
          exact counter_ok_create_node _ _ _ _ _ _ ⟨rfl, rfl⟩

theorem counter_ok_deep_link_step (lrid pc : String) (n : WorldNetwork) (x : NetworkNode)
    (hc : counter_ok n) : counter_ok (deep_link_step lrid pc n x) := by
  unfold deep_link_step
  by_cases hx : x.node_type = NodeType.reference ∧ x.procedure_code = some pc
  · rw [if_pos hx]
    exact counter_ok_create_edge _ _ _ _ _ hc
  · rw [if_neg hx]
    exact hc

theorem counter_ok_copy_node_step (pc lrid : String) (a : WorldNetwork × List (String × String))
    (x : String × NetworkNode) (hc : counter_ok a.1) : counter_ok (copy_node_step pc lrid a x).1 := by
  unfold copy_node_step
  by_cases hx : x.2.node_type = NodeType.root
  · rw [if_pos hx]
    exact hc
  · rw [if_neg hx]
    exact counter_ok_create_node _ _ _ _ _ _ hc

theorem counter_ok_copy_edge_step (idmap : List (String × String)) (n : WorldNetwork)
    (x : NetworkEdge) (hc : counter_ok n) : counter_ok (copy_edge_step idmap n x) := by
  unfold copy_edge_step
  cases alookup idmap x.source_id with
  | none => exact hc
  | some s =>
    cases alookup idmap x.target_id with
    | none => exact hc
    | some t2 => exact counter_ok_create_edge _ _ _ _ _ hc

theorem counter_ok_claim_root_step (idmap : List (String × String)) (pc : String)
    (n : WorldNetwork) (x : String × String) (hc : counter_ok n) :
    counter_ok (claim_root_step idmap pc n x) := by
  unfold claim_root_step
  cases alookup idmap x.2 with
  | none => exact hc
  | some nr => exact hc

theorem counter_ok_merge_into (main sub : WorldNetwork) (pc : String)
    (hc : counter_ok main) : counter_ok (merge_into main sub pc) := by
  show counter_ok (merge_claim_roots _ _ _ (merge_copy_edges _ _ _))
  refine foldl_preserves counter_ok _ _ _
    (fun n x hn => counter_ok_claim_root_step _ pc n x hn) ?_
  refine foldl_preserves counter_ok _ _ _
    (fun n x hn => counter_ok_copy_edge_step _ n x hn) ?_
  refine foldl_preserves_fst counter_ok _ _ _
    (fun a x ha => counter_ok_copy_node_step pc _ a x ha) ?_
  refine foldl_preserves counter_ok _ _ _
    (fun n x hn => counter_ok_deep_link_step _ pc n x hn) ?_
  exact counter_ok_create_node _ _ _ _ _ _ hc

/-- The graph has only grown (by fresh keys) since `main`: the counter
invariant still holds and every old node/edge entry is still present
under its key. -/
def GrowsFrom (main m : WorldNetwork) : Prop :=
  counter_ok m ∧
  (∀ k v, alookup main.nodes k = some v → alookup m.nodes k = some v) ∧
  (∀ k v, alookup main.edges k = some v → alookup m.edges k = some v)

theorem growsFrom_create_node (main m : WorldNetwork) (nt : NodeType) (c : String)
    (s : Option String) (sn : Option Nat) (p : Option String)
    (h : GrowsFrom main m) : GrowsFrom main (create_node m nt c s sn p).2 := by
  obtain ⟨hc, hn, he⟩ := h
  have spec := create_node_spec m nt c s sn p hc
  refine ⟨spec.2.2.2.2.2.2, ?_, ?_⟩
  · intro k v hk
    rw [spec.2.2.1]
    exact alookup_append_left _ _ _ _ (hn k v hk)
  · intro k v hk
    rw [spec.2.2.2.2.1]
    exact he k v hk

theorem growsFrom_create_edge (main m : WorldNetwork) (src tgt : String) (et : EdgeType)
    (cond : Option String) (h : GrowsFrom main m) :
    GrowsFrom main (create_edge m src tgt et cond).2 := by
  obtain ⟨hc, hn, he⟩ := h
  have spec := create_edge_spec m src tgt et cond hc
  refine ⟨spec.2.2.2.2.2.2, ?_, ?_⟩
  · intro k v hk
    rw [spec.2.2.2.2.1]
    exact hn k v hk
  · intro k v hk
    rw [spec.2.2.1]
    exact alookup_append_left _ _ _ _ (he k v hk)

theorem growsFrom_claim_root_step (main : WorldNetwork) (idmap : List (String × String))
    (pc : String) (n : WorldNetwork) (x : String × String) (h : GrowsFrom main n) :
    GrowsFrom main (claim_root_step idmap pc n x) := by
  unfold claim_root_step
  cases alookup idmap x.2 with
  | none => exact h
  | some nr => exact h

theorem growsFrom_copy_edge_step (main : WorldNetwork) (idmap : List (String × String))
    (n : WorldNetwork) (x : NetworkEdge) (h : GrowsFrom main n) :
    GrowsFrom main (copy_edge_step idmap n x) := by
  unfold copy_edge_step
  cases alookup idmap x.source_id with
  | none => exact h
  | some s =>
    cases alookup idmap x.target_id with
    | none => exact h
    | some t2 => exact growsFrom_create_edge main n s t2 x.edge_type x.condition h

theorem growsFrom_copy_node_step (main : WorldNetwork) (pc lrid : String)
    (a : WorldNetwork × List (String × String)) (x : String × NetworkNode)
    (h : GrowsFrom main a.1) : GrowsFrom main (copy_node_step pc lrid a x).1 := by
  unfold copy_node_step
  by_cases hx : x.2.node_type = NodeType.root
  · rw [if_pos hx]
    exact h
  · rw [if_neg hx]
    exact growsFrom_create_node main a.1 _ _ _ _ _ h

theorem growsFrom_deep_link_step (main : WorldNetwork) (lrid pc : String)
    (n : WorldNetwork) (x : NetworkNode) (h : GrowsFrom main n) :
    GrowsFrom main (deep_link_step lrid pc n x) := by
  unfold deep_link_step
  by_cases hx : x.node_type = NodeType.reference ∧ x.procedure_code = some pc
  · rw [if_pos hx]
    exact growsFrom_create_edge main n _ _ _ _ h
  · rw [if_neg hx]
    exact h

theorem growsFrom_merge_into (main sub : WorldNetwork) (pc : String)
    (hc : counter_ok main) : GrowsFrom main (merge_into main sub pc) := by
  show GrowsFrom main (merge_claim_roots _ _ _ (merge_copy_edges _ _ _))
  refine foldl_preserves (GrowsFrom main) _ _ _
    (fun n x hn => growsFrom_claim_root_step main _ pc n x hn) ?_
  refine foldl_preserves (GrowsFrom main) _ _ _
    (fun n x hn => growsFrom_copy_edge_step main _ n x hn) ?_
  refine foldl_preserves_fst (GrowsFrom main) _ _ _
    (fun a x ha => growsFrom_copy_node_step main pc _ a x ha) ?_
  refine foldl_preserves (GrowsFrom main) _ _ _
    (fun n x hn => growsFrom_deep_link_step main _ pc n x hn) ?_
  exact growsFrom_create_node main main _ _ _ _ _ ⟨hc, fun _ _ h => h, fun _ _ h => h⟩

/-- C9: Every call to the graph's node or edge constructor allocates a
fresh identifier by incrementing the graph's private counter, so for
every sequence of build and merge operations no existing node or edge
entry is ever overwritten: the node and edge maps only grow, and all
identifiers within one graph instance are pairwise distinct. -/
theorem C9_fresh_ids (net : WorldNetwork) (hc : counter_ok net) :
    (∀ nt c s sn p,
      (create_node net nt c s sn p).1.id = mkNodeId (net.nc + 1) ∧
      (create_node net nt c s sn p).2.nc = net.nc + 1 ∧
      (create_node net nt c s sn p).1.id ∉ dkeys net.nodes ∧
      (create_node net nt c s sn p).2.nodes =
        net.nodes ++ [(mkNodeId (net.nc + 1), (create_node net nt c s sn p).1)] ∧
      counter_ok (create_node net nt c s sn p).2) ∧
    (∀ src tgt et cond,
      (create_edge net src tgt et cond).1.id = mkEdgeId (net.ec + 1) ∧
      (create_edge net src tgt et cond).2.ec = net.ec + 1 ∧
      (create_edge net src tgt et cond).1.id ∉ dkeys net.edges ∧
      (create_edge net src tgt et cond).2.edges =
        net.edges ++ [(mkEdgeId (net.ec + 1), (create_edge net src tgt et cond).1)] ∧
      counter_ok (create_edge net src tgt et cond).2) ∧
    (dkeys net.nodes).Nodup ∧ (dkeys net.edges).Nodup ∧
    (∀ env pd di dn, counter_ok (build env pd di dn)) ∧
    (∀ sub pc, counter_ok (merge_into net sub pc) ∧
      (∀ k v, alookup net.nodes k = some v →
        alookup (merge_into net sub pc).nodes k = some v) ∧
      (∀ k v, alookup net.edges k = some v →
        alookup (merge_into net sub pc).edges k = some v)) := by
  refine ⟨?_, ?_, (counter_ok_nodup net hc).1, (counter_ok_nodup net hc).2, ?_, ?_⟩
  · intro nt c s sn p
    have spec := create_node_spec net nt c s sn p hc
    exact ⟨spec.1, spec.2.2.2.1, spec.2.1, spec.2.2.1, spec.2.2.2.2.2.2⟩
  · intro src tgt et cond
    have spec := create_edge_spec net src tgt et cond hc
    exact ⟨spec.1, spec.2.2.2.1, spec.2.1, spec.2.2.1, spec.2.2.2.2.2.2⟩
  · intro env pd di dn
    exact counter_ok_build env pd di dn
  · intro sub pc
    have h := growsFrom_merge_into net sub pc hc
    exact ⟨h.1, h.2.1, h.2.2⟩

theorem C9_fresh_ids_witness :
    (create_node (WorldNetwork.init "P001" "Main") NodeType.root "Main" none none none).1.id =
      mkNodeId 1 ∧
    (dkeys (WorldNetwork.init "P001" "Main").nodes).Nodup := by
  have h := C9_fresh_ids (WorldNetwork.init "P001" "Main") ⟨rfl, rfl⟩
  exact ⟨(h.1 NodeType.root "Main" none none none).1, h.2.2.1⟩

/-! ## C8: determinism of parse + build -/

/-- Graph isomorphism by (node-kind, content, edge-kind, condition)
under a renumbering `fn` of node ids and `fe` of edge ids. -/
def GraphIsoBy (g1 g2 : WorldNetwork) (fn fe : String → String) : Prop :=
  (∀ i n, alookup g1.nodes i = some n → ∃ n', alookup g2.nodes (fn i) = some n' ∧
     n'.node_type = n.node_type ∧ n'.content = n.content) ∧
  (∀ i n', alookup g2.nodes i = some n' → ∃ i0 n, alookup g1.nodes i0 = some n ∧ fn i0 = i) ∧
  (∀ i e, alookup g1.edges i = some e → ∃ e', alookup g2.edges (fe i) = some e' ∧
     e'.edge_type = e.edge_type ∧ e'.condition = e.condition ∧
     e'.source_id = fn e.source_id ∧ e'.target_id = fn e.target_id) ∧
  (∀ i e', alookup g2.edges i = some e' → ∃ i0 e, alookup g1.edges i0 = some e ∧ fe i0 = i)

theorem graphIsoBy_refl (g : WorldNetwork) : GraphIsoBy g g id id :=
  ⟨fun i n h => ⟨n, h, rfl, rfl⟩,
   fun i n' h => ⟨i, n', h, rfl⟩,
   fun i e h => ⟨e, h, rfl, rfl, rfl, rfl⟩,
   fun i e' h => ⟨i, e', h, rfl⟩⟩

/-- C8: Parsing and building the same raw document text twice (two
independent runs over the same input) yields graphs isomorphic by
(node-kind, content, edge-kind, condition) under a canonical
renumbering of node and edge identifiers — here the two runs coincide
outright, so the identity renumbering is an isomorphism.  Node and edge
identifiers are assigned by a monotonically increasing counter scoped to
the graph instance (the `_nc`/`_ec` fields of the `WorldNetwork` value,
not process-global state), which is why no cross-run state can make the
runs diverge. -/
theorem C8_parse_build_deterministic (env : ReEnv) (t di dn : String) :
    build env (SOPParser.parse env t) di dn = build env (SOPParser.parse env t) di dn ∧
    GraphIsoBy (build env (SOPParser.parse env t) di dn)
      (build env (SOPParser.parse env t) di dn) id id ∧
    (∀ (net : WorldNetwork) nt c s sn p,
      (create_node net nt c s sn p).1.id = mkNodeId (net.nc + 1) ∧
      (create_node net nt c s sn p).2.nc = net.nc + 1) ∧
    (∀ (net : WorldNetwork) src tgt et cond,
      (create_edge net src tgt et cond).1.id = mkEdgeId (net.ec + 1) ∧
      (create_edge net src tgt et cond).2.ec = net.ec + 1) :=
  ⟨rfl, graphIsoBy_refl _, fun _ _ _ _ _ _ => ⟨rfl, rfl⟩, fun _ _ _ _ _ => ⟨rfl, rfl⟩⟩

/-! ## Per-stage specifications of the merge (C4, C5) -/

theorem exists_alookup_of_mem_keys {α : Type} (l : List (String × α)) (k : String)
    (h : k ∈ dkeys l) : ∃ v, alookup l k = some v := by
  induction l with
  | nil => simp [dkeys] at h
  | cons hd t ih =>
    obtain ⟨k0, v0⟩ := hd
    by_cases hk : k0 = k
    · exact ⟨v0, by rw [alookup, if_pos hk]⟩
    · rw [dkeys, List.map_cons, List.mem_cons] at h
      rcases h with h1 | h2
      · exact absurd h1.symm hk
      · obtain ⟨v, hv⟩ := ih h2
        exact ⟨v, by rw [alookup, if_neg hk]; exact hv⟩

theorem alookup_append_self {α : Type} (l : List (String × α)) (k : String) (v : α)
    (h : alookup l k = none) : alookup (l ++ [(k, v)]) k = some v := by
  rw [← dset_fresh_append l k v h]
  exact alookup_dset_self l k v

theorem mem_keys_of_lookup_preserved {α : Type} (l l' : List (String × α)) (k : String)
    (hpres : ∀ k0 v, alookup l k0 = some v → alookup l' k0 = some v)
    (h : k ∈ dkeys l) : k ∈ dkeys l' := by
  obtain ⟨v, hv⟩ := exists_alookup_of_mem_keys l k h
  exact mem_keys_of_alookup l' k v (hpres k v hv)

/-- What the node-copy loop guarantees for one sub-graph node entry:
a root node maps to the linked root, any other node maps to an id that
is fresh with respect to `m0` and holds the copied node. -/
def copied_node_ok (m0 : WorldNetwork) (res : WorldNetwork × List (String × String))
    (pc lrid : String) (op : String × NetworkNode) : Prop :=
  (op.2.node_type = NodeType.root → alookup res.2 op.1 = some lrid) ∧
  (op.2.node_type ≠ NodeType.root → ∃ nid nn, alookup res.2 op.1 = some nid ∧
    nid ∉ dkeys m0.nodes ∧ alookup res.1.nodes nid = some nn ∧
    nn.node_type = op.2.node_type ∧ nn.content = op.2.content ∧
    nn.sectionLabel = merged_section_label pc op.2.sectionLabel ∧
    nn.step_number = op.2.step_number ∧ nn.procedure_code = some pc)

theorem copy_nodes_fold_spec (pc lrid : String) (nl : List (String × NetworkNode)) :
    ∀ acc : WorldNetwork × List (String × String), counter_ok acc.1 →
    (∀ p ∈ nl, alookup acc.2 p.1 = none) → (nl.map (·.1)).Nodup →
    counter_ok (nl.foldl (copy_node_step pc lrid) acc).1 ∧
    (∀ k v, alookup acc.1.nodes k = some v →
      alookup (nl.foldl (copy_node_step pc lrid) acc).1.nodes k = some v) ∧
    (∀ oid v, alookup acc.2 oid = some v →
      alookup (nl.foldl (copy_node_step pc lrid) acc).2 oid = some v) ∧
    (nl.foldl (copy_node_step pc lrid) acc).1.edges = acc.1.edges ∧
    (∀ op ∈ nl, copied_node_ok acc.1 (nl.foldl (copy_node_step pc lrid) acc) pc lrid op) := by
  induction nl with
  | nil =>
    intro acc hc _ _
    exact ⟨hc, fun _ _ h => h, fun _ _ h => h, rfl, fun op hop => absurd hop (List.not_mem_nil op)⟩
  | cons op0 rest ih =>
    intro acc hc hfresh hnodup
    rw [List.foldl_cons]
    have hnodup' : (rest.map (·.1)).Nodup := (List.nodup_cons.mp hnodup).2
    have hop0rest : op0.1 ∉ rest.map (·.1) := (List.nodup_cons.mp hnodup).1
    by_cases hroot : op0.2.node_type = NodeType.root
    · -- root entry: graph unchanged, idmap gains op0.1 ↦ lrid
      have hstep : copy_node_step pc lrid acc op0 = (acc.1, dset acc.2 op0.1 lrid) := by
        unfold copy_node_step
        rw [if_pos hroot]
      rw [hstep]
      have hfresh' : ∀ p ∈ rest, alookup (dset acc.2 op0.1 lrid) p.1 = none := by
        intro p hp
        have hne : op0.1 ≠ p.1 := by
          intro he
          exact hop0rest (he ▸ List.mem_map.mpr ⟨p, hp, rfl⟩)
        rw [alookup_dset_ne _ _ _ _ hne]
        exact hfresh p (List.mem_cons_of_mem _ hp)
      have hres := ih (acc.1, dset acc.2 op0.1 lrid) hc hfresh' hnodup'
      refine ⟨hres.1, hres.2.1, ?_, hres.2.2.2.1, ?_⟩
      · intro oid v hv
        have hne : op0.1 ≠ oid := by
          intro he
          rw [← he] at hv
          rw [hfresh op0 (List.mem_cons_self _ _)] at hv
          exact Option.noConfusion hv
        refine hres.2.2.1 oid v ?_
        rw [alookup_dset_ne _ _ _ _ hne]
        exact hv
      · intro op hop
        rcases List.mem_cons.mp hop with heq | hmem
        · subst heq
          constructor
          · intro _
            exact hres.2.2.1 op.1 lrid (alookup_dset_self _ _ _)
          · intro hne
            exact absurd hroot hne
        · exact hres.2.2.2.2 op hmem
    · -- non-root entry: a fresh node is created and mapped
      have hstep : copy_node_step pc lrid acc op0 =
          ((create_node acc.1 op0.2.node_type op0.2.content
              (merged_section_label pc op0.2.sectionLabel) op0.2.step_number (some pc)).2,
            dset acc.2 op0.1 (mkNodeId (acc.1.nc + 1))) := by
        unfold copy_node_step
        rw [if_neg hroot]
        rfl
      rw [hstep]
      have spec := create_node_spec acc.1 op0.2.node_type op0.2.content
        (merged_section_label pc op0.2.sectionLabel) op0.2.step_number (some pc) hc
      have hfresh' : ∀ p ∈ rest,
          alookup (dset acc.2 op0.1 (mkNodeId (acc.1.nc + 1))) p.1 = none := by
        intro p hp
        have hne : op0.1 ≠ p.1 := by
          intro he
          exact hop0rest (he ▸ List.mem_map.mpr ⟨p, hp, rfl⟩)
        rw [alookup_dset_ne _ _ _ _ hne]
        exact hfresh p (List.mem_cons_of_mem _ hp)
      have hres := ih ((create_node acc.1 op0.2.node_type op0.2.content
          (merged_section_label pc op0.2.sectionLabel) op0.2.step_number (some pc)).2,
        dset acc.2 op0.1 (mkNodeId (acc.1.nc + 1))) spec.2.2.2.2.2.2 hfresh' hnodup'
      have hkeygrow : ∀ k, k ∈ dkeys acc.1.nodes →
          k ∈ dkeys (create_node acc.1 op0.2.node_type op0.2.content
            (merged_section_label pc op0.2.sectionLabel) op0.2.step_number (some pc)).2.nodes := by
        intro k hk
        rw [spec.2.2.1, dkeys_append]
        exact List.mem_append_left _ hk
      refine ⟨hres.1, ?_, ?_, ?_, ?_⟩
      · intro k v hv
        refine hres.2.1 k v ?_
        rw [spec.2.2.1]
        exact alookup_append_left _ _ _ _ hv
      · intro oid v hv
        have hne : op0.1 ≠ oid := by
          intro he
          rw [← he] at hv
          rw [hfresh op0 (List.mem_cons_self _ _)] at hv
          exact Option.noConfusion hv
        refine hres.2.2.1 oid v ?_
        rw [alookup_dset_ne _ _ _ _ hne]
        exact hv
      · rw [hres.2.2.2.1, spec.2.2.2.2.1]
      · intro op hop
        rcases List.mem_cons.mp hop with heq | hmem
        · subst heq
          constructor
          · intro hr
            exact absurd hr hroot
          · intro _
            refine ⟨mkNodeId (acc.1.nc + 1),
              (create_node acc.1 op.2.node_type op.2.content
                (merged_section_label pc op.2.sectionLabel) op.2.step_number (some pc)).1,
              hres.2.2.1 _ _ (alookup_dset_self _ _ _), spec.2.1, ?_, rfl, rfl, rfl, rfl, rfl⟩
            refine hres.2.1 _ _ ?_
            rw [spec.2.2.1]
            refine alookup_append_self _ _ _ ?_
            exact alookup_eq_none_of_not_mem_keys _ _ spec.2.1
        · have hok := hres.2.2.2.2 op hmem
          constructor
          · exact hok.1
          · intro hne
            obtain ⟨nid, nn, h1, h2, h3, h4⟩ := hok.2 hne
            refine ⟨nid, nn, h1, ?_, h3, h4⟩
            intro hmemk
            exact h2 (hkeygrow nid hmemk)

theorem copy_edges_fold_spec (idmap : List (String × String)) (el : List NetworkEdge) :
    ∀ m : WorldNetwork, counter_ok m →
    counter_ok (el.foldl (copy_edge_step idmap) m) ∧
    (el.foldl (copy_edge_step idmap) m).nodes = m.nodes ∧
    (∀ k v, alookup m.edges k = some v →
      alookup (el.foldl (copy_edge_step idmap) m).edges k = some v) ∧
    (∀ e ∈ el, ∀ s t2, alookup idmap e.source_id = some s →
      alookup idmap e.target_id = some t2 →
      ∃ i e', alookup (el.foldl (copy_edge_step idmap) m).edges i = some e' ∧
        e'.source_id = s ∧ e'.target_id = t2 ∧ e'.edge_type = e.edge_type ∧
        e'.condition = e.condition) := by
  induction el with
  | nil =>
    intro m hc
    exact ⟨hc, rfl, fun _ _ h => h, fun e he => absurd he (List.not_mem_nil e)⟩
  | cons e0 rest ih =>
    intro m hc
    rw [List.foldl_cons]
    by_cases hmapped : (∃ s, alookup idmap e0.source_id = some s) ∧
        ∃ t2, alookup idmap e0.target_id = some t2
    · obtain ⟨⟨s0, hs0⟩, ⟨t0, ht0⟩⟩ := hmapped
      have hstep : copy_edge_step idmap m e0 =
          (create_edge m s0 t0 e0.edge_type e0.condition).2 := by
        unfold copy_edge_step
        rw [hs0, ht0]
      rw [hstep]
      have spec := create_edge_spec m s0 t0 e0.edge_type e0.condition hc
      have hres := ih _ spec.2.2.2.2.2.2
      refine ⟨hres.1, by rw [hres.2.1, spec.2.2.2.2.1], ?_, ?_⟩
      · intro k v hv
        refine hres.2.2.1 k v ?_
        rw [spec.2.2.1]
        exact alookup_append_left _ _ _ _ hv
      · intro e he s t2 hs ht
        rcases List.mem_cons.mp he with heq | hmem
        · subst heq
          rw [hs0, Option.some.injEq] at hs
          rw [ht0, Option.some.injEq] at ht
          subst hs
          subst ht
          refine ⟨mkEdgeId (m.ec + 1), (create_edge m s0 t0 e.edge_type e.condition).1,
            ?_, rfl, rfl, rfl, rfl⟩
          refine hres.2.2.1 _ _ ?_
          rw [spec.2.2.1]
          refine alookup_append_self _ _ _ ?_
          exact alookup_eq_none_of_not_mem_keys _ _ spec.2.1
        · exact hres.2.2.2 e hmem s t2 hs ht
    · have hstep : copy_edge_step idmap m e0 = m := by
        unfold copy_edge_step
        push_neg at hmapped
        cases hcase : alookup idmap e0.source_id with
        | none => rfl
        | some s =>
          cases hcase2 : alookup idmap e0.target_id with
          | none => rfl
          | some t2 => exact absurd hcase2 (hmapped ⟨s, hcase⟩ t2)
      rw [hstep]
      have hres := ih m hc
      refine ⟨hres.1, hres.2.1, hres.2.2.1, ?_⟩
      intro e he s t2 hs ht
      rcases List.mem_cons.mp he with heq | hmem
      · subst heq
        push_neg at hmapped
        cases hcase : alookup idmap e.source_id with
        | none => rw [hcase] at hs; exact Option.noConfusion hs
        | some s1 => exact absurd ht (hmapped ⟨s1, hcase⟩ t2)
      · exact hres.2.2.2 e hmem s t2 hs ht

theorem deep_link_fold_spec (lrid pc : String) (nlv : List NetworkNode) :
    ∀ m : WorldNetwork, counter_ok m →
    counter_ok (nlv.foldl (deep_link_step lrid pc) m) ∧
    (nlv.foldl (deep_link_step lrid pc) m).nodes = m.nodes ∧
    (∀ k v, alookup m.edges k = some v →
      alookup (nlv.foldl (deep_link_step lrid pc) m).edges k = some v) ∧
    (∀ n ∈ nlv, n.node_type = NodeType.reference → n.procedure_code = some pc →
      ∃ i e', alookup (nlv.foldl (deep_link_step lrid pc) m).edges i = some e' ∧
        e'.source_id = n.id ∧ e'.target_id = lrid ∧
        e'.edge_type = EdgeType.deep_link) := by
  induction nlv with
  | nil =>
    intro m hc
    exact ⟨hc, rfl, fun _ _ h => h, fun n hn => absurd hn (List.not_mem_nil n)⟩
  | cons n0 rest ih =>
    intro m hc
    rw [List.foldl_cons]
    by_cases hx : n0.node_type = NodeType.reference ∧ n0.procedure_code = some pc
    · have hstep : deep_link_step lrid pc m n0 =
          (create_edge m n0.id lrid EdgeType.deep_link none).2 := by
        unfold deep_link_step
        rw [if_pos hx]
      rw [hstep]
      have spec := create_edge_spec m n0.id lrid EdgeType.deep_link none hc
      have hres := ih _ spec.2.2.2.2.2.2
      refine ⟨hres.1, by rw [hres.2.1, spec.2.2.2.2.1], ?_, ?_⟩
      · intro k v hv
        refine hres.2.2.1 k v ?_
        rw [spec.2.2.1]
        exact alookup_append_left _ _ _ _ hv
      · intro n hn hnt hnc
        rcases List.mem_cons.mp hn with heq | hmem
        · subst heq
          refine ⟨mkEdgeId (m.ec + 1), (create_edge m n.id lrid EdgeType.deep_link none).1,
            ?_, rfl, rfl, rfl⟩
          refine hres.2.2.1 _ _ ?_
          rw [spec.2.2.1]
          refine alookup_append_self _ _ _ ?_
          exact alookup_eq_none_of_not_mem_keys _ _ spec.2.1
        · exact hres.2.2.2 n hmem hnt hnc
    · have hstep : deep_link_step lrid pc m n0 = m := by
        unfold deep_link_step
        rw [if_neg hx]
      rw [hstep]
      have hres := ih m hc
      refine ⟨hres.1, hres.2.1, hres.2.2.1, ?_⟩
      intro n hn hnt hnc
      rcases List.mem_cons.mp hn with heq | hmem
      · subst heq
        exact absurd ⟨hnt, hnc⟩ hx
      · exact hres.2.2.2 n hmem hnt hnc

theorem string_append_left_cancel (p a b : String) (h : p ++ a = p ++ b) : a = b := by
  have hd := congrArg String.data h
  simp only [string_append_data] at hd
  have h2 := List.append_cancel_left hd
  exact congrArg String.mk h2

theorem claim_root_step_lookup_ne (idmap : List (String × String)) (pc : String)
    (m : WorldNetwork) (x : String × String) (k : String) (h : pc ++ "/" ++ x.1 ≠ k) :
    alookup (claim_root_step idmap pc m x).claim_type_roots k =
      alookup m.claim_type_roots k := by
  unfold claim_root_step
  cases alookup idmap x.2 with
  | none => rfl
  | some nr =>
    dsimp only
    exact alookup_dset_ne _ _ _ _ h

theorem claim_roots_fold_lookup_ne (idmap : List (String × String)) (pc : String)
    (l : List (String × String)) :
    ∀ (m : WorldNetwork) (k : String), (∀ cp ∈ l, pc ++ "/" ++ cp.1 ≠ k) →
      alookup (l.foldl (claim_root_step idmap pc) m).claim_type_roots k =
        alookup m.claim_type_roots k := by
  induction l with
  | nil => intro m k _; rfl
  | cons x t ih =>
    intro m k hk
    rw [List.foldl_cons]
    rw [ih _ k (fun cp hcp => hk cp (List.mem_cons_of_mem _ hcp))]
    exact claim_root_step_lookup_ne idmap pc m x k (hk x (List.mem_cons_self _ _))

theorem claim_roots_fold_registered (idmap : List (String × String)) (pc : String)
    (l : List (String × String)) :
    ∀ (m : WorldNetwork), (l.map (·.1)).Nodup →
      ∀ cp ∈ l, ∀ nid, alookup idmap cp.2 = some nid →
        alookup (l.foldl (claim_root_step idmap pc) m).claim_type_roots
          (pc ++ "/" ++ cp.1) = some nid := by
  induction l with
  | nil => intro m _ cp hcp; exact absurd hcp (List.not_mem_nil cp)
  | cons x t ih =>
    intro m hnodup cp hcp nid hnid
    rw [List.foldl_cons]
    rcases List.mem_cons.mp hcp with heq | hmem
    · subst heq
      have hne : ∀ q ∈ t, pc ++ "/" ++ q.1 ≠ pc ++ "/" ++ cp.1 := by
        intro q hq he
        have heq1 := string_append_left_cancel (pc ++ "/") q.1 cp.1 he
        refine (List.nodup_cons.mp hnodup).1 ?_
        exact List.mem_map.mpr ⟨q, hq, heq1⟩
      rw [claim_roots_fold_lookup_ne idmap pc t _ _ hne]
      unfold claim_root_step
      rw [hnid]
      dsimp only
      exact alookup_dset_self _ _ _
    · exact ih _ (List.nodup_cons.mp hnodup).2 cp hmem nid hnid

theorem nodes_claim_root_step (idmap : List (String × String)) (pc : String)
    (n : WorldNetwork) (x : String × String) :
    (claim_root_step idmap pc n x).nodes = n.nodes := by
  unfold claim_root_step
  cases alookup idmap x.2 with
  | none => rfl
  | some nr => rfl

theorem edges_claim_root_step (idmap : List (String × String)) (pc : String)
    (n : WorldNetwork) (x : String × String) :
    (claim_root_step idmap pc n x).edges = n.edges := by
  unfold claim_root_step
  cases alookup idmap x.2 with
  | none => rfl
  | some nr => rfl

theorem nodes_merge_claim_roots (sub : WorldNetwork) (idmap : List (String × String))
    (pc : String) (m : WorldNetwork) :
    (merge_claim_roots sub idmap pc m).nodes = m.nodes :=
  foldl_proj_eq (fun n => n.nodes) _ _ _ (nodes_claim_root_step idmap pc)

theorem edges_merge_claim_roots (sub : WorldNetwork) (idmap : List (String × String))
    (pc : String) (m : WorldNetwork) :
    (merge_claim_roots sub idmap pc m).edges = m.edges :=
  foldl_proj_eq (fun n => n.edges) _ _ _ (edges_claim_root_step idmap pc)

/-- The graph state of `_merge` after the linked root has been created
and recorded (abbreviation of the first two statements of the source
loop body, used to reason stage by stage). -/
def merge_m1 (main sub : WorldNetwork) (pc : String) : WorldNetwork :=
  let lrm := create_node main NodeType.linked_procedure
      (pc ++ ": " ++ sub.document_name) none none (some pc)
  { lrm.2 with linked_procedures := dset lrm.2.linked_procedures pc lrm.1.id }

/-- The graph state of `_merge` after the deep-link edge loop. -/
def merge_m2 (main sub : WorldNetwork) (pc : String) : WorldNetwork :=
  merge_deep_link_edges (merge_m1 main sub pc) (mkNodeId (main.nc + 1)) pc

theorem merge_nets_decomp (main sub : WorldNetwork) (pc : String) :
    merge_nets main sub pc =
      (merge_claim_roots sub
          (merge_copy_nodes sub pc (mkNodeId (main.nc + 1)) (merge_m2 main sub pc)).2 pc
          (merge_copy_edges sub
            (merge_copy_nodes sub pc (mkNodeId (main.nc + 1)) (merge_m2 main sub pc)).2
            (merge_copy_nodes sub pc (mkNodeId (main.nc + 1)) (merge_m2 main sub pc)).1),
        (merge_copy_nodes sub pc (mkNodeId (main.nc + 1)) (merge_m2 main sub pc)).2,
        mkNodeId (main.nc + 1)) := rfl

theorem counter_ok_merge_m1 (main sub : WorldNetwork) (pc : String) (hc : counter_ok main) :
    counter_ok (merge_m1 main sub pc) :=
  counter_ok_create_node main NodeType.linked_procedure
    (pc ++ ": " ++ sub.document_name) none none (some pc) hc

theorem merge_m1_nodes (main sub : WorldNetwork) (pc : String) (hc : counter_ok main) :
    (merge_m1 main sub pc).nodes = main.nodes ++
      [(mkNodeId (main.nc + 1), (create_node main NodeType.linked_procedure
        (pc ++ ": " ++ sub.document_name) none none (some pc)).1)] :=
  (create_node_spec main NodeType.linked_procedure
    (pc ++ ": " ++ sub.document_name) none none (some pc) hc).2.2.1

/-- C4: For every merge of a resolved sub-graph under reference code
`pc` into a main graph: every sub-graph root node collapses onto the
single linked-external-root (which is tagged with the code and fresh in
the main graph); every other sub-graph node is copied under a freshly
allocated identifier with its kind and content preserved and tagged with
the code; every sub-graph edge whose endpoints exist in the sub-graph is
copied with both endpoints rewritten through the id-remapping table;
every reference-pointer node of the main graph carrying the code gains a
deep-link edge to the linked-external-root; and every sub-graph category
root is registered under the namespaced key `code ++ "/" ++ name`. -/
theorem C4_merge_correct (main sub : WorldNetwork) (pc : String)
    (hc : counter_ok main)
    (hsubn : (dkeys sub.nodes).Nodup)
    (hsubr : (dkeys sub.claim_type_roots).Nodup) :
    (∀ op ∈ sub.nodes, op.2.node_type = NodeType.root →
      alookup (merge_nets main sub pc).2.1 op.1 = some (merge_nets main sub pc).2.2) ∧
    (∃ lrn, alookup (merge_nets main sub pc).1.nodes (merge_nets main sub pc).2.2 =
        some lrn ∧
      lrn.node_type = NodeType.linked_procedure ∧ lrn.procedure_code = some pc ∧
      (merge_nets main sub pc).2.2 ∉ dkeys main.nodes) ∧
    (∀ op ∈ sub.nodes, op.2.node_type ≠ NodeType.root →
      ∃ nid nn, alookup (merge_nets main sub pc).2.1 op.1 = some nid ∧
        nid ∉ dkeys main.nodes ∧
        alookup (merge_nets main sub pc).1.nodes nid = some nn ∧
        nn.node_type = op.2.node_type ∧ nn.content = op.2.content ∧
        nn.procedure_code = some pc) ∧
    (∀ e ∈ dvals sub.edges, e.source_id ∈ dkeys sub.nodes →
      e.target_id ∈ dkeys sub.nodes →
      ∃ s t2 i e', alookup (merge_nets main sub pc).2.1 e.source_id = some s ∧
        alookup (merge_nets main sub pc).2.1 e.target_id = some t2 ∧
        alookup (merge_nets main sub pc).1.edges i = some e' ∧
        e'.source_id = s ∧ e'.target_id = t2 ∧ e'.edge_type = e.edge_type ∧
        e'.condition = e.condition) ∧
    (∀ n ∈ dvals main.nodes, n.node_type = NodeType.reference →
      n.procedure_code = some pc →
      ∃ i e', alookup (merge_nets main sub pc).1.edges i = some e' ∧
        e'.source_id = n.id ∧ e'.target_id = (merge_nets main sub pc).2.2 ∧
        e'.edge_type = EdgeType.deep_link) ∧
    (∀ cp ∈ sub.claim_type_roots, cp.2 ∈ dkeys sub.nodes →
      ∃ nid, alookup (merge_nets main sub pc).2.1 cp.2 = some nid ∧
        alookup (merge_nets main sub pc).1.claim_type_roots (pc ++ "/" ++ cp.1) =
          some nid) := by
  rw [merge_nets_decomp]
  have hlrfresh : mkNodeId (main.nc + 1) ∉ dkeys main.nodes :=
    (create_node_spec main NodeType.linked_procedure
      (pc ++ ": " ++ sub.document_name) none none (some pc) hc).2.1
  have hm1c : counter_ok (merge_m1 main sub pc) := counter_ok_merge_m1 main sub pc hc
  have hdl := deep_link_fold_spec (mkNodeId (main.nc + 1)) pc
    (dvals (merge_m1 main sub pc).nodes) (merge_m1 main sub pc) hm1c
  have hm2c : counter_ok (merge_m2 main sub pc) := hdl.1
  have hm2nodes : (merge_m2 main sub pc).nodes = (merge_m1 main sub pc).nodes := hdl.2.1
  have hcn := copy_nodes_fold_spec pc (mkNodeId (main.nc + 1)) sub.nodes
    (merge_m2 main sub pc, []) hm2c (fun p _ => rfl) hsubn
  have hce := copy_edges_fold_spec
    (merge_copy_nodes sub pc (mkNodeId (main.nc + 1)) (merge_m2 main sub pc)).2
    (dvals sub.edges)
    (merge_copy_nodes sub pc (mkNodeId (main.nc + 1)) (merge_m2 main sub pc)).1 hcn.1
  have hcnEdges : (merge_copy_nodes sub pc (mkNodeId (main.nc + 1))
      (merge_m2 main sub pc)).1.edges = (merge_m2 main sub pc).edges := hcn.2.2.2.1
  have hceNodes : (merge_copy_edges sub
      (merge_copy_nodes sub pc (mkNodeId (main.nc + 1)) (merge_m2 main sub pc)).2
      (merge_copy_nodes sub pc (mkNodeId (main.nc + 1)) (merge_m2 main sub pc)).1).nodes =
      (merge_copy_nodes sub pc (mkNodeId (main.nc + 1)) (merge_m2 main sub pc)).1.nodes :=
    hce.2.1
  have hmainkeys : ∀ k, k ∈ dkeys main.nodes → k ∈ dkeys (merge_m2 main sub pc).nodes := by
    intro k hk
    rw [hm2nodes, merge_m1_nodes main sub pc hc, dkeys_append]
    exact List.mem_append_left _ hk
  have hmaptotal : ∀ oid, oid ∈ dkeys sub.nodes → ∃ nid,
      alookup (merge_copy_nodes sub pc (mkNodeId (main.nc + 1))
        (merge_m2 main sub pc)).2 oid = some nid := by
    intro oid hoid
    rcases List.mem_map.mp hoid with ⟨op, hop, heq⟩
    subst heq
    have hok := hcn.2.2.2.2 op hop
    by_cases hr : op.2.node_type = NodeType.root
    · exact ⟨mkNodeId (main.nc + 1), hok.1 hr⟩
    · obtain ⟨nid, nn, h1, _⟩ := hok.2 hr
      exact ⟨nid, h1⟩
  have hnodes5 : ∀ i v, alookup (merge_copy_nodes sub pc (mkNodeId (main.nc + 1))
        (merge_m2 main sub pc)).1.nodes i = some v →
      alookup (merge_claim_roots sub
        (merge_copy_nodes sub pc (mkNodeId (main.nc + 1)) (merge_m2 main sub pc)).2 pc
        (merge_copy_edges sub
          (merge_copy_nodes sub pc (mkNodeId (main.nc + 1)) (merge_m2 main sub pc)).2
          (merge_copy_nodes sub pc (mkNodeId (main.nc + 1))
            (merge_m2 main sub pc)).1)).nodes i = some v := by
    intro i v hv
    rw [nodes_merge_claim_roots, hceNodes]
    exact hv
  have hedges5 : ∀ i v, alookup (merge_copy_edges sub
        (merge_copy_nodes sub pc (mkNodeId (main.nc + 1)) (merge_m2 main sub pc)).2
        (merge_copy_nodes sub pc (mkNodeId (main.nc + 1))
          (merge_m2 main sub pc)).1).edges i = some v →
      alookup (merge_claim_roots sub
        (merge_copy_nodes sub pc (mkNodeId (main.nc + 1)) (merge_m2 main sub pc)).2 pc
        (merge_copy_edges sub
          (merge_copy_nodes sub pc (mkNodeId (main.nc + 1)) (merge_m2 main sub pc)).2
          (merge_copy_nodes sub pc (mkNodeId (main.nc + 1))
            (merge_m2 main sub pc)).1)).edges i = some v := by
    intro i v hv
    rw [edges_merge_claim_roots]
    exact hv
  refine ⟨?_, ?_, ?_, ?_, ?_, ?_⟩
  · intro op hop hroot
    exact (hcn.2.2.2.2 op hop).1 hroot
  · refine ⟨(create_node main NodeType.linked_procedure
      (pc ++ ": " ++ sub.document_name) none none (some pc)).1, ?_, rfl, rfl, hlrfresh⟩
    refine hnodes5 _ _ ?_
    refine hcn.2.1 _ _ ?_
    rw [hm2nodes, merge_m1_nodes main sub pc hc]
    refine alookup_append_self _ _ _ ?_
    exact alookup_eq_none_of_not_mem_keys _ _ hlrfresh
  · intro op hop hroot
    obtain ⟨nid, nn, h1, h2, h3, h4, h5, h6, h7, h8⟩ := (hcn.2.2.2.2 op hop).2 hroot
    refine ⟨nid, nn, h1, ?_, hnodes5 _ _ h3, h4, h5, h8⟩
    intro hmemk
    exact h2 (hmainkeys nid hmemk)
  · intro e he hs ht
    obtain ⟨s, hsv⟩ := hmaptotal e.source_id hs
    obtain ⟨t2, htv⟩ := hmaptotal e.target_id ht
    obtain ⟨i, e', h1, h2, h3, h4, h5⟩ := hce.2.2.2 e he s t2 hsv htv
    exact ⟨s, t2, i, e', hsv, htv, hedges5 i e' h1, h2, h3, h4, h5⟩
  · intro n hn hnt hnc2
    have hn1 : n ∈ dvals (merge_m1 main sub pc).nodes := by
      rw [merge_m1_nodes main sub pc hc]
      unfold dvals
      rw [List.map_append]
      exact List.mem_append_left _ hn
    obtain ⟨i, e', h1, h2, h3, h4⟩ := hdl.2.2.2 n hn1 hnt hnc2
    refine ⟨i, e', ?_, h2, h3, h4⟩
    refine hedges5 i e' ?_
    refine hce.2.2.1 i e' ?_
    rw [hcnEdges]
    exact h1
  · intro cp hcp hcpk
    obtain ⟨nid, hnid⟩ := hmaptotal cp.2 hcpk
    refine ⟨nid, hnid, ?_⟩
    exact claim_roots_fold_registered _ pc sub.claim_type_roots _ hsubr cp hcp nid hnid

/-- A concrete built sub-graph (root node only) for the C4 witness. -/
def subC4 : WorldNetwork :=
  build envNone (SOPParser.parse envNone "Sub doc body.") "PR.OP.CL.0001" "Sub"

theorem C4_merge_correct_witness :
    alookup (merge_nets netC1 subC4 "PR.OP.CL.0001").2.1 "node_0001" =
      some (merge_nets netC1 subC4 "PR.OP.CL.0001").2.2 := by
  have h := C4_merge_correct netC1 subC4 "PR.OP.CL.0001" ⟨rfl, rfl⟩ (by decide) (by decide)
  exact h.1 ("node_0001",
    { id := "node_0001", node_type := NodeType.root, content := "Sub",
      sectionLabel := none, step_number := none, procedure_code := none })
    (by decide) rfl

/-! ## C5: connectivity of built and resolved graphs -/

/-- One directed step along a stored edge of the graph. -/
def EdgeStep (net : WorldNetwork) (a b : String) : Prop :=
  ∃ e ∈ dvals net.edges, e.source_id = a ∧ e.target_id = b

/-- Reachability along stored edges (the stored edges are exactly the
contains, sequence, condition, reference and deep-link edges the claim
names). -/
def Reach (net : WorldNetwork) (a b : String) : Prop :=
  Relation.ReflTransGen (EdgeStep net) a b

/-- Every node entry of the graph is reachable from `r`. -/
def Rooted (net : WorldNetwork) (r : String) : Prop :=
  ∀ p ∈ net.nodes, Reach net r p.1

/-- Every node entry is reachable from `r` or from some
linked-external-root node of the graph. -/
def Anchored (net : WorldNetwork) (r : String) : Prop :=
  ∀ p ∈ net.nodes, Reach net r p.1 ∨
    ∃ q ∈ net.nodes, q.2.node_type = NodeType.linked_procedure ∧ Reach net q.1 p.1

/-- Both endpoints of every stored edge are stored node keys. -/
def EdgesClosed (net : WorldNetwork) : Prop :=
  ∀ e ∈ dvals net.edges, e.source_id ∈ dkeys net.nodes ∧ e.target_id ∈ dkeys net.nodes

/-- The working invariant of the builder: counters consistent, every node
reachable from `r`, edges endpoint-closed, and `r` itself a stored key. -/
def ConnInv (r : String) (net : WorldNetwork) : Prop :=
  counter_ok net ∧ Rooted net r ∧ EdgesClosed net ∧ r ∈ dkeys net.nodes

/-- The graph has only grown: node entries and edge values persist. -/
def GraphLe (net net' : WorldNetwork) : Prop :=
  (∀ p ∈ net.nodes, p ∈ net'.nodes) ∧ (∀ e ∈ dvals net.edges, e ∈ dvals net'.edges)

theorem graphLe_refl (net : WorldNetwork) : GraphLe net net :=
  ⟨fun _ h => h, fun _ h => h⟩

theorem graphLe_trans {a b c : WorldNetwork} (h1 : GraphLe a b) (h2 : GraphLe b c) :
    GraphLe a c :=
  ⟨fun p hp => h2.1 p (h1.1 p hp), fun e he => h2.2 e (h1.2 e he)⟩

theorem reach_mono (net net' : WorldNetwork)
    (h : ∀ e ∈ dvals net.edges, e ∈ dvals net'.edges) :
    ∀ {a b : String}, Reach net a b → Reach net' a b := by
  intro a b hr
  induction hr with
  | refl => exact Relation.ReflTransGen.refl
  | tail _ hstep ih =>
    rcases hstep with ⟨e, he, hs, ht⟩
    exact Relation.ReflTransGen.tail ih ⟨e, h e he, hs, ht⟩

theorem reach_graphLe {net net' : WorldNetwork} (h : GraphLe net net') {a b : String}
    (hr : Reach net a b) : Reach net' a b :=
  reach_mono net net' h.2 hr

theorem keys_graphLe {net net' : WorldNetwork} (h : GraphLe net net') {k : String}
    (hk : k ∈ dkeys net.nodes) : k ∈ dkeys net'.nodes := by
  rcases List.mem_map.mp hk with ⟨p, hp, he⟩
  exact he ▸ List.mem_map.mpr ⟨p, h.1 p hp, rfl⟩

theorem graphLe_same_graph (a b : WorldNetwork) (hn : b.nodes = a.nodes)
    (he : b.edges = a.edges) : GraphLe a b := by
  constructor
  · rw [hn]
    exact fun p hp => hp
  · rw [he]
    exact fun e he2 => he2

theorem counter_ok_same_graph (a b : WorldNetwork) (hn : b.nodes = a.nodes)
    (he : b.edges = a.edges) (hnc : b.nc = a.nc) (hec : b.ec = a.ec)
    (h : counter_ok a) : counter_ok b := by
  constructor
  · rw [hn, hnc]
    exact h.1
  · rw [he, hec]
    exact h.2

theorem anchored_same_graph (r : String) (a b : WorldNetwork) (hn : b.nodes = a.nodes)
    (he : b.edges = a.edges) (h : Anchored a r) : Anchored b r := by
  intro p hp
  rw [hn] at hp
  rcases h p hp with h1 | ⟨q, hq, hty, hqr⟩
  · exact Or.inl (reach_graphLe (graphLe_same_graph a b hn he) h1)
  · refine Or.inr ⟨q, ?_, hty, reach_graphLe (graphLe_same_graph a b hn he) hqr⟩
    rw [hn]
    exact hq

theorem connInv_same_graph (r : String) (a b : WorldNetwork) (hn : b.nodes = a.nodes)
    (he : b.edges = a.edges) (hnc : b.nc = a.nc) (hec : b.ec = a.ec)
    (h : ConnInv r a) : ConnInv r b := by
  obtain ⟨hc, hrt, hcl, hrk⟩ := h
  refine ⟨counter_ok_same_graph a b hn he hnc hec hc, ?_, ?_, ?_⟩
  · intro p hp
    rw [hn] at hp
    exact reach_graphLe (graphLe_same_graph a b hn he) (hrt p hp)
  · intro e he2
    rw [he] at he2
    rw [hn]
    exact hcl e he2
  · rw [hn]
    exact hrk

theorem alookup_of_mem_nodup {α : Type} (l : List (String × α)) (p : String × α)
    (hnd : (dkeys l).Nodup) (h : p ∈ l) : alookup l p.1 = some p.2 := by
  induction l with
  | nil => exact absurd h (List.not_mem_nil p)
  | cons hd t ih =>
    obtain ⟨k0, v0⟩ := hd
    rcases List.mem_cons.mp h with heq | hmem
    · subst heq
      rw [alookup, if_pos rfl]
    · by_cases hk : k0 = p.1
      · exfalso
        refine (List.nodup_cons.mp hnd).1 ?_
        rw [hk]
        exact List.mem_map.mpr ⟨p, hmem, rfl⟩
      · rw [alookup, if_neg hk]
        exact ih (List.nodup_cons.mp hnd).2 hmem

theorem graphLe_create_node (net : WorldNetwork) (nt : NodeType) (c : String)
    (s : Option String) (sn : Option Nat) (p : Option String) (hc : counter_ok net) :
    GraphLe net (create_node net nt c s sn p).2 := by
  have spec := create_node_spec net nt c s sn p hc
  constructor
  · intro q hq
    rw [spec.2.2.1]
    exact List.mem_append_left _ hq
  · intro e he
    rw [spec.2.2.2.2.1]
    exact he

theorem graphLe_create_edge (net : WorldNetwork) (src tgt : String) (et : EdgeType)
    (cond : Option String) (hc : counter_ok net) :
    GraphLe net (create_edge net src tgt et cond).2 := by
  have spec := create_edge_spec net src tgt et cond hc
  constructor
  · intro q hq
    rw [spec.2.2.2.2.1]
    exact hq
  · intro e he
    rw [spec.2.2.1]
    unfold dvals
    rw [List.map_append]
    exact List.mem_append_left _ he

/-- Creating a node and immediately hanging it off an existing reachable
node preserves the connectivity invariant; the new node's id is stored
and reachable. -/
theorem conn_hang (net : WorldNetwork) (r src : String) (nt : NodeType)
    (c : String) (s : Option String) (sn : Option Nat) (p : Option String)
    (et : EdgeType) (cond : Option String)
    (hinv : ConnInv r net) (hsrc : src ∈ dkeys net.nodes) (hr : Reach net r src) :
    ConnInv r (create_edge (create_node net nt c s sn p).2 src
        (create_node net nt c s sn p).1.id et cond).2 ∧
    GraphLe net (create_edge (create_node net nt c s sn p).2 src
        (create_node net nt c s sn p).1.id et cond).2 ∧
    Reach (create_edge (create_node net nt c s sn p).2 src
        (create_node net nt c s sn p).1.id et cond).2 r
      (create_node net nt c s sn p).1.id ∧
    (create_node net nt c s sn p).1.id ∈
      dkeys (create_edge (create_node net nt c s sn p).2 src
        (create_node net nt c s sn p).1.id et cond).2.nodes := by
  obtain ⟨hc, hrt, hcl, hrk⟩ := hinv
  have nspec := create_node_spec net nt c s sn p hc
  have espec := create_edge_spec (create_node net nt c s sn p).2 src
    (create_node net nt c s sn p).1.id et cond nspec.2.2.2.2.2.2
  have hnodes : (create_edge (create_node net nt c s sn p).2 src
      (create_node net nt c s sn p).1.id et cond).2.nodes =
      net.nodes ++ [(mkNodeId (net.nc + 1), (create_node net nt c s sn p).1)] := by
    rw [espec.2.2.2.2.1, nspec.2.2.1]
  have hedges : (create_edge (create_node net nt c s sn p).2 src
      (create_node net nt c s sn p).1.id et cond).2.edges =
      net.edges ++ [(mkEdgeId (net.ec + 1),
        (create_edge (create_node net nt c s sn p).2 src
          (create_node net nt c s sn p).1.id et cond).1)] := by
    rw [espec.2.2.1, nspec.2.2.2.2.1, nspec.2.2.2.2.2.1]
  have hGle : GraphLe net (create_edge (create_node net nt c s sn p).2 src
      (create_node net nt c s sn p).1.id et cond).2 := by
    constructor
    · intro q hq
      rw [hnodes]
      exact List.mem_append_left _ hq
    · intro e he
      rw [hedges]
      unfold dvals
      rw [List.map_append]
      exact List.mem_append_left _ he
  have hidkey : (create_node net nt c s sn p).1.id ∈
      dkeys (create_edge (create_node net nt c s sn p).2 src
        (create_node net nt c s sn p).1.id et cond).2.nodes := by
    rw [hnodes, dkeys_append]
    refine List.mem_append_right _ ?_
    rw [← nspec.1]
    exact List.mem_singleton.mpr rfl
  have hestep : EdgeStep (create_edge (create_node net nt c s sn p).2 src
      (create_node net nt c s sn p).1.id et cond).2 src
      (create_node net nt c s sn p).1.id := by
    refine ⟨(create_edge (create_node net nt c s sn p).2 src
        (create_node net nt c s sn p).1.id et cond).1, ?_, rfl, rfl⟩
    rw [hedges]
    unfold dvals
    rw [List.map_append]
    refine List.mem_append_right _ ?_
    exact List.mem_singleton.mpr rfl
  have hreachNew : Reach (create_edge (create_node net nt c s sn p).2 src
      (create_node net nt c s sn p).1.id et cond).2 r
      (create_node net nt c s sn p).1.id :=
    Relation.ReflTransGen.tail (reach_graphLe hGle hr) hestep
  refine ⟨⟨espec.2.2.2.2.2.2, ?_, ?_, keys_graphLe hGle hrk⟩, hGle, hreachNew, hidkey⟩
  · intro q hq
    rw [hnodes] at hq
    rcases List.mem_append.mp hq with h1 | h2
    · exact reach_graphLe hGle (hrt q h1)
    · have hq1 : q.1 = mkNodeId (net.nc + 1) := by
        rw [List.mem_singleton.mp h2]
      rw [hq1, ← nspec.1]
      exact hreachNew
  · intro e he
    rw [hedges] at he
    unfold dvals at he
    rw [List.map_append] at he
    rcases List.mem_append.mp he with h1 | h2
    · have hold := hcl e h1
      exact ⟨keys_graphLe hGle hold.1, keys_graphLe hGle hold.2⟩
    · have he1 : e = (create_edge (create_node net nt c s sn p).2 src
          (create_node net nt c s sn p).1.id et cond).1 := by
        simpa using h2
      rw [he1]
      exact ⟨keys_graphLe hGle hsrc, hidkey⟩

theorem conn_add_ref (env : ReEnv) (r : String) (net : WorldNetwork) (pc src ctx : String)
    (hinv : ConnInv r net) (hsrc : src ∈ dkeys net.nodes) (hr : Reach net r src) :
    ConnInv r (add_ref env net pc src ctx) ∧ GraphLe net (add_ref env net pc src ctx) := by
  unfold add_ref
  dsimp only
  by_cases hm : dmem net.procedure_refs pc = true
  · simp only [if_pos hm]
    have h := conn_hang net r src NodeType.reference ("Refer to: " ++ pc) none none
      (some pc) EdgeType.reference none hinv hsrc hr
    exact ⟨h.1, h.2.1⟩
  · simp only [if_neg hm]
    have h := conn_hang { net with procedure_refs := (dset net.procedure_refs pc
        (mkPendingRef pc (match env.refTitleHit ctx pc with
          | some m => pstrip m | none => ""))) }
      r src NodeType.reference ("Refer to: " ++ pc) none none
      (some pc) EdgeType.reference none
      (connInv_same_graph r net _ rfl rfl rfl rfl hinv) hsrc
      (reach_graphLe (graphLe_same_graph net _ rfl rfl) hr)
    refine ⟨h.1, graphLe_trans (graphLe_same_graph net _ rfl rfl) h.2.1⟩

theorem conn_fold_add_ref (env : ReEnv) (r src ctx : String) (l : List String) :
    ∀ net0 : WorldNetwork, ConnInv r net0 → src ∈ dkeys net0.nodes →
      Reach net0 r src →
      ConnInv r (l.foldl (fun n pc => add_ref env n pc src ctx) net0) ∧
      GraphLe net0 (l.foldl (fun n pc => add_ref env n pc src ctx) net0) := by
  induction l with
  | nil => intro net0 h0 _ _; exact ⟨h0, graphLe_refl net0⟩
  | cons x t ih =>
    intro net0 h0 hk hrs
    rw [List.foldl_cons]
    have ha := conn_add_ref env r net0 x src ctx h0 hk hrs
    have hrest := ih (add_ref env net0 x src ctx) ha.1
      (keys_graphLe ha.2 hk) (reach_graphLe ha.2 hrs)
    exact ⟨hrest.1, graphLe_trans ha.2 hrest.2⟩

theorem conn_proc_branch (env : ReEnv) (r : String) (net : WorldNetwork) (b : ParsedBranch)
    (pid sec : String) (hinv : ConnInv r net) (hpid : pid ∈ dkeys net.nodes)
    (hr : Reach net r pid) :
    ConnInv r (proc_branch env net b pid sec) ∧ GraphLe net (proc_branch env net b pid sec) := by
  unfold proc_branch
  dsimp only
  have hh := conn_hang net r pid
    (if lowerStr b.btype = "yes" then (NodeType.branch_yes, EdgeType.condition_yes, "YES")
     else if lowerStr b.btype = "no" then (NodeType.branch_no, EdgeType.condition_no, "NO")
     else (NodeType.branch_unsure, EdgeType.condition_unsure, "UNSURE")).1
    b.content (some sec) none none
    (if lowerStr b.btype = "yes" then (NodeType.branch_yes, EdgeType.condition_yes, "YES")
     else if lowerStr b.btype = "no" then (NodeType.branch_no, EdgeType.condition_no, "NO")
     else (NodeType.branch_unsure, EdgeType.condition_unsure, "UNSURE")).2.1
    (some (if lowerStr b.btype = "yes" then (NodeType.branch_yes, EdgeType.condition_yes, "YES")
     else if lowerStr b.btype = "no" then (NodeType.branch_no, EdgeType.condition_no, "NO")
     else (NodeType.branch_unsure, EdgeType.condition_unsure, "UNSURE")).2.2)
    hinv hpid hr
  have hf := conn_fold_add_ref env r _ b.content b.procedure_refs _ hh.1 hh.2.2.2 hh.2.2.1
  exact ⟨hf.1, graphLe_trans hh.2.1 hf.2⟩

theorem conn_fold_branch (env : ReEnv) (r pid sec : String) (l : List ParsedBranch) :
    ∀ net0 : WorldNetwork, ConnInv r net0 → pid ∈ dkeys net0.nodes →
      Reach net0 r pid →
      ConnInv r (l.foldl (fun n b => proc_branch env n b pid sec) net0) ∧
      GraphLe net0 (l.foldl (fun n b => proc_branch env n b pid sec) net0) := by
  induction l with
  | nil => intro net0 h0 _ _; exact ⟨h0, graphLe_refl net0⟩
  | cons x t ih =>
    intro net0 h0 hk hrs
    rw [List.foldl_cons]
    have ha := conn_proc_branch env r net0 x pid sec h0 hk hrs
    have hrest := ih (proc_branch env net0 x pid sec) ha.1
      (keys_graphLe ha.2 hk) (reach_graphLe ha.2 hrs)
    exact ⟨hrest.1, graphLe_trans ha.2 hrest.2⟩

theorem conn_proc_step (env : ReEnv) (r : String) (net : WorldNetwork) (st : ParsedStep)
    (prev sec : String) (hinv : ConnInv r net) (hprev : prev ∈ dkeys net.nodes)
    (hr : Reach net r prev) :
    ConnInv r (proc_step env net st prev sec).2 ∧
    GraphLe net (proc_step env net st prev sec).2 ∧
    (proc_step env net st prev sec).1 ∈ dkeys (proc_step env net st prev sec).2.nodes ∧
    Reach (proc_step env net st prev sec).2 r (proc_step env net st prev sec).1 := by
  unfold proc_step
  by_cases hd : st.is_decision = true
  · rw [if_pos hd]
    dsimp only
    have hh := conn_hang net r prev NodeType.decision st.content (some sec)
      (some st.number) none EdgeType.sequence none hinv hprev hr
    have hb := conn_fold_branch env r _ sec st.branches _ hh.1 hh.2.2.2 hh.2.2.1
    have hf := conn_fold_add_ref env r _ st.full_text st.procedure_refs _ hb.1
      (keys_graphLe hb.2 hh.2.2.2) (reach_graphLe hb.2 hh.2.2.1)
    refine ⟨hf.1, graphLe_trans hh.2.1 (graphLe_trans hb.2 hf.2), ?_, ?_⟩
    · exact keys_graphLe hf.2 (keys_graphLe hb.2 hh.2.2.2)
    · exact reach_graphLe hf.2 (reach_graphLe hb.2 hh.2.2.1)
  · rw [if_neg hd]
    dsimp only
    have hh := conn_hang net r prev NodeType.step st.content (some sec)
      (some st.number) none EdgeType.sequence none hinv hprev hr
    have hf := conn_fold_add_ref env r _ st.full_text st.procedure_refs _ hh.1
      hh.2.2.2 hh.2.2.1
    refine ⟨hf.1, graphLe_trans hh.2.1 hf.2, ?_, ?_⟩
    · exact keys_graphLe hf.2 hh.2.2.2
    · exact reach_graphLe hf.2 hh.2.2.1

theorem conn_fold_steps (env : ReEnv) (r sec : String) (l : List ParsedStep) :
    ∀ acc : String × WorldNetwork, ConnInv r acc.2 → acc.1 ∈ dkeys acc.2.nodes →
      Reach acc.2 r acc.1 →
      ConnInv r (l.foldl (fun (pn : String × WorldNetwork) st =>
        proc_step env pn.2 st pn.1 sec) acc).2 ∧
      GraphLe acc.2 (l.foldl (fun (pn : String × WorldNetwork) st =>
        proc_step env pn.2 st pn.1 sec) acc).2 := by
  induction l with
  | nil => intro acc h0 _ _; exact ⟨h0, graphLe_refl acc.2⟩
  | cons x t ih =>
    intro acc h0 hk hrs
    rw [List.foldl_cons]
    have hs := conn_proc_step env r acc.2 x acc.1 sec h0 hk hrs
    have hrest := ih (proc_step env acc.2 x acc.1 sec) hs.1 hs.2.2.1 hs.2.2.2
    exact ⟨hrest.1, graphLe_trans hs.2.1 hrest.2⟩

theorem conn_proc_section (env : ReEnv) (r : String) (net : WorldNetwork)
    (sec : ParsedSection) (pid : String) (hinv : ConnInv r net)
    (hpid : pid ∈ dkeys net.nodes) (hr : Reach net r pid) :
    ConnInv r (proc_section env net sec pid) ∧ GraphLe net (proc_section env net sec pid) := by
  unfold proc_section
  dsimp only
  have hh := conn_hang net r pid NodeType.claim_type sec.name (some sec.name) none none
    EdgeType.contains none hinv hpid hr
  have hroots : ConnInv r { (create_edge (create_node net NodeType.claim_type sec.name
      (some sec.name) none none).2 pid (create_node net NodeType.claim_type sec.name
      (some sec.name) none none).1.id EdgeType.contains none).2 with
      claim_type_roots := (dset (create_edge (create_node net NodeType.claim_type sec.name
        (some sec.name) none none).2 pid (create_node net NodeType.claim_type sec.name
        (some sec.name) none none).1.id EdgeType.contains none).2.claim_type_roots sec.name
        (create_node net NodeType.claim_type sec.name
          (some sec.name) none none).1.id) } :=
    connInv_same_graph r _ _ rfl rfl rfl rfl hh.1
  have hsame : GraphLe (create_edge (create_node net NodeType.claim_type sec.name
      (some sec.name) none none).2 pid (create_node net NodeType.claim_type sec.name
      (some sec.name) none none).1.id EdgeType.contains none).2
      { (create_edge (create_node net NodeType.claim_type sec.name
      (some sec.name) none none).2 pid (create_node net NodeType.claim_type sec.name
      (some sec.name) none none).1.id EdgeType.contains none).2 with
      claim_type_roots := (dset (create_edge (create_node net NodeType.claim_type sec.name
        (some sec.name) none none).2 pid (create_node net NodeType.claim_type sec.name
        (some sec.name) none none).1.id EdgeType.contains none).2.claim_type_roots sec.name
        (create_node net NodeType.claim_type sec.name
          (some sec.name) none none).1.id) } :=
    graphLe_same_graph _ _ rfl rfl
  have hf := conn_fold_steps env r sec.name sec.steps
    ((create_node net NodeType.claim_type sec.name (some sec.name) none none).1.id,
      { (create_edge (create_node net NodeType.claim_type sec.name
      (some sec.name) none none).2 pid (create_node net NodeType.claim_type sec.name
      (some sec.name) none none).1.id EdgeType.contains none).2 with
      claim_type_roots := (dset (create_edge (create_node net NodeType.claim_type sec.name
        (some sec.name) none none).2 pid (create_node net NodeType.claim_type sec.name
        (some sec.name) none none).1.id EdgeType.contains none).2.claim_type_roots sec.name
        (create_node net NodeType.claim_type sec.name
          (some sec.name) none none).1.id) })
    hroots (keys_graphLe hsame hh.2.2.2) (reach_graphLe hsame hh.2.2.1)
  exact ⟨hf.1, graphLe_trans hh.2.1 (graphLe_trans hsame hf.2)⟩

/-- The builder's first `create_node` call on an empty graph: the root
node is stored under the next id and is trivially reachable from itself. -/
theorem conn_root_create (net0 : WorldNetwork) (dn : String)
    (h0 : net0.nodes = []) (he : net0.edges = []) (hc : counter_ok net0) :
    ConnInv (mkNodeId (net0.nc + 1)) (create_node net0 NodeType.root dn none none none).2 ∧
    ∃ rn, (mkNodeId (net0.nc + 1), rn) ∈
        (create_node net0 NodeType.root dn none none none).2.nodes ∧
      rn.node_type = NodeType.root := by
  have spec := create_node_spec net0 NodeType.root dn none none none hc
  have hn : (create_node net0 NodeType.root dn none none none).2.nodes =
      [(mkNodeId (net0.nc + 1), (create_node net0 NodeType.root dn none none none).1)] := by
    rw [spec.2.2.1, h0]
    rfl
  have hedg : (create_node net0 NodeType.root dn none none none).2.edges = [] := by
    rw [spec.2.2.2.2.1, he]
  refine ⟨⟨spec.2.2.2.2.2.2, ?_, ?_, ?_⟩, ?_⟩
  · intro p hp
    rw [hn] at hp
    have hp1 : p.1 = mkNodeId (net0.nc + 1) := by
      rw [List.mem_singleton.mp hp]
    rw [hp1]
    exact Relation.ReflTransGen.refl
  · intro e he2
    rw [hedg] at he2
    exact absurd he2 (List.not_mem_nil e)
  · rw [hn]
    simp [dkeys]
  · refine ⟨(create_node net0 NodeType.root dn none none none).1, ?_, rfl⟩
    rw [hn]
    exact List.mem_singleton.mpr rfl

/-- `WorldNetworkBuilder.build` produces a graph in which every node is
reachable from the root node (whose id is the first allocated one), all
edges are endpoint-closed, and the root node is stored and ROOT-typed. -/
theorem conn_build (env : ReEnv) (pd : ParsedDoc) (di dn : String) :
    ConnInv (mkNodeId 1) (build env pd di dn) ∧
    ∃ rn, (mkNodeId 1, rn) ∈ (build env pd di dn).nodes ∧
      rn.node_type = NodeType.root := by
  unfold build extract_entities
  dsimp only
  rcases hv : pd.versions with _ | ⟨v0, vrest⟩
  · refine foldl_preserves (fun n => ConnInv (mkNodeId 1) n ∧
      ∃ rn, (mkNodeId 1, rn) ∈ n.nodes ∧ rn.node_type = NodeType.root) _ _ _ ?_ ?_
    · intro n x hn
      by_cases hm : dmem n.entities ("ent_" ++ env.md5hex8 x) = true
      · rw [if_pos hm]
        exact hn
      · rw [if_neg hm]
        exact hn
    · refine foldl_preserves (fun n => ConnInv (mkNodeId 1) n ∧
        ∃ rn, (mkNodeId 1, rn) ∈ n.nodes ∧ rn.node_type = NodeType.root) _ _ _ ?_ ?_
      · intro n x hn
        by_cases hm : dmem n.procedure_refs x.code = true
        · rw [if_pos hm]
          exact hn
        · rw [if_neg hm]
          exact hn
      · refine foldl_preserves (fun n => ConnInv (mkNodeId 1) n ∧
          ∃ rn, (mkNodeId 1, rn) ∈ n.nodes ∧ rn.node_type = NodeType.root) _ _ _ ?_ ?_
        · intro n x hn
          have hs := conn_proc_section env (mkNodeId 1) n x (mkNodeId 1) hn.1
            hn.1.2.2.2 Relation.ReflTransGen.refl
          refine ⟨hs.1, ?_⟩
          obtain ⟨rn, hrn, hty⟩ := hn.2
          exact ⟨rn, hs.2.1 (mkNodeId 1, rn) hrn, hty⟩
        · dsimp only [WorldNetwork.init]
          exact conn_root_create _ dn rfl rfl ⟨rfl, rfl⟩
  · refine foldl_preserves (fun n => ConnInv (mkNodeId 1) n ∧
      ∃ rn, (mkNodeId 1, rn) ∈ n.nodes ∧ rn.node_type = NodeType.root) _ _ _ ?_ ?_
    · intro n x hn
      by_cases hm : dmem n.entities ("ent_" ++ env.md5hex8 x) = true
      · rw [if_pos hm]
        exact hn
      · rw [if_neg hm]
        exact hn
    · refine foldl_preserves (fun n => ConnInv (mkNodeId 1) n ∧
        ∃ rn, (mkNodeId 1, rn) ∈ n.nodes ∧ rn.node_type = NodeType.root) _ _ _ ?_ ?_
      · intro n x hn
        by_cases hm : dmem n.procedure_refs x.code = true
        · rw [if_pos hm]
          exact hn
        · rw [if_neg hm]
          exact hn
      · refine foldl_preserves (fun n => ConnInv (mkNodeId 1) n ∧
          ∃ rn, (mkNodeId 1, rn) ∈ n.nodes ∧ rn.node_type = NodeType.root) _ _ _ ?_ ?_
        · intro n x hn
          have hs := conn_proc_section env (mkNodeId 1) n x (mkNodeId 1) hn.1
            hn.1.2.2.2 Relation.ReflTransGen.refl
          refine ⟨hs.1, ?_⟩
          obtain ⟨rn, hrn, hty⟩ := hn.2
          exact ⟨rn, hs.2.1 (mkNodeId 1, rn) hrn, hty⟩
        · dsimp only [WorldNetwork.init]
          exact conn_root_create _ dn rfl rfl ⟨rfl, rfl⟩

/-- Lifting a sub-graph path through the id-remapping table: if every
sub edge with mapped endpoints has a counterpart edge in the merged
graph, a path between mapped vertices lifts to the merged graph. -/
theorem reach_lift_idmap (sub merged : WorldNetwork) (idmap : List (String × String))
    (hclosed : EdgesClosed sub)
    (hdom : ∀ k, k ∈ dkeys sub.nodes → ∃ i, alookup idmap k = some i)
    (hedge : ∀ e ∈ dvals sub.edges, ∀ s t2, alookup idmap e.source_id = some s →
      alookup idmap e.target_id = some t2 → EdgeStep merged s t2) :
    ∀ a b, Reach sub a b → ∀ ia ib, alookup idmap a = some ia →
      alookup idmap b = some ib → Reach merged ia ib := by
  intro a b hr
  induction hr with
  | refl =>
    intro ia ib h1 h2
    rw [h1, Option.some.injEq] at h2
    rw [h2]
    exact Relation.ReflTransGen.refl
  | tail hac hstep ih =>
    intro ia ib h1 h2
    rcases hstep with ⟨e, he, hs, ht⟩
    obtain ⟨ic, hic⟩ := hdom e.source_id (hclosed e he).1
    have hstep2 : EdgeStep merged ic ib := by
      refine hedge e he ic ib hic ?_
      rw [ht]
      exact h2
    refine Relation.ReflTransGen.tail (ih ia ic h1 ?_) hstep2
    rw [← hs]
    exact hic

/-- Every node entry of the node-copy loop's result is either an entry of
the starting graph or the image of some sub-graph entry under the
id-remapping table the loop builds. -/
theorem copy_nodes_keys (pc lrid : String) (nl : List (String × NetworkNode)) :
    ∀ acc : WorldNetwork × List (String × String), counter_ok acc.1 →
    (∀ p ∈ nl, alookup acc.2 p.1 = none) → (nl.map (·.1)).Nodup →
    ∀ p ∈ (nl.foldl (copy_node_step pc lrid) acc).1.nodes,
      p ∈ acc.1.nodes ∨ ∃ op ∈ nl,
        alookup (nl.foldl (copy_node_step pc lrid) acc).2 op.1 = some p.1 := by
  induction nl with
  | nil => intro acc _ _ _ p hp; exact Or.inl hp
  | cons op0 rest ih =>
    intro acc hc hfresh hnodup p hp
    rw [List.foldl_cons] at hp ⊢
    have hnodup' : (rest.map (·.1)).Nodup := (List.nodup_cons.mp hnodup).2
    have hop0rest : op0.1 ∉ rest.map (·.1) := (List.nodup_cons.mp hnodup).1
    by_cases hroot : op0.2.node_type = NodeType.root
    · have hstep : copy_node_step pc lrid acc op0 = (acc.1, dset acc.2 op0.1 lrid) := by
        unfold copy_node_step
        rw [if_pos hroot]
      rw [hstep] at hp ⊢
      have hfresh' : ∀ q ∈ rest, alookup (dset acc.2 op0.1 lrid) q.1 = none := by
        intro q hq
        have hne : op0.1 ≠ q.1 := by
          intro heq
          exact hop0rest (heq ▸ List.mem_map.mpr ⟨q, hq, rfl⟩)
        rw [alookup_dset_ne _ _ _ _ hne]
        exact hfresh q (List.mem_cons_of_mem _ hq)
      rcases ih (acc.1, dset acc.2 op0.1 lrid) hc hfresh' hnodup' p hp with h1 | ⟨op, hop, hlk⟩
      · exact Or.inl h1
      · exact Or.inr ⟨op, List.mem_cons_of_mem _ hop, hlk⟩
    · have hstep : copy_node_step pc lrid acc op0 =
          ((create_node acc.1 op0.2.node_type op0.2.content
              (merged_section_label pc op0.2.sectionLabel) op0.2.step_number (some pc)).2,
            dset acc.2 op0.1 (mkNodeId (acc.1.nc + 1))) := by
        unfold copy_node_step
        rw [if_neg hroot]
        rfl
      rw [hstep] at hp ⊢
      have spec := create_node_spec acc.1 op0.2.node_type op0.2.content
        (merged_section_label pc op0.2.sectionLabel) op0.2.step_number (some pc) hc
      have hfresh' : ∀ q ∈ rest,
          alookup (dset acc.2 op0.1 (mkNodeId (acc.1.nc + 1))) q.1 = none := by
        intro q hq
        have hne : op0.1 ≠ q.1 := by
          intro heq
          exact hop0rest (heq ▸ List.mem_map.mpr ⟨q, hq, rfl⟩)
        rw [alookup_dset_ne _ _ _ _ hne]
        exact hfresh q (List.mem_cons_of_mem _ hq)
      rcases ih ((create_node acc.1 op0.2.node_type op0.2.content
            (merged_section_label pc op0.2.sectionLabel) op0.2.step_number (some pc)).2,
          dset acc.2 op0.1 (mkNodeId (acc.1.nc + 1))) spec.2.2.2.2.2.2 hfresh' hnodup'
          p hp with h1 | ⟨op, hop, hlk⟩
      · rw [spec.2.2.1] at h1
        rcases List.mem_append.mp h1 with h2 | h3
        · exact Or.inl h2
        · have hp1 : p.1 = mkNodeId (acc.1.nc + 1) := by
            rw [List.mem_singleton.mp h3]
          refine Or.inr ⟨op0, List.mem_cons_self _ _, ?_⟩
          rw [hp1]
          have hrest := copy_nodes_fold_spec pc lrid rest
            ((create_node acc.1 op0.2.node_type op0.2.content
                (merged_section_label pc op0.2.sectionLabel) op0.2.step_number (some pc)).2,
              dset acc.2 op0.1 (mkNodeId (acc.1.nc + 1))) spec.2.2.2.2.2.2 hfresh' hnodup'
          exact hrest.2.2.1 op0.1 (mkNodeId (acc.1.nc + 1)) (alookup_dset_self _ _ _)
      · exact Or.inr ⟨op, List.mem_cons_of_mem _ hop, hlk⟩

/-- `_merge` preserves anchored connectivity: the linked-external-root
anchors itself and every copied sub-graph node, and the old graph keeps
its anchors. -/
theorem anchored_merge_into (main sub : WorldNetwork) (pc r : String)
    (hc : counter_ok main) (ha : Anchored main r)
    (hcs : counter_ok sub) (hroot : Rooted sub (mkNodeId 1))
    (hclosed : EdgesClosed sub)
    (hrn : ∃ rn, (mkNodeId 1, rn) ∈ sub.nodes ∧ rn.node_type = NodeType.root) :
    Anchored (merge_into main sub pc) r := by
  have hdecomp : merge_into main sub pc = merge_claim_roots sub
      (merge_copy_nodes sub pc (mkNodeId (main.nc + 1)) (merge_m2 main sub pc)).2 pc
      (merge_copy_edges sub
        (merge_copy_nodes sub pc (mkNodeId (main.nc + 1)) (merge_m2 main sub pc)).2
        (merge_copy_nodes sub pc (mkNodeId (main.nc + 1)) (merge_m2 main sub pc)).1) := by
    unfold merge_into
    rw [merge_nets_decomp]
  rw [hdecomp]
  have hsubn : (dkeys sub.nodes).Nodup := (counter_ok_nodup sub hcs).1
  have hlrfresh : mkNodeId (main.nc + 1) ∉ dkeys main.nodes :=
    (create_node_spec main NodeType.linked_procedure
      (pc ++ ": " ++ sub.document_name) none none (some pc) hc).2.1
  have hm1c : counter_ok (merge_m1 main sub pc) := counter_ok_merge_m1 main sub pc hc
  have hm1edges : (merge_m1 main sub pc).edges = main.edges :=
    (create_node_spec main NodeType.linked_procedure
      (pc ++ ": " ++ sub.document_name) none none (some pc) hc).2.2.2.2.1
  have hdl := deep_link_fold_spec (mkNodeId (main.nc + 1)) pc
    (dvals (merge_m1 main sub pc).nodes) (merge_m1 main sub pc) hm1c
  have hm2c : counter_ok (merge_m2 main sub pc) := hdl.1
  have hm2nodes : (merge_m2 main sub pc).nodes = (merge_m1 main sub pc).nodes := hdl.2.1
  have hcn := copy_nodes_fold_spec pc (mkNodeId (main.nc + 1)) sub.nodes
    (merge_m2 main sub pc, []) hm2c (fun p _ => rfl) hsubn
  have hce := copy_edges_fold_spec
    (merge_copy_nodes sub pc (mkNodeId (main.nc + 1)) (merge_m2 main sub pc)).2
    (dvals sub.edges)
    (merge_copy_nodes sub pc (mkNodeId (main.nc + 1)) (merge_m2 main sub pc)).1 hcn.1
  have hcnEdges : (merge_copy_nodes sub pc (mkNodeId (main.nc + 1))
      (merge_m2 main sub pc)).1.edges = (merge_m2 main sub pc).edges := hcn.2.2.2.1
  have hceNodes : (merge_copy_edges sub
      (merge_copy_nodes sub pc (mkNodeId (main.nc + 1)) (merge_m2 main sub pc)).2
      (merge_copy_nodes sub pc (mkNodeId (main.nc + 1)) (merge_m2 main sub pc)).1).nodes =
      (merge_copy_nodes sub pc (mkNodeId (main.nc + 1)) (merge_m2 main sub pc)).1.nodes :=
    hce.2.1
  have hEdgesPres : ∀ k v, alookup main.edges k = some v →
      alookup (merge_claim_roots sub
        (merge_copy_nodes sub pc (mkNodeId (main.nc + 1)) (merge_m2 main sub pc)).2 pc
        (merge_copy_edges sub
          (merge_copy_nodes sub pc (mkNodeId (main.nc + 1)) (merge_m2 main sub pc)).2
          (merge_copy_nodes sub pc (mkNodeId (main.nc + 1))
            (merge_m2 main sub pc)).1)).edges k = some v := by
    intro k v hv
    rw [edges_merge_claim_roots]
    refine hce.2.2.1 k v ?_
    rw [hcnEdges]
    refine hdl.2.2.1 k v ?_
    rw [hm1edges]
    exact hv
  have hNodesPres : ∀ k v, alookup main.nodes k = some v →
      alookup (merge_claim_roots sub
        (merge_copy_nodes sub pc (mkNodeId (main.nc + 1)) (merge_m2 main sub pc)).2 pc
        (merge_copy_edges sub
          (merge_copy_nodes sub pc (mkNodeId (main.nc + 1)) (merge_m2 main sub pc)).2
          (merge_copy_nodes sub pc (mkNodeId (main.nc + 1))
            (merge_m2 main sub pc)).1)).nodes k = some v := by
    intro k v hv
    rw [nodes_merge_claim_roots, hceNodes]
    refine hcn.2.1 k v ?_
    rw [hm2nodes, merge_m1_nodes main sub pc hc]
    exact alookup_append_left _ _ _ _ hv
  have hGleMain : GraphLe main (merge_claim_roots sub
      (merge_copy_nodes sub pc (mkNodeId (main.nc + 1)) (merge_m2 main sub pc)).2 pc
      (merge_copy_edges sub
        (merge_copy_nodes sub pc (mkNodeId (main.nc + 1)) (merge_m2 main sub pc)).2
        (merge_copy_nodes sub pc (mkNodeId (main.nc + 1))
          (merge_m2 main sub pc)).1)) := by
    constructor
    · intro p hp
      have hl := alookup_of_mem_nodup main.nodes p (counter_ok_nodup main hc).1 hp
      exact alookup_mem _ _ _ (hNodesPres p.1 p.2 hl)
    · intro e he
      rcases List.mem_map.mp he with ⟨q, hq, hqe⟩
      have hl := alookup_of_mem_nodup main.edges q (counter_ok_nodup main hc).2 hq
      have hm := alookup_mem _ _ _ (hEdgesPres q.1 q.2 hl)
      exact hqe ▸ List.mem_map.mpr ⟨(q.1, q.2), hm, rfl⟩
  have hlrn : alookup (merge_claim_roots sub
      (merge_copy_nodes sub pc (mkNodeId (main.nc + 1)) (merge_m2 main sub pc)).2 pc
      (merge_copy_edges sub
        (merge_copy_nodes sub pc (mkNodeId (main.nc + 1)) (merge_m2 main sub pc)).2
        (merge_copy_nodes sub pc (mkNodeId (main.nc + 1))
          (merge_m2 main sub pc)).1)).nodes (mkNodeId (main.nc + 1)) =
      some (create_node main NodeType.linked_procedure
        (pc ++ ": " ++ sub.document_name) none none (some pc)).1 := by
    rw [nodes_merge_claim_roots, hceNodes]
    refine hcn.2.1 _ _ ?_
    rw [hm2nodes, merge_m1_nodes main sub pc hc]
    exact alookup_append_self _ _ _ (alookup_eq_none_of_not_mem_keys _ _ hlrfresh)
  have hlrmem := alookup_mem _ _ _ hlrn
  have hmaptotal : ∀ oid, oid ∈ dkeys sub.nodes → ∃ nid,
      alookup (merge_copy_nodes sub pc (mkNodeId (main.nc + 1))
        (merge_m2 main sub pc)).2 oid = some nid := by
    intro oid hoid
    rcases List.mem_map.mp hoid with ⟨op, hop, heq⟩
    subst heq
    have hok := hcn.2.2.2.2 op hop
    by_cases hro : op.2.node_type = NodeType.root
    · exact ⟨mkNodeId (main.nc + 1), hok.1 hro⟩
    · obtain ⟨nid, nn, h1, _⟩ := hok.2 hro
      exact ⟨nid, h1⟩
  have hidmaproot : alookup (merge_copy_nodes sub pc (mkNodeId (main.nc + 1))
      (merge_m2 main sub pc)).2 (mkNodeId 1) = some (mkNodeId (main.nc + 1)) := by
    obtain ⟨rn0, hrnmem, hrnty⟩ := hrn
    exact (hcn.2.2.2.2 (mkNodeId 1, rn0) hrnmem).1 hrnty
  have hedgestep : ∀ e ∈ dvals sub.edges, ∀ s t2,
      alookup (merge_copy_nodes sub pc (mkNodeId (main.nc + 1))
        (merge_m2 main sub pc)).2 e.source_id = some s →
      alookup (merge_copy_nodes sub pc (mkNodeId (main.nc + 1))
        (merge_m2 main sub pc)).2 e.target_id = some t2 →
      EdgeStep (merge_claim_roots sub
        (merge_copy_nodes sub pc (mkNodeId (main.nc + 1)) (merge_m2 main sub pc)).2 pc
        (merge_copy_edges sub
          (merge_copy_nodes sub pc (mkNodeId (main.nc + 1)) (merge_m2 main sub pc)).2
          (merge_copy_nodes sub pc (mkNodeId (main.nc + 1))
            (merge_m2 main sub pc)).1)) s t2 := by
    intro e he s t2 hs ht
    obtain ⟨i, e2, h1, h2, h3, h4, h5⟩ := hce.2.2.2 e he s t2 hs ht
    have h1b : alookup (merge_claim_roots sub
        (merge_copy_nodes sub pc (mkNodeId (main.nc + 1)) (merge_m2 main sub pc)).2 pc
        (merge_copy_edges sub
          (merge_copy_nodes sub pc (mkNodeId (main.nc + 1)) (merge_m2 main sub pc)).2
          (merge_copy_nodes sub pc (mkNodeId (main.nc + 1))
            (merge_m2 main sub pc)).1)).edges i = some e2 := by
      rw [edges_merge_claim_roots]
      exact h1
    exact ⟨e2, List.mem_map.mpr ⟨(i, e2), alookup_mem _ _ _ h1b, rfl⟩, h2, h3⟩
  have hreachlift : ∀ oid, oid ∈ dkeys sub.nodes → ∀ i2,
      alookup (merge_copy_nodes sub pc (mkNodeId (main.nc + 1))
        (merge_m2 main sub pc)).2 oid = some i2 →
      Reach (merge_claim_roots sub
        (merge_copy_nodes sub pc (mkNodeId (main.nc + 1)) (merge_m2 main sub pc)).2 pc
        (merge_copy_edges sub
          (merge_copy_nodes sub pc (mkNodeId (main.nc + 1)) (merge_m2 main sub pc)).2
          (merge_copy_nodes sub pc (mkNodeId (main.nc + 1))
            (merge_m2 main sub pc)).1)) (mkNodeId (main.nc + 1)) i2 := by
    intro oid hoid i2 hi2
    rcases List.mem_map.mp hoid with ⟨q, hq, hqe⟩
    have hre : Reach sub (mkNodeId 1) oid := hqe ▸ hroot q hq
    exact reach_lift_idmap sub _ _ hclosed hmaptotal hedgestep (mkNodeId 1) oid hre
      _ _ hidmaproot hi2
  intro p hp
  rw [nodes_merge_claim_roots, hceNodes] at hp
  rcases copy_nodes_keys pc (mkNodeId (main.nc + 1)) sub.nodes
      (merge_m2 main sub pc, []) hm2c (fun q _ => rfl) hsubn p hp with h1 | ⟨op, hop, hlk⟩
  · rw [hm2nodes, merge_m1_nodes main sub pc hc] at h1
    rcases List.mem_append.mp h1 with hmn | hlr
    · rcases ha p hmn with hra | ⟨q, hq, hqty, hqr⟩
      · exact Or.inl (reach_graphLe hGleMain hra)
      · exact Or.inr ⟨q, hGleMain.1 q hq, hqty, reach_graphLe hGleMain hqr⟩
    · have hp1 : p.1 = mkNodeId (main.nc + 1) := by
        rw [List.mem_singleton.mp hlr]
      refine Or.inr ⟨(mkNodeId (main.nc + 1),
        (create_node main NodeType.linked_procedure
          (pc ++ ": " ++ sub.document_name) none none (some pc)).1), hlrmem, rfl, ?_⟩
      rw [hp1]
      exact Relation.ReflTransGen.refl
  · exact Or.inr ⟨(mkNodeId (main.nc + 1),
      (create_node main NodeType.linked_procedure
        (pc ++ ": " ++ sub.document_name) none none (some pc)).1), hlrmem, rfl,
      hreachlift op.1 (List.mem_map.mpr ⟨op, hop, rfl⟩) p.1 hlk⟩

/-- The resolver preserves the anchored-connectivity invariant: every
graph update of `_resolve` either touches only `procedure_refs` or is a
merge, which anchors all new nodes at the linked-external-root. -/
theorem anchorInv_resolve (env : ReEnv) (w : World) (r : String) :
    ∀ fuel pc net, counter_ok net ∧ Anchored net r →
      counter_ok (resolve env w fuel pc net).1 ∧ Anchored (resolve env w fuel pc net).1 r := by
  refine resolve_preserves env w (fun n => counter_ok n ∧ Anchored n r) ?_ ?_ ?_ ?_
  · intro net pc _ h
    exact ⟨counter_ok_same_graph net _ rfl rfl rfl rfl h.1,
      anchored_same_graph r net _ rfl rfl h.2⟩
  · intro net pc pdf e _ _ h
    exact ⟨counter_ok_same_graph net _ rfl rfl rfl rfl h.1,
      anchored_same_graph r net _ rfl rfl h.2⟩
  · intro net pc pdf txt _ _ h
    have hcb := counter_ok_build env (SOPParser.parse env txt) pc
      (SOPParser.parse env txt).document_info.title
    have hconn := conn_build env (SOPParser.parse env txt) pc
      (SOPParser.parse env txt).document_info.title
    have hmerge : counter_ok (merge_into net (build env (SOPParser.parse env txt) pc
        (SOPParser.parse env txt).document_info.title) pc) :=
      counter_ok_merge_into net _ pc h.1
    have hanch : Anchored (merge_into net (build env (SOPParser.parse env txt) pc
        (SOPParser.parse env txt).document_info.title) pc) r :=
      anchored_merge_into net _ pc r h.1 h.2 hcb hconn.1.2.1 hconn.1.2.2.1 hconn.2
    exact ⟨counter_ok_same_graph _ _ rfl rfl rfl rfl hmerge,
      anchored_same_graph r _ _ rfl rfl hanch⟩
  · intro net cc h
    unfold register_pending
    by_cases hm : dmem net.procedure_refs cc = true
    · rw [if_pos hm]
      exact h
    · rw [if_neg hm]
      exact ⟨counter_ok_same_graph net _ rfl rfl rfl rfl h.1,
        anchored_same_graph r net _ rfl rfl h.2⟩

/-- `resolve_all` preserves the anchored-connectivity invariant. -/
theorem anchorInv_resolve_all (env : ReEnv) (w : World) (net : WorldNetwork)
    (max_d : Nat) (r : String) (hc : counter_ok net) (ha : Anchored net r) :
    counter_ok (resolve_all env w net max_d) ∧
    Anchored (resolve_all env w net max_d) r := by
  unfold resolve_all
  by_cases hp : w.pdirOk = false
  · rw [if_pos hp]
    exact ⟨hc, ha⟩
  · rw [if_neg hp]
    refine foldl_preserves (fun n => counter_ok n ∧ Anchored n r) _ _ _ ?_ ⟨hc, ha⟩
    intro n pc hn
    exact anchorInv_resolve env w r max_d pc n hn

/-- In a graph with no stored edges, reachability collapses to equality. -/
theorem reach_no_edges (net : WorldNetwork) (h : net.edges = []) (a b : String)
    (hr : Reach net a b) : a = b := by
  induction hr with
  | refl => rfl
  | tail _ hstep _ =>
    rcases hstep with ⟨e, he, _, _⟩
    rw [h] at he
    exact absurd he (List.not_mem_nil e)

/-- Regex services of the C5 scenario: in the main document's text the
procedure-reference pattern `PR\.OP\.CL\.\d{4}` finds `PR.OP.CL.0002`
once, while no section-heading, step, version, title, branch-marker or
provider-id pattern matches anything in either document's text. -/
def envC5 : ReEnv :=
  { titleHit := fun _ => none, docIdHit := fun _ => none, verHits := fun _ => [],
    sectionHits := fun _ => [], stepHits := fun _ => [],
    procHits := fun t => if t = "See PR.OP.CL.0002 now" then ["PR.OP.CL.0002"] else [],
    refTitleHit := fun _ _ => none,
    yesHit := fun _ => none, noHit := fun _ => none, unsureHit := fun _ => none,
    md5hex8 := fun _ => "", providerHits := fun _ => [] }

/-- The external world of the C5 scenario: the code's PDF is located and
extracts to a trivial sub-document text. -/
def worldC5 : World :=
  { pdirOk := true,
    find := fun pc => if pc = "PR.OP.CL.0002" then some "PR.OP.CL.0002.pdf" else none,
    extract := fun _ => Except.ok "Sub body." }

/-- The C5 main graph: built from a document whose only mention of the
code sits outside every section, so the build registers the code as a
pending reference but creates no reference-pointer node for it. -/
def netC5 : WorldNetwork :=
  build envC5 (SOPParser.parse envC5 "See PR.OP.CL.0002 now") "P100" "Main"

/-- The C5 graph after the resolver pass. -/
def netC5res : WorldNetwork := resolve_all envC5 worldC5 netC5 3

/-- C5: counterexample.  The main document mentions `PR.OP.CL.0002` only
outside every section, so `build` registers it in `procedure_refs` but
creates no reference-pointer node carrying it; after `resolve_all` the
merge has created the linked-external-root `node_0002`, yet the graph
holds no edge at all, so that node is not reachable from the root
`node_0001` — the connectivity claim fails for linked-external-root
nodes created by a merge. -/
theorem C5_counterexample :
    (∃ p ∈ netC5res.nodes, p.1 = "node_0001" ∧ p.2.node_type = NodeType.root) ∧
    (∃ p ∈ netC5res.nodes, p.1 = "node_0002" ∧
      p.2.node_type = NodeType.linked_procedure) ∧
    ¬ Reach netC5res "node_0001" "node_0002" := by
  refine ⟨by decide, by decide, ?_⟩
  intro hr
  have h := reach_no_edges netC5res rfl "node_0001" "node_0002" hr
  exact absurd h (by decide)

/-- C5 (amended): in every graph produced by a build pass, every node is
reachable from the root node (the node under the first allocated id);
and under any number of further resolver passes the graphs satisfy the
weaker anchored invariant that is actually preserved: every node is
reachable from the root or from some linked-external-root node.  (The
original claim — reachability from the root alone, including for every
linked-external-root created by a merge — is refuted by the
counterexample: a merge for a code with no reference-pointer node
leaves the linked-external-root without incoming edges.) -/
theorem C5_amended_connectivity (env : ReEnv) (pd : ParsedDoc) (di dn : String) :
    Rooted (build env pd di dn) (mkNodeId 1) ∧
    (∀ (env2 : ReEnv) (w : World) (max_d : Nat) (net : WorldNetwork) (r : String),
      counter_ok net → Anchored net r →
      counter_ok (resolve_all env2 w net max_d) ∧
      Anchored (resolve_all env2 w net max_d) r) :=
  ⟨(conn_build env pd di dn).1.2.1,
    fun env2 w max_d net r hc ha => anchorInv_resolve_all env2 w net max_d r hc ha⟩

theorem C5_amended_connectivity_witness :
    counter_ok (resolve_all envC5 worldC5 netC5 3) ∧
    Anchored (resolve_all envC5 worldC5 netC5 3) "node_0001" := by
  have h := C5_amended_connectivity envC5
    (SOPParser.parse envC5 "See PR.OP.CL.0002 now") "P100" "Main"
  have hmk : mkNodeId 1 = "node_0001" := rfl
  refine h.2 envC5 worldC5 3 netC5 "node_0001" ?_ ?_
  · exact counter_ok_build envC5 (SOPParser.parse envC5 "See PR.OP.CL.0002 now") "P100" "Main"
  · intro p hp
    exact Or.inl (hmk ▸ h.1 p hp)
